import Mathlib

/-!
The program regsvr32: argument scanning and the per-module call sequence.

A shallow embedding of `programs/regsvr32/regsvr32.c`.

* A command-line token is the list of wide characters before its terminator;
  the memory object behind `argv[i]` is that list followed by one NUL
  (`argvBuf`).  Every indexed read and write of the C code goes through
  `readAt` / `writeAt`, which answer `none` outside the object.
* A read or write outside the object ends the run of the model
  (`Ending.outOfBounds`).  What the program does after such an access depends on
  memory that is not part of the token, so a result about runs says something
  about the program only for runs that do not end this way.  It happens only in
  the flag test on a one-character `/` or `-`; the results on appending,
  inserting or deleting tokens are stated for argument lists without such a
  token, and `laidOut` gives the memory the flag test meets on such a token when
  the argument strings lie back to back.
* The outside world (the loader, the entry points of the loaded modules and
  `tolowerW` from `wine/unicode.h`) is an `Oracle`; its answers may depend on
  the system calls made so far.
* The run records two logs: `calls` (system calls and entry-point calls) and
  `out` (the messages handed to the reporter while `Silent` is off).
-/

namespace Regsvr32

/-! ## Data model and the program -/

/-- Wide-character string without its terminator. -/
abbrev WStr := List Char

/-- The terminating wide character. -/
def NUL : Char := Char.ofNat 0

/-- Names given to `GetProcAddress`. -/
inductive Proc where
  | DllRegisterServer
  | DllUnregisterServer
  | DllInstall
  deriving DecidableEq, Repr

/-- One call through a resolved entry point, with its arguments. -/
inductive Call where
  | DllRegisterServer
  | DllUnregisterServer
  | DllInstall (install : Bool) (command_line : Option WStr)
  deriving DecidableEq, Repr

/-- System calls and entry-point calls, in the order they are made. -/
inductive Event where
  | OleInitialize
  | OleUninitialize
  | LoadLibraryExW (strDll : WStr) (handle : Nat)
  | GetProcAddress (handle : Nat) (procName : Proc) (found : Bool)
  | Invoke (strDll : WStr) (call : Call) (hr : Int)
  | FreeLibrary (handle : Nat)
  | ExitProcess (code : Int)
  deriving DecidableEq, Repr

/-- Message identifiers of `regsvr32.h` with the arguments of `output_write`. -/
inductive Msg where
  | STRING_HEADER
  | STRING_USAGE
  | STRING_UNRECOGNIZED_SWITCH (arg : WStr)
  | STRING_DLL_LOAD_FAILED (strDll : WStr)
  | STRING_PROC_NOT_IMPLEMENTED (procName : Proc) (strDll : WStr)
  | STRING_REGISTER_FAILED (strDll : WStr)
  | STRING_REGISTER_SUCCESSFUL (strDll : WStr)
  | STRING_UNREGISTER_FAILED (strDll : WStr)
  | STRING_UNREGISTER_SUCCESSFUL (strDll : WStr)
  | STRING_INSTALL_FAILED (strDll : WStr)
  | STRING_INSTALL_SUCCESSFUL (strDll : WStr)
  | STRING_UNINSTALL_FAILED (strDll : WStr)
  | STRING_UNINSTALL_SUCCESSFUL (strDll : WStr)
  deriving DecidableEq, Repr

/-- The world outside the program.  `tolowerW` comes from `wine/unicode.h`,
which is not part of the sources at hand, so it is a parameter.  The loader and
the entry points answer from the system calls made so far; a module handle is a
number, `0` being `NULL`; an entry point answers with its `HRESULT`. -/
structure Oracle where
  tolowerW : Char → Char
  LoadLibraryExW : List Event → WStr → Nat
  GetProcAddress : List Event → Nat → Proc → Bool
  invoke : List Event → WStr → Call → Int

/-- The file-scope `Silent`, the locals of `wmain`, and the two logs. -/
structure State where
  Silent : Bool
  CallRegister : Bool
  CallInstall : Bool
  Unregister : Bool
  DllFound : Bool
  wsCommandLine : Option WStr
  calls : List Event
  out : List Msg
  deriving DecidableEq, Repr

/-- How a run ends. -/
inductive Ending where
  | returned (status : Int)
  | exited (code : Int)
  | outOfBounds
  deriving DecidableEq, Repr

/-- Result of a piece of code that may end the run. -/
inductive Outcome (α : Type) where
  | ok (s : State) (a : α)
  | halt (s : State) (e : Ending)
  deriving Repr

/-- The memory object behind a token: its characters and the terminator. -/
def argvBuf (tok : WStr) : List Char := tok ++ [NUL]

/-- Indexed read `p[i]`; `none` when `i` is outside the object. -/
def readAt (buf : List Char) (i : Nat) : Option Char := buf[i]?

/-- Indexed write `p[i] = c`; `none` when `i` is negative or outside the object. -/
def writeAt (buf : List Char) (i : Int) (c : Char) : Option (List Char) :=
  if 0 ≤ i ∧ i.toNat < buf.length then some (buf.set i.toNat c) else none

/-- The string a pointer `buf + p` denotes: the characters before the first NUL. -/
def cstrAt (buf : List Char) (p : Nat) : WStr := (buf.drop p).takeWhile (fun c => c != NUL)

/-- The call `strlenW(buf + p)`; `none` when the scan leaves the object. -/
def strlenW (buf : List Char) (p : Nat) : Option Int :=
  if NUL ∈ buf.drop p then some ((cstrAt buf p).length : Int) else none

/-- The macro `FAILED(hr)`: the status is negative. -/
def FAILED (hr : Int) : Bool := decide (hr < 0)

/-- Append a system call to the log. -/
def State.call (s : State) (e : Event) : State := { s with calls := s.calls ++ [e] }

/-- Function `output_write`: nothing when `Silent`, else the message goes to the
reporter. -/
def output_write (s : State) (m : Msg) : State :=
  if s.Silent then s else { s with out := s.out ++ [m] }

/-- Function `LoadProc`: the answer is whether the procedure was found, with
`*DllHandle`. -/
def LoadProc (o : Oracle) (s : State) (strDll : WStr) (procName : Proc) :
    Outcome (Bool × Nat) :=
  let DllHandle := o.LoadLibraryExW s.calls strDll
  let s := s.call (.LoadLibraryExW strDll DllHandle)
  if DllHandle = 0 then
    let s := output_write s (.STRING_DLL_LOAD_FAILED strDll)
    .halt (s.call (.ExitProcess 1)) (.exited 1)
  else
    let proc := o.GetProcAddress s.calls DllHandle procName
    let s := s.call (.GetProcAddress DllHandle procName proc)
    if !proc then
      let s := output_write s (.STRING_PROC_NOT_IMPLEMENTED procName strDll)
      .ok (s.call (.FreeLibrary DllHandle)) (false, DllHandle)
    else
      .ok s (true, DllHandle)

/-- Function `RegisterDll`: the answer is its return value. -/
def RegisterDll (o : Oracle) (s : State) (strDll : WStr) : Outcome Int :=
  match LoadProc o s strDll .DllRegisterServer with
  | .halt s e => .halt s e
  | .ok s (pfRegister, DllHandle) =>
    if !pfRegister then .ok s 0
    else
      let hr := o.invoke s.calls strDll .DllRegisterServer
      let s := s.call (.Invoke strDll .DllRegisterServer hr)
      if FAILED hr then
        .ok (output_write s (.STRING_REGISTER_FAILED strDll)) (-1)
      else
        let s := output_write s (.STRING_REGISTER_SUCCESSFUL strDll)
        let s := if DllHandle ≠ 0 then s.call (.FreeLibrary DllHandle) else s
        .ok s 0

/-- Function `UnregisterDll`: the answer is its return value. -/
def UnregisterDll (o : Oracle) (s : State) (strDll : WStr) : Outcome Int :=
  match LoadProc o s strDll .DllUnregisterServer with
  | .halt s e => .halt s e
  | .ok s (pfUnregister, DllHandle) =>
    if !pfUnregister then .ok s 0
    else
      let hr := o.invoke s.calls strDll .DllUnregisterServer
      let s := s.call (.Invoke strDll .DllUnregisterServer hr)
      if FAILED hr then
        .ok (output_write s (.STRING_UNREGISTER_FAILED strDll)) (-1)
      else
        let s := output_write s (.STRING_UNREGISTER_SUCCESSFUL strDll)
        let s := if DllHandle ≠ 0 then s.call (.FreeLibrary DllHandle) else s
        .ok s 0

/-- Function `InstallDll`: the answer is its return value. -/
def InstallDll (o : Oracle) (s : State) (install : Bool) (strDll : WStr)
    (command_line : Option WStr) : Outcome Int :=
  match LoadProc o s strDll .DllInstall with
  | .halt s e => .halt s e
  | .ok s (pfInstall, DllHandle) =>
    if !pfInstall then .ok s 0
    else
      let hr := o.invoke s.calls strDll (.DllInstall install command_line)
      let s := s.call (.Invoke strDll (.DllInstall install command_line) hr)
      if FAILED hr then
        let s := if install then output_write s (.STRING_INSTALL_FAILED strDll)
                 else output_write s (.STRING_UNINSTALL_FAILED strDll)
        .ok s (-1)
      else
        let s := if install then output_write s (.STRING_INSTALL_SUCCESSFUL strDll)
                 else output_write s (.STRING_UNINSTALL_SUCCESSFUL strDll)
        let s := if DllHandle ≠ 0 then s.call (.FreeLibrary DllHandle) else s
        .ok s 0

/-- Function `parse_command_line(buf + p)`: the buffer after the call and the returned
pointer as an offset into it (`none` is `NULL`); the outer `none` is an access
outside the object. -/
def parse_command_line (buf : List Char) (p : Nat) : Option (List Char × Option Nat) := do
  let c0 ← readAt buf p
  if c0 = ':' then
    let c1 ← readAt buf (p + 1)
    if c1 ≠ NUL then
      let len0 ← strlenW buf p
      let p1 := p + 1
      let len1 := len0 - 1
      let d0 ← readAt buf p1
      if d0 = '"' then
        let p2 := p1 + 1
        let len2 := len1 - 1
        let e0 ← readAt buf p2
        if e0 ≠ NUL then
          let len3 := len2 - 1
          let buf3 ← writeAt buf ((p2 : Int) + len3) NUL
          let f0 ← readAt buf3 p2
          if f0 ≠ NUL then pure (buf3, some p2) else pure (buf3, none)
        else
          let f0 ← readAt buf p2
          if f0 ≠ NUL then pure (buf, some p2) else pure (buf, none)
      else
        let f0 ← readAt buf p1
        if f0 ≠ NUL then pure (buf, some p1) else pure (buf, none)
    else pure (buf, none)
  else pure (buf, none)

/-- The test `(argv[i][0] == '/' || argv[i][0] == '-') && (!argv[i][2] || argv[i][2] == ':')`
on the buffer of a token, with the short-circuit order of C. -/
def flagTest (buf : List Char) : Option Bool := do
  let a0 ← readAt buf 0
  if a0 = '/' ∨ a0 = '-' then
    let a2 ← readAt buf 2
    pure (decide (a2 = NUL ∨ a2 = ':'))
  else pure false

/-- The `else` branch of the loop body: one module name. -/
def wmain_target (o : Oracle) (s : State) (DllName : WStr) : Outcome Unit :=
  let s := { s with DllFound := true }
  let r : Outcome Int :=
    if !s.CallInstall || (s.CallInstall && s.CallRegister) then
      if s.Unregister then UnregisterDll o s DllName else RegisterDll o s DllName
    else .ok s 0
  match r with
  | .halt s e => .halt s e
  | .ok s res =>
    if res ≠ 0 then .halt s (.returned res)
    else
      let r : Outcome Int :=
        if s.CallInstall then InstallDll o s (!s.Unregister) DllName s.wsCommandLine
        else .ok s res
      match r with
      | .halt s e => .halt s e
      | .ok s res => if res ≠ 0 then .halt s (.returned res) else .ok s ()

/-- The `switch` on the flag letter. -/
def wmain_switch (o : Oracle) (s : State) (tok : WStr) (buf : List Char) : Outcome Unit :=
  match readAt buf 1 with
  | none => .halt s .outOfBounds
  | some a1 =>
    let l := o.tolowerW a1
    if l = 'u' then .ok { s with Unregister := true } ()
    else if l = 's' then .ok { s with Silent := true } ()
    else if l = 'i' then
      let s := { s with CallInstall := true }
      match parse_command_line buf 2 with
      | none => .halt s .outOfBounds
      | some (buf, some p) => .ok { s with wsCommandLine := some (cstrAt buf p) } ()
      | some (_, none) => .ok { s with wsCommandLine := some [] } ()
    else if l = 'n' then .ok { s with CallRegister := false } ()
    else if l = 'c' then .ok s ()
    else
      let s := output_write s (.STRING_UNRECOGNIZED_SWITCH tok)
      let s := output_write s .STRING_USAGE
      .halt s (.returned 1)

/-- One iteration of the `for` loop of `wmain`, on the token `argv[i]`. -/
def wmain_body (o : Oracle) (s : State) (tok : WStr) : Outcome Unit :=
  match flagTest (argvBuf tok) with
  | none => .halt s .outOfBounds
  | some true => wmain_switch o s tok (argvBuf tok)
  | some false => wmain_target o s tok

/-- The `for` loop of `wmain` over `argv[1] .. argv[argc-1]`. -/
def wmain_loop (o : Oracle) (s : State) : List WStr → Outcome Unit
  | [] => .ok s ()
  | tok :: rest =>
    match wmain_body o s tok with
    | .halt s e => .halt s e
    | .ok s _ => wmain_loop o s rest

/-- The state `wmain` starts from. -/
def initState : State :=
  { Silent := false, CallRegister := true, CallInstall := false, Unregister := false,
    DllFound := false, wsCommandLine := none, calls := [], out := [] }

/-- Function `wmain(argc, argv)`; `argv` includes the program name `argv[0]`. -/
def wmain (o : Oracle) (argv : List WStr) : State × Ending :=
  let s := initState.call .OleInitialize
  match wmain_loop o s argv.tail with
  | .halt s e => (s, e)
  | .ok s _ =>
    if !s.DllFound then
      let s := output_write s .STRING_HEADER
      let s := output_write s .STRING_USAGE
      (s, .returned 1)
    else
      (s.call Event.OleUninitialize, .returned 0)

/-- A string as a C string can hold it: no NUL inside. -/
def NoNul (w : WStr) : Prop := ∀ c ∈ w, c ≠ NUL

instance (w : WStr) : Decidable (NoNul w) := by unfold NoNul; infer_instance

/-- ASCII lower-casing, a sample `tolowerW`. -/
def asciiLower (c : Char) : Char :=
  if 'A'.toNat ≤ c.toNat ∧ c.toNat ≤ 'Z'.toNat then Char.ofNat (c.toNat + 32) else c

/-- A sample world: every module loads with handle `1`, exports everything,
and every entry point answers `S_OK`. -/
def okOracle : Oracle :=
  { tolowerW := asciiLower
    LoadLibraryExW := fun _ _ => 1
    GetProcAddress := fun _ _ _ => true
    invoke := fun _ _ _ => 0 }

/-- Flag token in the words of the specification: it starts with `/` or `-`
and (its length is exactly 2, or its third character is `:`). -/
def isFlagToken (tok : WStr) : Bool :=
  (tok.head? = some '/' || tok.head? = some '-') && (tok.length = 2 || tok[2]? = some ':')

/-- A one-character token `/` or `-`. -/
def LoneSlash (tok : WStr) : Prop := tok = ['/'] ∨ tok = ['-']

instance (tok : WStr) : Decidable (LoneSlash tok) := by unfold LoneSlash; infer_instance

/-- The letter of a flag token, `argv[i][1]`. -/
def flagLetter (tok : WStr) : Char := tok.getD 1 NUL

/-- The letters the `switch` of `wmain` has a `case` for. -/
def recognizedLetters : List Char := ['u', 's', 'i', 'n', 'c']

/-- The flag letter is one the `switch` accepts, after `tolowerW`. -/
def Recognized (o : Oracle) (tok : WStr) : Prop := o.tolowerW (flagLetter tok) ∈ recognizedLetters

instance (o : Oracle) (tok : WStr) : Decidable (Recognized o tok) := by
  unfold Recognized; infer_instance

/-- The text added to the reporter's log by one `output_write` from state `s`. -/
def say (s : State) (m : Msg) : List Msg := if s.Silent then [] else [m]

/-- Common form of `RegisterDll`, `UnregisterDll` and `InstallDll`: load, resolve
`procName`, make the call `c`, report `failMsg` or `okMsg`. -/
def runOp (o : Oracle) (s : State) (strDll : WStr) (procName : Proc) (c : Call)
    (failMsg okMsg : Msg) : Outcome Int :=
  let h := o.LoadLibraryExW s.calls strDll
  let l1 := s.calls ++ [.LoadLibraryExW strDll h]
  if h = 0 then
    .halt { s with calls := l1 ++ [.ExitProcess 1],
                   out := s.out ++ say s (.STRING_DLL_LOAD_FAILED strDll) } (.exited 1)
  else
    let found := o.GetProcAddress l1 h procName
    let l2 := l1 ++ [.GetProcAddress h procName found]
    if found = false then
      .ok { s with calls := l2 ++ [.FreeLibrary h],
                   out := s.out ++ say s (.STRING_PROC_NOT_IMPLEMENTED procName strDll) } 0
    else
      let hr := o.invoke l2 strDll c
      let l3 := l2 ++ [.Invoke strDll c hr]
      if hr < 0 then .ok { s with calls := l3, out := s.out ++ say s failMsg } (-1)
      else .ok { s with calls := l3 ++ [.FreeLibrary h], out := s.out ++ say s okMsg } 0

/-- The failure message `output_write` gets for a call. -/
def failMsg (c : Call) (strDll : WStr) : Msg :=
  match c with
  | .DllRegisterServer => .STRING_REGISTER_FAILED strDll
  | .DllUnregisterServer => .STRING_UNREGISTER_FAILED strDll
  | .DllInstall true _ => .STRING_INSTALL_FAILED strDll
  | .DllInstall false _ => .STRING_UNINSTALL_FAILED strDll

/-- The success message `output_write` gets for a call. -/
def okMsg (c : Call) (strDll : WStr) : Msg :=
  match c with
  | .DllRegisterServer => .STRING_REGISTER_SUCCESSFUL strDll
  | .DllUnregisterServer => .STRING_UNREGISTER_SUCCESSFUL strDll
  | .DllInstall true _ => .STRING_INSTALL_SUCCESSFUL strDll
  | .DllInstall false _ => .STRING_UNINSTALL_SUCCESSFUL strDll

/-- The name under which a call is resolved. -/
def procOf (c : Call) : Proc :=
  match c with
  | .DllRegisterServer => .DllRegisterServer
  | .DllUnregisterServer => .DllUnregisterServer
  | .DllInstall _ _ => .DllInstall

/-- The register-or-unregister call chosen by `Unregister`. -/
def regCall (s : State) : Call :=
  if s.Unregister then .DllUnregisterServer else .DllRegisterServer

/-- The install call for the flags of `s`. -/
def instCall (s : State) : Call := .DllInstall (!s.Unregister) s.wsCommandLine

/-- An operation in the common form, named by its call. -/
def doOp (o : Oracle) (s : State) (t : WStr) (c : Call) : Outcome Int :=
  runOp o s t (procOf c) c (failMsg c t) (okMsg c t)

/-- A failed load or a failed call. -/
def Event.fatal : Event → Bool
  | .LoadLibraryExW _ h => decide (h = 0)
  | .Invoke _ _ hr => FAILED hr
  | _ => false

/-- A log without a failed load and without a failed call. -/
def Clean (l : List Event) : Prop := ∀ e ∈ l, e.fatal = false

instance (l : List Event) : Decidable (Clean l) := by unfold Clean; infer_instance

/-- The exits of an operation, with the state each leaves. -/
inductive OpExit (s : State) (t : WStr) (c : Call) : Outcome Int → Prop where
  | loadFailed :
      OpExit s t c (.halt { s with calls := s.calls ++ [.LoadLibraryExW t 0, .ExitProcess 1],
                                   out := s.out ++ say s (.STRING_DLL_LOAD_FAILED t) } (.exited 1))
  | missing (h : Nat) (hh : h ≠ 0) :
      OpExit s t c (.ok { s with calls := s.calls ++ [.LoadLibraryExW t h,
                                    .GetProcAddress h (procOf c) false, .FreeLibrary h],
                                 out := s.out ++ say s (.STRING_PROC_NOT_IMPLEMENTED (procOf c) t) } 0)
  | callFailed (h : Nat) (hh : h ≠ 0) (hr : Int) (hhr : hr < 0) :
      OpExit s t c (.ok { s with calls := s.calls ++ [.LoadLibraryExW t h,
                                    .GetProcAddress h (procOf c) true, .Invoke t c hr],
                                 out := s.out ++ say s (failMsg c t) } (-1))
  | succeeded (h : Nat) (hh : h ≠ 0) (hr : Int) (hhr : ¬ hr < 0) :
      OpExit s t c (.ok { s with calls := s.calls ++ [.LoadLibraryExW t h,
                                    .GetProcAddress h (procOf c) true, .Invoke t c hr,
                                    .FreeLibrary h],
                                 out := s.out ++ say s (okMsg c t) } 0)

/-- The calls planned for a module name under the flags of `s`: the register or
unregister call unless `/i` is in effect without `CallRegister`, then the
install call when `/i` is in effect. -/
def plannedCalls (s : State) : List Call :=
  (if !s.CallInstall || s.CallRegister then [regCall s] else []) ++
  (if s.CallInstall then [instCall s] else [])

/-- Run the calls `cs` on module `t` in order, stopping at the first fatal outcome. -/
def runOps (o : Oracle) (s : State) (t : WStr) : List Call → Outcome Unit
  | [] => .ok s ()
  | c :: cs =>
    match doOp o s t c with
    | .halt s1 e => .halt s1 e
    | .ok s1 res => if res ≠ 0 then .halt s1 (.returned res) else runOps o s1 t cs

/-- The flags of two states agree (everything but the logs). -/
def SameFlags (s s1 : State) : Prop :=
  s1.Silent = s.Silent ∧ s1.CallRegister = s.CallRegister ∧ s1.CallInstall = s.CallInstall ∧
  s1.Unregister = s.Unregister ∧ s1.DllFound = s.DllFound ∧ s1.wsCommandLine = s.wsCommandLine

/-- What the logs look like when the run has been stopped. -/
inductive Halted : State → Ending → Prop where
  | outOfBounds (s : State) (hc : Clean s.calls) : Halted s .outOfBounds
  | usage (s : State) (tok : WStr) (m : List Msg) (hc : Clean s.calls)
      (ho : s.out = m ++ (say s (.STRING_UNRECOGNIZED_SWITCH tok) ++ say s .STRING_USAGE)) :
      Halted s (.returned 1)
  | loadFailed (s : State) (l : List Event) (t : WStr) (m : List Msg)
      (hl : s.calls = l ++ [.LoadLibraryExW t 0, .ExitProcess 1]) (hc : Clean l)
      (ho : s.out = m ++ say s (.STRING_DLL_LOAD_FAILED t)) : Halted s (.exited 1)
  | callFailed (s : State) (l : List Event) (t : WStr) (c : Call) (hr : Int) (m : List Msg)
      (hl : s.calls = l ++ [.Invoke t c hr]) (hhr : hr < 0) (hc : Clean l)
      (ho : s.out = m ++ say s (failMsg c t)) : Halted s (.returned (-1))

/-- A continuing run has a clean log; a stopped one has one of the shapes of `Halted`. -/
def Shaped : Outcome Unit → Prop
  | .ok s _ => Clean s.calls
  | .halt s e => Halted s e

/-- The flags and logs after a recognized flag token: only flags change. -/
def FlagStep (s s1 : State) : Prop :=
  s1.calls = s.calls ∧ s1.out = s.out ∧ s1.DllFound = s.DllFound ∧
  (s.Silent = true → s1.Silent = true)

/-- The state in which the loop of `wmain` starts. -/
def startState : State := initState.call .OleInitialize

/-- A sample world in which every entry point answers `E_FAIL`. -/
def failOracle : Oracle :=
  { okOracle with invoke := fun _ _ _ => -2147467259 }

/-- A sample world in which no module loads. -/
def noLoadOracle : Oracle :=
  { okOracle with LoadLibraryExW := fun _ _ => 0 }

/-- A sample world in which the modules load but export nothing. -/
def noExportOracle : Oracle :=
  { okOracle with GetProcAddress := fun _ _ _ => false }

/-- The program name used in the sample runs. -/
def progName : WStr := "regsvr32".toList

/-- A module name used in the sample runs. -/
def aDll : WStr := "a.dll".toList

/-- A second module name used in the sample runs. -/
def bDll : WStr := "b.dll".toList

/-- The token with its flag letter in upper case. -/
def upcaseLetter (tok : WStr) : WStr :=
  match tok with
  | a :: b :: r => a :: b.toUpper :: r
  | _ => tok

/-- Either `tok1` is `tok`, or `tok` is a flag token with one of the letters u, s, i, n, c
and `tok1` is `tok` with that letter in upper case. -/
def CaseVariant (tok tok1 : WStr) : Prop :=
  tok1 = tok ∨
  (isFlagToken tok = true ∧ flagLetter tok ∈ recognizedLetters ∧ tok1 = upcaseLetter tok)

/-- The state an outcome carries. -/
def Outcome.state {α : Type} : Outcome α → State
  | .ok s _ => s
  | .halt s _ => s

/-- Whether the outcome ends the run. -/
def Outcome.halted {α : Type} : Outcome α → Bool
  | .ok _ _ => false
  | .halt _ _ => true

/-- The procedure names resolved in a log, in order. -/
def resolvedProcs (l : List Event) : List Proc :=
  l.filterMap fun e => match e with
    | .GetProcAddress _ p _ => some p
    | _ => none

/-- The entry-point calls made in a log, with the module and the arguments, in order. -/
def invokedCalls (l : List Event) : List (WStr × Call) :=
  l.filterMap fun e => match e with
    | .Invoke t c _ => some (t, c)
    | _ => none

/-- The module names given to the loader in a log, in order. -/
def loadedModules (l : List Event) : List WStr :=
  l.filterMap fun e => match e with
    | .LoadLibraryExW t _ => some t
    | _ => none

/-- What the part `new` of the log added while running the calls `cs` on module
`t` looks like. -/
def OpsTrace (t : WStr) (cs : List Call) (new : List Event) (halted : Bool) : Prop :=
  resolvedProcs new <+: cs.map procOf ∧
  (invokedCalls new).Sublist (cs.map fun c => (t, c)) ∧
  (Clean new → halted = false ∧ resolvedProcs new = cs.map procOf) ∧
  (halted = false → Clean new) ∧
  (∀ l1 e l2, new = l1 ++ e :: l2 → e.fatal = true → l2 = [] ∨ l2 = [.ExitProcess 1])

/-- The state after an operation found the module loaded with handle `h` but
without the procedure `p`: load, failed resolution, release, and the
not-implemented diagnostic unless `Silent`. -/
def afterMissing (s : State) (t : WStr) (h : Nat) (p : Proc) : State :=
  { s with calls := s.calls ++ [.LoadLibraryExW t h, .GetProcAddress h p false, .FreeLibrary h],
           out := s.out ++ (if s.Silent then [] else [.STRING_PROC_NOT_IMPLEMENTED p t]) }

/-- The log of an operation that lets the run go on: the entry point is missing,
or it was called and answered a success status; the handle is released. -/
inductive OpLog (t : WStr) : List Event → Prop where
  | missing (h : Nat) (p : Proc) (hh : h ≠ 0) :
      OpLog t [.LoadLibraryExW t h, .GetProcAddress h p false, .FreeLibrary h]
  | succeeded (h : Nat) (c : Call) (hr : Int) (hh : h ≠ 0) (hhr : ¬ hr < 0) :
      OpLog t [.LoadLibraryExW t h, .GetProcAddress h (procOf c) true, .Invoke t c hr,
        .FreeLibrary h]

/-- The log of an operation that ends the run: the load failed, or the entry
point answered a failure status. -/
inductive FatalLog (t : WStr) : List Event → Ending → Prop where
  | loadFailed : FatalLog t [.LoadLibraryExW t 0, .ExitProcess 1] (.exited 1)
  | callFailed (h : Nat) (c : Call) (hr : Int) (hh : h ≠ 0) (hhr : hr < 0) :
      FatalLog t [.LoadLibraryExW t h, .GetProcAddress h (procOf c) true, .Invoke t c hr]
        (.returned (-1))

/-- A sequence of logs of operations that let the run go on. -/
inductive RunLog : List Event → Prop where
  | nil : RunLog []
  | op (t : WStr) (seg l : List Event) (hseg : OpLog t seg) (hl : RunLog l) : RunLog (seg ++ l)

/-- The log added from state `s` by a piece of the run: operations that let the
run go on, then, when the run is stopped by an operation, the log of that
operation. -/
def LogFrom (s : State) : Outcome Unit → Prop
  | .ok s1 _ => ∃ new, s1.calls = s.calls ++ new ∧ RunLog new
  | .halt s1 e =>
      ∃ new, RunLog new ∧
        ((s1.calls = s.calls ++ new ∧ (e = .returned 1 ∨ e = .outOfBounds)) ∨
         ∃ t tl, s1.calls = s.calls ++ new ++ tl ∧ FatalLog t tl e)

/-- The log of a whole run of `wmain` with its ending. -/
inductive WmainLog : List Event → Ending → Prop where
  | completed (new : List Event) (h : RunLog new) :
      WmainLog (.OleInitialize :: (new ++ [ Event.OleUninitialize])) (.returned 0)
  | early (new : List Event) (e : Ending) (h : RunLog new)
      (he : e = .returned 1 ∨ e = .outOfBounds) : WmainLog (.OleInitialize :: new) e
  | fatal (new : List Event) (t : WStr) (tl : List Event) (e : Ending) (h : RunLog new)
      (hf : FatalLog t tl e) : WmainLog (.OleInitialize :: (new ++ tl)) e

/-- The module loads and entry-point calls of a log, with their arguments and
results, in order. -/
def loadsAndCalls (l : List Event) : List Event :=
  l.filter fun e => match e with
    | .LoadLibraryExW _ _ => true
    | .Invoke _ _ _ => true
    | _ => false

/-- The handles of the successful loads of a log, in order. -/
def loadedHandles (l : List Event) : List Nat :=
  l.filterMap fun e => match e with
    | .LoadLibraryExW _ h => if h = 0 then none else some h
    | _ => none

/-- The handles released in a log, in order. -/
def freedHandles (l : List Event) : List Nat :=
  l.filterMap fun e => match e with
    | .FreeLibrary h => some h
    | _ => none

/-- The state with `Silent` set and the messages replaced by `m`. -/
def State.silenced (s : State) (m : List Msg) : State := { s with Silent := true, out := m }

/-- Apply a function to the state an outcome carries. -/
def Outcome.mapState {α : Type} (f : State → State) : Outcome α → Outcome α
  | .ok s a => .ok (f s) a
  | .halt s e => .halt (f s) e

/-- The code of `wmain` after the loop. -/
def wmain_end : Outcome Unit → State × Ending
  | .halt s e => (s, e)
  | .ok s _ =>
    if !s.DllFound then
      (output_write (output_write s .STRING_HEADER) .STRING_USAGE, .returned 1)
    else (s.call Event.OleUninitialize, .returned 0)

/-- The state with `CallRegister` replaced. -/
def State.withReg (s : State) (b : Bool) : State := { s with CallRegister := b }

/-- The token is one of the `/n` and `-n` tokens to delete. -/
def isNoRegisterToken (tok : WStr) : Bool := tok == ['/', 'n'] || tok == ['-', 'n']

/-- The log that the sequencing of the specification prescribes for the calls
`cs` on the module `t` after the system calls `hist`: for each call in turn the
module is loaded; a failed load ends the process; a missing entry point is
skipped after the module is released; an entry point that is found is called
with the arguments of the call; a failure status ends the run there, a success
status is followed by the release of the module and the next call. -/
def planLog (o : Oracle) (t : WStr) : List Event → List Call → List Event
  | _, [] => []
  | hist, c :: cs =>
    let h := o.LoadLibraryExW hist t
    if h = 0 then [.LoadLibraryExW t 0, .ExitProcess 1]
    else if o.GetProcAddress (hist ++ [.LoadLibraryExW t h]) h (procOf c) = false then
      [.LoadLibraryExW t h, .GetProcAddress h (procOf c) false, .FreeLibrary h] ++
        planLog o t
          (hist ++ [.LoadLibraryExW t h, .GetProcAddress h (procOf c) false, .FreeLibrary h]) cs
    else
      let hr := o.invoke (hist ++ [.LoadLibraryExW t h, .GetProcAddress h (procOf c) true]) t c
      if hr < 0 then [.LoadLibraryExW t h, .GetProcAddress h (procOf c) true, .Invoke t c hr]
      else
        [.LoadLibraryExW t h, .GetProcAddress h (procOf c) true, .Invoke t c hr,
          .FreeLibrary h] ++
          planLog o t
            (hist ++ [.LoadLibraryExW t h, .GetProcAddress h (procOf c) true, .Invoke t c hr,
              .FreeLibrary h]) cs

/-- A sample world in which a module loads (handle `1`) until an entry point has
been called, and no longer afterwards; everything is exported and every entry
point answers `S_OK`. -/
def loadOnceOracle : Oracle :=
  { okOracle with
    LoadLibraryExW := fun l _ =>
      if l.any (fun e => match e with
        | .Invoke _ _ _ => true
        | _ => false) then 0 else 1 }

/-- The memory from the first character of the first of the tokens on, when the
argument strings lie back to back: each token with its terminator, one after
the other. -/
def laidOut : List WStr → List Char
  | [] => []
  | tok :: rest => argvBuf tok ++ laidOut rest

/-! ## Lemmas and the claims -/

theorem NUL_ne_colon : NUL ≠ ':' := by decide

theorem NUL_ne_slash : NUL ≠ '/' := by decide

theorem NUL_ne_dash : NUL ≠ '-' := by decide

theorem NUL_ne_quote : NUL ≠ '"' := by decide

theorem flagTest_of_isFlagToken (tok : WStr) (h : isFlagToken tok = true) :
    flagTest (argvBuf tok) = some true := by
  match tok, h with
  | [], h => simp [isFlagToken] at h
  | [a], h => simp [isFlagToken] at h
  | [a, b], h =>
    simp [isFlagToken] at h
    rcases h with h | h <;> simp [flagTest, argvBuf, readAt, h]
  | a :: b :: c :: r, h =>
    simp [isFlagToken] at h
    obtain ⟨h1, h2⟩ := h
    rcases h1 with h1 | h1 <;> simp [flagTest, argvBuf, readAt, h1, h2]

theorem flagTest_of_not_isFlagToken (tok : WStr) (hn : NoNul tok) (hl : ¬ LoneSlash tok)
    (h : isFlagToken tok = false) : flagTest (argvBuf tok) = some false := by
  match tok, hn, hl, h with
  | [], _, _, _ => simp [flagTest, argvBuf, readAt, NUL_ne_slash, NUL_ne_dash]
  | [a], _, hl, _ =>
    simp [LoneSlash] at hl
    simp [flagTest, argvBuf, readAt, hl]
  | [a, b], _, _, h =>
    simp [isFlagToken] at h
    simp [flagTest, argvBuf, readAt, h]
  | a :: b :: c :: r, hn, _, h =>
    have hc : c ≠ NUL := hn c (by simp)
    simp [isFlagToken] at h
    by_cases ha : a = '/' ∨ a = '-'
    · have h2 : c ≠ ':' := by
        rcases ha with ha | ha <;> simpa [ha] using h
      simp [flagTest, argvBuf, readAt, ha, hc, h2]
    · simp [flagTest, argvBuf, readAt, ha]

theorem flagTest_loneSlash (tok : WStr) (h : LoneSlash tok) : flagTest (argvBuf tok) = none := by
  rcases h with h | h <;> subst h <;> decide

theorem RegisterDll_eq (o : Oracle) (s : State) (t : WStr) :
    RegisterDll o s t = runOp o s t .DllRegisterServer .DllRegisterServer
      (failMsg .DllRegisterServer t) (okMsg .DllRegisterServer t) := by
  unfold RegisterDll LoadProc runOp
  by_cases h0 : o.LoadLibraryExW s.calls t = 0
  · cases hs : s.Silent <;> simp [h0, output_write, State.call, say, hs]
  · by_cases hf : o.GetProcAddress (s.calls ++ [.LoadLibraryExW t (o.LoadLibraryExW s.calls t)])
        (o.LoadLibraryExW s.calls t) .DllRegisterServer = true
    · by_cases hr : o.invoke (s.calls ++ [.LoadLibraryExW t (o.LoadLibraryExW s.calls t)] ++
          [.GetProcAddress (o.LoadLibraryExW s.calls t) .DllRegisterServer true]) t
          .DllRegisterServer < 0
      all_goals cases hs : s.Silent <;>
        simp_all [output_write, State.call, say, FAILED, failMsg, okMsg]
    · cases hs : s.Silent <;> simp_all [output_write, State.call, say]

theorem UnregisterDll_eq (o : Oracle) (s : State) (t : WStr) :
    UnregisterDll o s t = runOp o s t .DllUnregisterServer .DllUnregisterServer
      (failMsg .DllUnregisterServer t) (okMsg .DllUnregisterServer t) := by
  unfold UnregisterDll LoadProc runOp
  by_cases h0 : o.LoadLibraryExW s.calls t = 0
  · cases hs : s.Silent <;> simp [h0, output_write, State.call, say, hs]
  · by_cases hf : o.GetProcAddress (s.calls ++ [.LoadLibraryExW t (o.LoadLibraryExW s.calls t)])
        (o.LoadLibraryExW s.calls t) .DllUnregisterServer = true
    · by_cases hr : o.invoke (s.calls ++ [.LoadLibraryExW t (o.LoadLibraryExW s.calls t)] ++
          [.GetProcAddress (o.LoadLibraryExW s.calls t) .DllUnregisterServer true]) t
          .DllUnregisterServer < 0
      all_goals cases hs : s.Silent <;>
        simp_all [output_write, State.call, say, FAILED, failMsg, okMsg]
    · cases hs : s.Silent <;> simp_all [output_write, State.call, say]

theorem InstallDll_eq (o : Oracle) (s : State) (install : Bool) (t : WStr)
    (cl : Option WStr) :
    InstallDll o s install t cl = runOp o s t .DllInstall (.DllInstall install cl)
      (failMsg (.DllInstall install cl) t) (okMsg (.DllInstall install cl) t) := by
  unfold InstallDll LoadProc runOp
  by_cases h0 : o.LoadLibraryExW s.calls t = 0
  · cases hs : s.Silent <;> simp [h0, output_write, State.call, say, hs]
  · by_cases hf : o.GetProcAddress (s.calls ++ [.LoadLibraryExW t (o.LoadLibraryExW s.calls t)])
        (o.LoadLibraryExW s.calls t) .DllInstall = true
    · by_cases hr : o.invoke (s.calls ++ [.LoadLibraryExW t (o.LoadLibraryExW s.calls t)] ++
          [.GetProcAddress (o.LoadLibraryExW s.calls t) .DllInstall true]) t
          (.DllInstall install cl) < 0
      all_goals cases hs : s.Silent <;> cases install <;>
        simp_all [output_write, State.call, say, FAILED, failMsg, okMsg]
    · cases hs : s.Silent <;> simp_all [output_write, State.call, say]

/-- The loop body for a module name, over the common form of the operations. -/
theorem wmain_target_eq (o : Oracle) (s : State) (t : WStr) :
    wmain_target o s t =
      (match (if !s.CallInstall || s.CallRegister
                then doOp o { s with DllFound := true } t (regCall s)
                else .ok { s with DllFound := true } 0) with
       | .halt s1 e => .halt s1 e
       | .ok s1 res =>
         if res ≠ 0 then .halt s1 (.returned res)
         else
           match (if s1.CallInstall then doOp o s1 t (instCall s1) else .ok s1 res) with
           | .halt s2 e => .halt s2 e
           | .ok s2 res => if res ≠ 0 then .halt s2 (.returned res) else .ok s2 ()) := by
  unfold wmain_target
  simp only [RegisterDll_eq, UnregisterDll_eq, InstallDll_eq, doOp, regCall, instCall]
  cases hi : s.CallInstall <;> cases hr : s.CallRegister <;> cases hu : s.Unregister <;>
    simp [procOf]

theorem Clean_append {l m : List Event} : Clean (l ++ m) ↔ Clean l ∧ Clean m := by
  simp only [Clean, List.mem_append]
  constructor
  · intro h
    exact ⟨fun e he => h e (Or.inl he), fun e he => h e (Or.inr he)⟩
  · rintro ⟨h1, h2⟩ e (he | he)
    · exact h1 e he
    · exact h2 e he

theorem doOp_exit (o : Oracle) (s : State) (t : WStr) (c : Call) :
    OpExit s t c (doOp o s t c) := by
  unfold doOp runOp
  by_cases h0 : o.LoadLibraryExW s.calls t = 0
  · simp only [h0, ↓reduceIte, List.append_assoc, List.singleton_append]
    exact OpExit.loadFailed
  · simp only [h0, ↓reduceIte]
    split
    · next hf =>
      simp only [hf, List.append_assoc, List.singleton_append]
      exact OpExit.missing (o.LoadLibraryExW s.calls t) h0
    · next hf =>
      simp only [Bool.not_eq_false] at hf
      simp only [hf, List.append_assoc, List.singleton_append]
      split
      · next hr => exact OpExit.callFailed (o.LoadLibraryExW s.calls t) h0 _ hr
      · next hr => exact OpExit.succeeded (o.LoadLibraryExW s.calls t) h0 _ hr

theorem doOp_ok_sameFlags {o : Oracle} {s s1 : State} {t : WStr} {c : Call} {res : Int}
    (h : doOp o s t c = .ok s1 res) : SameFlags s s1 := by
  have hx := doOp_exit o s t c
  rw [h] at hx
  cases hx <;> simp [SameFlags]

theorem doOp_halt_sameFlags {o : Oracle} {s s1 : State} {t : WStr} {c : Call} {e : Ending}
    (h : doOp o s t c = .halt s1 e) : SameFlags s s1 := by
  have hx := doOp_exit o s t c
  rw [h] at hx
  cases hx; simp [SameFlags]

theorem wmain_target_runOps (o : Oracle) (s : State) (t : WStr) :
    wmain_target o s t = runOps o { s with DllFound := true } t (plannedCalls s) := by
  rw [wmain_target_eq]
  cases hi : s.CallInstall <;> cases hr : s.CallRegister <;>
    simp only [plannedCalls, hi, hr, runOps, Bool.not_false, Bool.not_true, Bool.or_false,
      Bool.or_true, Bool.false_or, Bool.true_or, ↓reduceIte, List.append_nil, List.nil_append,
      List.singleton_append, Bool.false_eq_true, regCall, instCall]
  case true.false => simp
  all_goals
    generalize hd : doOp o _ t _ = r
    cases r with
    | halt s1 e => rfl
    | ok s1 res =>
      have hf := doOp_ok_sameFlags hd
      simp only [SameFlags] at hf
      by_cases h0 : res = 0 <;> simp [h0, hf]

theorem NUL_mem_of_cons {c : Char} {w : List Char} (h : NUL ∈ c :: w) (hc : c ≠ NUL) : NUL ∈ w := by
  rcases List.mem_cons.1 h with h | h
  · exact absurd h.symm hc
  · exact h

theorem pcl_not_colon (a b c : Char) (w : List Char) (hc : c ≠ ':') :
    parse_command_line (a :: b :: c :: w) 2 = some (a :: b :: c :: w, none) := by
  simp [parse_command_line, readAt, hc]

theorem pcl_colon_end (a b : Char) (w : List Char) :
    parse_command_line (a :: b :: ':' :: NUL :: w) 2 = some (a :: b :: ':' :: NUL :: w, none) := by
  simp [parse_command_line, readAt]

theorem pcl_plain (a b d : Char) (w : List Char) (hd : d ≠ NUL) (hq : d ≠ '"') (hw : NUL ∈ w) :
    parse_command_line (a :: b :: ':' :: d :: w) 2 = some (a :: b :: ':' :: d :: w, some 3) := by
  simp [parse_command_line, readAt, hd, hq, strlenW, hw]

theorem pcl_quote_end (a b : Char) (w : List Char) :
    parse_command_line (a :: b :: ':' :: '"' :: NUL :: w) 2
      = some (a :: b :: ':' :: '"' :: NUL :: w, none) := by
  simp [parse_command_line, readAt, strlenW, NUL_ne_quote.symm]

theorem takeWhile_three (c d e : Char) (w : List Char) (hc : c ≠ NUL) (hd : d ≠ NUL)
    (he : e ≠ NUL) :
    (c :: d :: e :: w).takeWhile (fun x => x != NUL)
      = c :: d :: e :: w.takeWhile (fun x => x != NUL) := by
  simp [List.takeWhile_cons, hc, hd, he]

theorem writeAt_of_eq (buf : List Char) (i : Int) (n : Nat) (c : Char) (hi : i = (n : Int))
    (h : n < buf.length) : writeAt buf i c = some (buf.set n c) := by
  subst hi
  simp [writeAt, h]

theorem pcl_quote_aux (a b e : Char) (w : List Char) (k : Nat) (he : e ≠ NUL) (hw : NUL ∈ w)
    (hk : (w.takeWhile (fun x => x != NUL)).length = k) :
    parse_command_line (a :: b :: ':' :: '"' :: e :: w) 2
      = some (a :: b :: ':' :: '"' :: (e :: w).set k NUL,
          if k = 0 then none else some 4) := by
  have hle : k < w.length + 1 := by
    have := (@List.takeWhile_sublist _ w (fun x => x != NUL)).length_le
    omega
  have h3 := takeWhile_three ':' '"' e w NUL_ne_colon.symm NUL_ne_quote.symm he
  have hlen : (List.takeWhile (fun x => x != NUL) (':' :: '"' :: e :: w)).length = k + 3 := by
    rw [h3]; simp [hk]
  have hset : (a :: b :: ':' :: '"' :: e :: w).set (k + 4) NUL
      = a :: b :: ':' :: '"' :: (e :: w).set k NUL := rfl
  simp only [parse_command_line, readAt, strlenW, cstrAt, List.drop_succ_cons, List.drop_zero,
    hlen]
  have hwr : ∀ i : Int, i = ((k + 4 : Nat) : Int) →
      writeAt (a :: b :: ':' :: '"' :: e :: w) i NUL
        = some (a :: b :: ':' :: '"' :: (e :: w).set k NUL) := by
    intro i hi
    rw [← hset]
    exact writeAt_of_eq _ i (k + 4) NUL hi (by simp only [List.length_cons]; omega)
  cases k with
  | zero =>
    simp only [NUL_ne_quote.symm, he, hw, ne_eq, not_false_eq_true, ↓reduceIte, Option.bind_eq_bind,
      Option.some_bind, List.getElem?_cons_succ, List.getElem?_cons_zero, Option.pure_def,
      not_true_eq_false, List.mem_cons, or_true, List.length_cons]
    rw [hwr _ (by omega)]
    simp
  | succ k =>
    simp only [NUL_ne_quote.symm, he, hw, ne_eq, not_false_eq_true, ↓reduceIte, Option.bind_eq_bind,
      Option.some_bind, List.getElem?_cons_succ, List.getElem?_cons_zero, Option.pure_def,
      not_true_eq_false, List.mem_cons, or_true, List.length_cons]
    rw [hwr _ (by omega)]
    simp [he]

theorem runOps_shaped (o : Oracle) (t : WStr) (cs : List Call) :
    ∀ s : State, Clean s.calls → Shaped (runOps o s t cs) := by
  induction cs with
  | nil => intro s hc; exact hc
  | cons c cs ih =>
    intro s hc
    unfold runOps
    have hx := doOp_exit o s t c
    generalize doOp o s t c = r at hx
    cases hx with
    | loadFailed =>
      exact Halted.loadFailed _ s.calls t s.out rfl hc rfl
    | missing h hh =>
      simp only [ne_eq, not_true_eq_false, ↓reduceIte]
      apply ih
      simp only [Clean_append]
      refine ⟨hc, ?_⟩
      intro e he
      simp only [List.mem_cons, List.mem_singleton, List.not_mem_nil, or_false] at he
      rcases he with rfl | rfl | rfl <;> simp [Event.fatal, hh]
    | callFailed h hh hr hhr =>
      simp only [ne_eq, Int.reduceNeg, neg_eq_zero, one_ne_zero, not_false_eq_true, ↓reduceIte]
      refine Halted.callFailed _ (s.calls ++ [.LoadLibraryExW t h,
        .GetProcAddress h (procOf c) true]) t c hr s.out (by simp) hhr ?_ rfl
      simp only [Clean_append]
      refine ⟨hc, ?_⟩
      intro e he
      simp only [List.mem_cons, List.mem_singleton, List.not_mem_nil, or_false] at he
      rcases he with rfl | rfl <;> simp [Event.fatal, hh]
    | succeeded h hh hr hhr =>
      simp only [ne_eq, not_true_eq_false, ↓reduceIte]
      apply ih
      simp only [Clean_append]
      refine ⟨hc, ?_⟩
      intro e he
      simp only [List.mem_cons, List.mem_singleton, List.not_mem_nil, or_false] at he
      rcases he with rfl | rfl | rfl | rfl <;> simp [Event.fatal, hh, FAILED, hhr]

theorem parse_command_line_total (tok : WStr) (h : flagTest (argvBuf tok) = some true) :
    ∃ r, parse_command_line (argvBuf tok) 2 = some r := by
  match tok, h with
  | [], h => simp [flagTest, argvBuf, readAt, NUL_ne_slash, NUL_ne_dash] at h
  | [a], h =>
    by_cases ha : a = '/' ∨ a = '-' <;> simp [flagTest, argvBuf, readAt, ha] at h
  | [a, b], _ => exact ⟨_, pcl_not_colon a b NUL [] NUL_ne_colon⟩
  | a :: b :: c :: r1, _ =>
    by_cases hc : c = ':'
    · subst hc
      match r1 with
      | [] => exact ⟨_, pcl_colon_end a b []⟩
      | d :: r2 =>
        by_cases hd : d = NUL
        · subst hd; exact ⟨_, pcl_colon_end a b (r2 ++ [NUL])⟩
        · by_cases hq : d = '"'
          · subst hq
            match r2 with
            | [] => exact ⟨_, pcl_quote_end a b []⟩
            | e :: r3 =>
              by_cases he : e = NUL
              · subst he; exact ⟨_, pcl_quote_end a b (r3 ++ [NUL])⟩
              · exact ⟨_, pcl_quote_aux a b e (r3 ++ [NUL]) _ he (by simp) rfl⟩
          · exact ⟨_, pcl_plain a b d (r2 ++ [NUL]) hd hq (by simp)⟩
    · exact ⟨_, pcl_not_colon a b c (r1 ++ [NUL]) hc⟩

theorem readAt_one_of_flag (tok : WStr) (h : flagTest (argvBuf tok) = some true) :
    readAt (argvBuf tok) 1 = some (flagLetter tok) := by
  match tok, h with
  | [], h => simp [flagTest, argvBuf, readAt, NUL_ne_slash, NUL_ne_dash] at h
  | [a], h =>
    by_cases ha : a = '/' ∨ a = '-' <;> simp [flagTest, argvBuf, readAt, ha] at h
  | a :: b :: r, _ => simp [argvBuf, readAt, flagLetter]

theorem wmain_body_flag (o : Oracle) (s : State) (tok : WStr)
    (h : flagTest (argvBuf tok) = some true) :
    (Recognized o tok ∧ ∃ s1, wmain_body o s tok = .ok s1 () ∧ FlagStep s s1) ∨
    (¬ Recognized o tok ∧
      wmain_body o s tok =
        .halt (output_write (output_write s (.STRING_UNRECOGNIZED_SWITCH tok)) .STRING_USAGE)
          (.returned 1)) := by
  obtain ⟨r, hr⟩ := parse_command_line_total tok h
  simp only [wmain_body, h, wmain_switch, readAt_one_of_flag tok h, hr, Recognized,
    recognizedLetters, List.mem_cons, List.mem_singleton, List.not_mem_nil, or_false]
  by_cases h1 : o.tolowerW (flagLetter tok) = 'u'
  · left; simp [h1, FlagStep]
  by_cases h2 : o.tolowerW (flagLetter tok) = 's'
  · left; simp [h2, FlagStep]
  by_cases h3 : o.tolowerW (flagLetter tok) = 'i'
  · left
    obtain ⟨buf, p⟩ := r
    cases p <;> simp [h3, FlagStep]
  by_cases h4 : o.tolowerW (flagLetter tok) = 'n'
  · left; simp [h4, FlagStep]
  by_cases h5 : o.tolowerW (flagLetter tok) = 'c'
  · left; simp [h5, FlagStep]
  right
  simp [h1, h2, h3, h4, h5]

theorem output_write_calls (s : State) (m : Msg) : (output_write s m).calls = s.calls := by
  unfold output_write; split <;> rfl

theorem output_write_out (s : State) (m : Msg) : (output_write s m).out = s.out ++ say s m := by
  unfold output_write say; split <;> simp

theorem output_write_Silent (s : State) (m : Msg) : (output_write s m).Silent = s.Silent := by
  unfold output_write; split <;> rfl

theorem output_write_DllFound (s : State) (m : Msg) :
    (output_write s m).DllFound = s.DllFound := by
  unfold output_write; split <;> rfl

theorem say_output_write (s : State) (m m1 : Msg) : say (output_write s m) m1 = say s m1 := by
  simp [say, output_write_Silent]

theorem wmain_body_shaped (o : Oracle) (s : State) (tok : WStr) (hc : Clean s.calls) :
    Shaped (wmain_body o s tok) := by
  cases hft : flagTest (argvBuf tok) with
  | none =>
    simp only [wmain_body, hft]
    exact Halted.outOfBounds s hc
  | some b =>
    cases b with
    | true =>
      rcases wmain_body_flag o s tok hft with ⟨_, s1, h1, hs⟩ | ⟨_, h1⟩
      · rw [h1]
        show Clean s1.calls
        rw [hs.1]; exact hc
      · rw [h1]
        refine Halted.usage _ tok s.out ?_ ?_
        · simpa [output_write_calls] using hc
        · simp [output_write_out, say_output_write]
    | false =>
      simp only [wmain_body, hft, wmain_target_runOps]
      exact runOps_shaped o tok _ _ hc

theorem wmain_loop_shaped (o : Oracle) (toks : List WStr) :
    ∀ s : State, Clean s.calls → Shaped (wmain_loop o s toks) := by
  induction toks with
  | nil => intro s hc; exact hc
  | cons tok rest ih =>
    intro s hc
    have hb := wmain_body_shaped o s tok hc
    unfold wmain_loop
    cases hr : wmain_body o s tok with
    | halt s1 e => rw [hr] at hb; exact hb
    | ok s1 u => rw [hr] at hb; exact ih s1 hb

theorem wmain_loop_append (o : Oracle) (pre post : List WStr) :
    ∀ s : State, wmain_loop o s (pre ++ post) =
      match wmain_loop o s pre with
      | .halt s1 e => .halt s1 e
      | .ok s1 _ => wmain_loop o s1 post := by
  induction pre with
  | nil => intro s; rfl
  | cons tok rest ih =>
    intro s
    simp only [List.cons_append, wmain_loop]
    cases wmain_body o s tok with
    | halt s1 e => rfl
    | ok s1 u => exact ih s1

theorem Clean_startState : Clean startState.calls := by decide

theorem wmain_of_halt {o : Oracle} {argv : List WStr} {s : State} {e : Ending}
    (h : wmain_loop o startState argv.tail = .halt s e) : wmain o argv = (s, e) := by
  simp only [startState] at h
  simp only [wmain, h]

theorem wmain_of_ok_found {o : Oracle} {argv : List WStr} {s : State} {u : Unit}
    (h : wmain_loop o startState argv.tail = .ok s u) (hd : s.DllFound = true) :
    wmain o argv = (s.call Event.OleUninitialize, .returned 0) := by
  simp only [startState] at h
  simp [wmain, h, hd]

theorem wmain_of_ok_notFound {o : Oracle} {argv : List WStr} {s : State} {u : Unit}
    (h : wmain_loop o startState argv.tail = .ok s u) (hd : s.DllFound = false) :
    wmain o argv =
      (output_write (output_write s .STRING_HEADER) .STRING_USAGE, .returned 1) := by
  simp only [startState] at h
  simp [wmain, h, hd]

theorem wmain_final (o : Oracle) (argv : List WStr) :
    Clean (wmain o argv).1.calls ∨ Halted (wmain o argv).1 (wmain o argv).2 := by
  have hl := wmain_loop_shaped o argv.tail startState Clean_startState
  cases hr : wmain_loop o startState argv.tail with
  | halt s1 e =>
    rw [hr] at hl
    rw [wmain_of_halt hr]
    exact Or.inr hl
  | ok s1 u =>
    rw [hr] at hl
    left
    have hl : Clean s1.calls := hl
    cases hd : s1.DllFound with
    | true =>
      rw [wmain_of_ok_found hr hd]
      simp only [State.call, Clean_append]
      exact ⟨hl, by decide⟩
    | false =>
      rw [wmain_of_ok_notFound hr hd]
      simpa [output_write_calls] using hl

theorem fatal_not_in_clean {l : List Event} (hc : Clean l) {i : Nat} {e : Event}
    (h : l[i]? = some e) (hf : e.fatal = true) : False := by
  have := hc e (List.getElem?_mem h)
  simp [hf] at this

theorem fatal_in_tail {l tl : List Event} (hc : Clean l) {i : Nat} {e : Event}
    (h : (l ++ tl)[i]? = some e) (hf : e.fatal = true) :
    l.length ≤ i ∧ tl[i - l.length]? = some e := by
  by_cases hi : i < l.length
  · rw [List.getElem?_append_left hi] at h
    exact (fatal_not_in_clean hc h hf).elim
  · have hi : l.length ≤ i := Nat.le_of_not_lt hi
    rw [List.getElem?_append_right hi] at h
    exact ⟨hi, h⟩

/-- The last failed call of a log, with what `wmain` returns after it. -/
theorem failed_call_is_last (o : Oracle) (argv : List WStr) (i : Nat) (t : WStr) (c : Call)
    (hr : Int) (hev : (wmain o argv).1.calls[i]? = some (.Invoke t c hr)) (hfail : hr < 0) :
    (wmain o argv).2 = .returned (-1) ∧ (wmain o argv).1.calls.length = i + 1 ∧
    ∃ m, (wmain o argv).1.out = m ++ say (wmain o argv).1 (failMsg c t) := by
  have hf : (Event.Invoke t c hr).fatal = true := by simp [Event.fatal, FAILED, hfail]
  rcases wmain_final o argv with hc | hh
  · exact (fatal_not_in_clean hc hev hf).elim
  · generalize (wmain o argv).1 = s at hev hh ⊢
    generalize (wmain o argv).2 = e at hh ⊢
    cases hh with
    | outOfBounds hc => exact (fatal_not_in_clean hc hev hf).elim
    | usage tok m hc ho => exact (fatal_not_in_clean hc hev hf).elim
    | loadFailed l t1 m hl hc ho =>
      rw [hl] at hev
      obtain ⟨hi, h2⟩ := fatal_in_tail hc hev hf
      rcases Nat.lt_or_ge (i - l.length) 2 with h | h
      · interval_cases hk : i - l.length <;> simp at h2
      · rw [List.getElem?_eq_none (by simpa using h)] at h2
        cases h2
    | callFailed l t1 c1 hr1 m hl hhr hc ho =>
      rw [hl] at hev
      obtain ⟨hi, h2⟩ := fatal_in_tail hc hev hf
      rcases Nat.lt_or_ge (i - l.length) 1 with h | h
      · have h0 : i - l.length = 0 := by omega
        rw [h0] at h2
        simp only [List.getElem?_cons_zero, Option.some.injEq, Event.Invoke.injEq] at h2
        obtain ⟨rfl, rfl, rfl⟩ := h2
        refine ⟨rfl, ?_, m, ho⟩
        rw [hl]; simp; omega
      · rw [List.getElem?_eq_none (by simpa using h)] at h2
        cases h2

/-- A failed load is followed by `ExitProcess(1)` and nothing else. -/
theorem failed_load_exits (o : Oracle) (argv : List WStr) (i : Nat) (t : WStr)
    (hev : (wmain o argv).1.calls[i]? = some (.LoadLibraryExW t 0)) :
    (wmain o argv).2 = .exited 1 ∧ (wmain o argv).1.calls.length = i + 2 ∧
    (wmain o argv).1.calls[i + 1]? = some (.ExitProcess 1) ∧
    ∃ m, (wmain o argv).1.out = m ++ say (wmain o argv).1 (.STRING_DLL_LOAD_FAILED t) := by
  have hf : (Event.LoadLibraryExW t 0).fatal = true := by simp [Event.fatal]
  rcases wmain_final o argv with hc | hh
  · exact (fatal_not_in_clean hc hev hf).elim
  · generalize (wmain o argv).1 = s at hev hh ⊢
    generalize (wmain o argv).2 = e at hh ⊢
    cases hh with
    | outOfBounds hc => exact (fatal_not_in_clean hc hev hf).elim
    | usage tok m hc ho => exact (fatal_not_in_clean hc hev hf).elim
    | callFailed l t1 c1 hr1 m hl hhr hc ho =>
      rw [hl] at hev
      obtain ⟨hi, h2⟩ := fatal_in_tail hc hev hf
      rcases Nat.lt_or_ge (i - l.length) 1 with h | h
      · have h0 : i - l.length = 0 := by omega
        rw [h0] at h2
        simp at h2
      · rw [List.getElem?_eq_none (by simpa using h)] at h2
        cases h2
    | loadFailed l t1 m hl hc ho =>
      rw [hl] at hev
      obtain ⟨hi, h2⟩ := fatal_in_tail hc hev hf
      rcases Nat.lt_or_ge (i - l.length) 2 with h | h
      · interval_cases hk : i - l.length
        · simp only [List.getElem?_cons_zero, Option.some.injEq, Event.LoadLibraryExW.injEq,
            and_true] at h2
          subst h2
          have hil : i = l.length := by omega
          subst hil
          refine ⟨rfl, ?_, ?_, m, ho⟩
          · rw [hl]; simp
          · rw [hl, List.getElem?_append_right (by omega)]
            simp
        · simp at h2
      · rw [List.getElem?_eq_none (by simpa using h)] at h2
        cases h2

theorem plannedCalls_ne_nil (s : State) : plannedCalls s ≠ [] := by
  cases hi : s.CallInstall <;> cases hr : s.CallRegister <;> simp [plannedCalls, hi, hr]

theorem doOp_load_failed (o : Oracle) (s : State) (t : WStr) (c : Call)
    (h : o.LoadLibraryExW s.calls t = 0) :
    doOp o s t c =
      .halt { s with calls := s.calls ++ [.LoadLibraryExW t 0, .ExitProcess 1],
                     out := s.out ++ say s (.STRING_DLL_LOAD_FAILED t) } (.exited 1) := by
  simp [doOp, runOp, h]

theorem wmain_target_load_failed (o : Oracle) (s : State) (t : WStr)
    (h : o.LoadLibraryExW s.calls t = 0) :
    wmain_target o s t =
      .halt { s with DllFound := true,
                     calls := s.calls ++ [.LoadLibraryExW t 0, .ExitProcess 1],
                     out := s.out ++ say s (.STRING_DLL_LOAD_FAILED t) } (.exited 1) := by
  rw [wmain_target_runOps]
  have hne := plannedCalls_ne_nil s
  cases hp : plannedCalls s with
  | nil => exact (hne hp).elim
  | cons c cs =>
    simp only [runOps]
    rw [doOp_load_failed o _ t c (by simpa using h)]
    simp [say]

/-- The run over `pre ++ tok :: post` when `pre` runs through to state `s`. -/
theorem wmain_at_token (o : Oracle) (prog : WStr) (pre post : List WStr) (tok : WStr)
    (s : State) (hpre : wmain_loop o startState pre = .ok s ()) :
    wmain_loop o startState (prog :: (pre ++ tok :: post)).tail =
      match wmain_body o s tok with
      | .halt s1 e => .halt s1 e
      | .ok s1 _ => wmain_loop o s1 post := by
  simp only [List.tail_cons, wmain_loop_append, hpre, wmain_loop]

/-- C1, at the failing input.  The claim classifies the one-character tokens
`/` and `-` as module names.  On such a token the flag test of `wmain` goes on
to evaluate `argv[i][2]`, one position past the terminator of the
two-character object, so the iteration ends in an out-of-bounds read: the
token is not processed as a module name and no module is loaded. -/
theorem lone_slash_flag_test_out_of_bounds (o : Oracle) (s : State) :
    isFlagToken ['/'] = false ∧ isFlagToken ['-'] = false ∧
    readAt (argvBuf ['/']) 2 = none ∧
    wmain_body o s ['/'] = .halt s .outOfBounds ∧
    wmain_body o s ['-'] = .halt s .outOfBounds ∧
    wmain o [progName, ['/'], [':', 'x']] = (startState, .outOfBounds) :=
  ⟨rfl, rfl, rfl, rfl, rfl, rfl⟩

/-- C2: fail-fast on a call failure.  If the log of a run of `wmain` holds a call
of an entry point (register, unregister or install/uninstall) of module `t` that
returned a failure status, then `wmain` returns -1, that call is the last entry
of the log, so that no module is loaded and no entry point is invoked after it
(for `[A, B]` with the register call of `A` failing, `B` is never loaded), and
unless `Silent` is set the last message reported is the failure message naming
`t`. -/
theorem call_failure_stops_run (o : Oracle) (argv : List WStr) (i : Nat) (t : WStr)
    (c : Call) (hr : Int)
    (hev : (wmain o argv).1.calls[i]? = some (.Invoke t c hr)) (hfail : FAILED hr = true) :
    (wmain o argv).2 = .returned (-1) ∧
    (wmain o argv).1.calls.length = i + 1 ∧
    (∀ j, i < j → (wmain o argv).1.calls[j]? = none) ∧
    ((wmain o argv).1.Silent = false →
      (wmain o argv).1.out.getLast? = some (failMsg c t)) := by
  have hlt : hr < 0 := by simpa [FAILED] using hfail
  obtain ⟨h1, h2, m, h3⟩ := failed_call_is_last o argv i t c hr hev hlt
  refine ⟨h1, h2, ?_, ?_⟩
  · intro j hj
    exact List.getElem?_eq_none (by omega)
  · intro hs
    rw [h3]
    simp [say, hs]

/-- Witness of C2: with every entry point failing, `a.dll b.dll` stops at the
register call of `a.dll`; `b.dll` is never loaded. -/
theorem call_failure_stops_run_witness :
    (wmain failOracle [progName, aDll, bDll]).1.calls =
      [.OleInitialize, .LoadLibraryExW aDll 1, .GetProcAddress 1 .DllRegisterServer true,
       .Invoke aDll .DllRegisterServer (-2147467259)] ∧
    (wmain failOracle [progName, aDll, bDll]).2 = .returned (-1) ∧
    (wmain failOracle [progName, aDll, bDll]).1.out.getLast?
      = some (.STRING_REGISTER_FAILED aDll) :=
  have h := call_failure_stops_run failOracle [progName, aDll, bDll] 3 aDll
    .DllRegisterServer (-2147467259) (by decide) (by decide)
  ⟨by decide, h.1, h.2.2.2 (by decide)⟩

theorem FlagStep_trans {s s1 s2 : State} (h1 : FlagStep s s1) (h2 : FlagStep s1 s2) :
    FlagStep s s2 :=
  ⟨h2.1.trans h1.1, h2.2.1.trans h1.2.1, h2.2.2.1.trans h1.2.2.1, fun h => h2.2.2.2 (h1.2.2.2 h)⟩

theorem wmain_loop_flags (o : Oracle) (toks : List WStr) :
    ∀ s : State, (∀ t ∈ toks, flagTest (argvBuf t) = some true ∧ Recognized o t) →
      ∃ s1, wmain_loop o s toks = .ok s1 () ∧ FlagStep s s1 := by
  induction toks with
  | nil => intro s _; exact ⟨s, rfl, rfl, rfl, rfl, id⟩
  | cons tok rest ih =>
    intro s h
    obtain ⟨hft, hrec⟩ := h tok (by simp)
    rcases wmain_body_flag o s tok hft with ⟨_, s1, h1, hs⟩ | ⟨hn, _⟩
    · obtain ⟨s2, h2, hs2⟩ := ih s1 (fun t ht => h t (by simp [ht]))
      exact ⟨s2, by simp only [wmain_loop, h1, h2], FlagStep_trans hs hs2⟩
    · exact (hn hrec).elim

theorem wmain_loop_no_target (o : Oracle) (toks : List WStr) :
    ∀ s s1 : State, (∀ t ∈ toks, flagTest (argvBuf t) = some true) →
      wmain_loop o s toks = .ok s1 () → FlagStep s s1 := by
  induction toks with
  | nil =>
    intro s s1 _ h
    simp only [wmain_loop, Outcome.ok.injEq, and_true] at h
    subst h
    exact ⟨rfl, rfl, rfl, id⟩
  | cons tok rest ih =>
    intro s s2 h hrun
    have hft := h tok (by simp)
    rcases wmain_body_flag o s tok hft with ⟨_, s1, h1, hs⟩ | ⟨_, h1⟩
    · simp only [wmain_loop, h1] at hrun
      exact FlagStep_trans hs (ih s1 s2 (fun t ht => h t (by simp [ht])) hrun)
    · simp [wmain_loop, h1] at hrun

theorem output_write_twice (s : State) (m1 m2 : Msg) :
    output_write (output_write s m1) m2 =
      { s with out := s.out ++ (if s.Silent then [] else [m1, m2]) } := by
  obtain ⟨a, b, c, d, e, f, g, h⟩ := s
  cases a <;> simp [output_write]

/-- C3, counterexample: in `a.dll /x` the module `a.dll`, which stands before the
unrecognized flag, is loaded and registered before the run ends with the usage
error. -/
theorem unrecognized_flag_after_target :
    isFlagToken ['/', 'x'] = true ∧ ¬ Recognized okOracle ['/', 'x'] ∧
    (wmain okOracle [progName, aDll, ['/', 'x']]).2 = .returned 1 ∧
    (wmain okOracle [progName, aDll, ['/', 'x']]).1.calls =
      [.OleInitialize, .LoadLibraryExW aDll 1, .GetProcAddress 1 .DllRegisterServer true,
       .Invoke aDll .DllRegisterServer 0, .FreeLibrary 1] := by
  decide

/-- C3, amended: the arguments are processed in order.  When a flag token whose
letter is not one of u, s, i, n, c (after `tolowerW`) is reached, the tokens `pre`
before it having been processed up to state `s`, the run ends there with exit
status 1, the unrecognized-switch and usage messages are reported unless `Silent`
is set, and the logs are otherwise those of `s`: no module named by a later token
is loaded and no later entry point is invoked.  If no module name stands before
that flag, no module is loaded at all. -/
theorem unrecognized_flag_stops_run (o : Oracle) (prog : WStr) (pre post : List WStr)
    (tok : WStr) (s : State)
    (hpre : wmain_loop o startState pre = .ok s ())
    (hflag : isFlagToken tok = true) (hun : ¬ Recognized o tok) :
    wmain o (prog :: (pre ++ tok :: post)) =
      ({ s with out := s.out ++
          (if s.Silent then [] else [.STRING_UNRECOGNIZED_SWITCH tok, .STRING_USAGE]) },
       .returned 1) ∧
    ((∀ t ∈ pre, isFlagToken t = true) →
      (wmain o (prog :: (pre ++ tok :: post))).1.calls = [.OleInitialize]) := by
  have hft := flagTest_of_isFlagToken tok hflag
  have hw : wmain o (prog :: (pre ++ tok :: post)) =
      ({ s with out := s.out ++
          (if s.Silent then [] else [.STRING_UNRECOGNIZED_SWITCH tok, .STRING_USAGE]) },
       .returned 1) := by
    apply wmain_of_halt
    rw [wmain_at_token o prog pre post tok s hpre]
    rcases wmain_body_flag o s tok hft with ⟨hr, _⟩ | ⟨_, h1⟩
    · exact (hun hr).elim
    · rw [h1, output_write_twice]
  refine ⟨hw, ?_⟩
  intro hall
  rw [hw]
  have := wmain_loop_no_target o pre startState s
    (fun t ht => flagTest_of_isFlagToken t (hall t ht)) hpre
  exact this.1

/-- Witness of C3 (amended): `a.dll /x b.dll` ends at `/x`; `b.dll` is not loaded. -/
theorem unrecognized_flag_stops_run_witness :
    (wmain okOracle [progName, aDll, ['/', 'x'], bDll]).2 = .returned 1 ∧
    (wmain okOracle [progName, aDll, ['/', 'x'], bDll]).1.calls =
      [.OleInitialize, .LoadLibraryExW aDll 1, .GetProcAddress 1 .DllRegisterServer true,
       .Invoke aDll .DllRegisterServer 0, .FreeLibrary 1] ∧
    (wmain okOracle [progName, aDll, ['/', 'x'], bDll]).1.out =
      [.STRING_REGISTER_SUCCESSFUL aDll, .STRING_UNRECOGNIZED_SWITCH ['/', 'x'],
       .STRING_USAGE] :=
  have h := (unrecognized_flag_stops_run okOracle progName [aDll] [bDll] ['/', 'x']
    { startState with
        DllFound := true,
        calls := [.OleInitialize, .LoadLibraryExW aDll 1,
          .GetProcAddress 1 .DllRegisterServer true, .Invoke aDll .DllRegisterServer 0,
          .FreeLibrary 1],
        out := [.STRING_REGISTER_SUCCESSFUL aDll] }
    rfl (by decide) (by decide)).1
  ⟨congrArg Prod.snd h, congrArg (fun r => r.1.calls) h, congrArg (fun r => r.1.out) h⟩

/-- C10: no targets.  For every argument list made only of flag tokens with a
recognized letter (the empty list included), `wmain` returns 1, the log holds
`OleInitialize` only (no module is loaded), and the header and usage messages are
reported unless a `/s` among the flags has set `Silent`; for the empty argument
list they are reported. -/
theorem no_targets_usage (o : Oracle) (prog : WStr) (args : List WStr)
    (h : ∀ tok ∈ args, isFlagToken tok = true ∧ Recognized o tok) :
    (wmain o (prog :: args)).2 = .returned 1 ∧
    (wmain o (prog :: args)).1.calls = [.OleInitialize] ∧
    (wmain o (prog :: args)).1.out =
      (if (wmain o (prog :: args)).1.Silent then [] else [.STRING_HEADER, .STRING_USAGE]) ∧
    (args = [] → (wmain o (prog :: args)).1.out = [.STRING_HEADER, .STRING_USAGE]) := by
  obtain ⟨s1, hrun, hs⟩ := wmain_loop_flags o args startState
    (fun t ht => ⟨flagTest_of_isFlagToken t (h t ht).1, (h t ht).2⟩)
  have hd : s1.DllFound = false := hs.2.2.1
  have hw := @wmain_of_ok_notFound o (prog :: args) s1 () hrun hd
  rw [hw, output_write_twice]
  refine ⟨rfl, hs.1, ?_, ?_⟩
  · simp only [hs.2.1]
    cases s1.Silent <;> rfl
  · intro ha
    subst ha
    simp only [wmain_loop, Outcome.ok.injEq, and_true] at hrun
    subst hrun
    rfl

/-- Witness of C10: `/u /i:x` names no module. -/
theorem no_targets_usage_witness :
    (wmain okOracle [progName, ['/', 'u'], ['/', 'i', ':', 'x']]).2 = .returned 1 ∧
    (wmain okOracle [progName, ['/', 'u'], ['/', 'i', ':', 'x']]).1.calls
      = [.OleInitialize] :=
  have h := no_targets_usage okOracle progName [['/', 'u'], ['/', 'i', ':', 'x']]
    (by decide)
  ⟨h.1, h.2.1⟩

theorem parse_command_line_shift (w : List Char) (hw : NUL ∈ w) :
    ∃ (w1 : List Char) (p : Option Nat), (∀ q, p = some q → 2 ≤ q) ∧
      ∀ a b : Char, parse_command_line (a :: b :: w) 2 = some (a :: b :: w1, p) := by
  match w, hw with
  | c :: r1, hw =>
    by_cases hc : c = ':'
    · subst hc
      have hw1 : NUL ∈ r1 := NUL_mem_of_cons hw NUL_ne_colon.symm
      match r1, hw1 with
      | d :: r2, hw1 =>
        by_cases hd : d = NUL
        · subst hd
          exact ⟨_, none, by simp, fun a b => pcl_colon_end a b r2⟩
        · have hw2 : NUL ∈ r2 := NUL_mem_of_cons hw1 hd
          by_cases hq : d = '"'
          · subst hq
            match r2, hw2 with
            | e :: r3, hw2 =>
              by_cases he : e = NUL
              · subst he
                exact ⟨_, none, by simp, fun a b => pcl_quote_end a b r3⟩
              · have hw3 : NUL ∈ r3 := NUL_mem_of_cons hw2 he
                refine ⟨_, _, ?_, fun a b => pcl_quote_aux a b e r3 _ he hw3 rfl⟩
                intro q hq
                split at hq
                · cases hq
                · cases hq; decide
          · exact ⟨_, some 3, by simp, fun a b => pcl_plain a b d r2 hd hq hw2⟩
    · exact ⟨_, none, by simp, fun a b => pcl_not_colon a b c r1 hc⟩

theorem cstrAt_shift (a b : Char) (w : List Char) (q : Nat) (hq : 2 ≤ q) :
    cstrAt (a :: b :: w) q = cstrAt w (q - 2) := by
  obtain ⟨k, rfl⟩ : ∃ k, q = k + 2 := ⟨q - 2, by omega⟩
  simp [cstrAt]

/-- The `case 'i'` of the switch: the parameter depends on the text after the
letter only. -/
theorem wmain_switch_install (r : List Char) :
    ∃ x : WStr, ∀ (o : Oracle) (s : State) (tok : WStr) (a b : Char),
      o.tolowerW b = 'i' →
      wmain_switch o s tok (argvBuf (a :: b :: r)) =
        .ok { s with CallInstall := true, wsCommandLine := some x } () := by
  obtain ⟨w1, p, hp, hpcl⟩ := parse_command_line_shift (r ++ [NUL]) (by simp)
  cases p with
  | none =>
    refine ⟨[], fun o s tok a b hb => ?_⟩
    have := hpcl a b
    simp only [List.cons_append] at this
    simp [wmain_switch, argvBuf, readAt, hb, this]
  | some q =>
    refine ⟨cstrAt w1 (q - 2), fun o s tok a b hb => ?_⟩
    have := hpcl a b
    simp only [List.cons_append] at this
    simp [wmain_switch, argvBuf, readAt, hb, this, cstrAt_shift a b w1 q (hp q rfl)]

theorem wmain_body_upcase (o : Oracle)
    (hlow : ∀ l ∈ recognizedLetters, o.tolowerW l = l ∧ o.tolowerW l.toUpper = l)
    (s : State) (tok tok1 : WStr) (h : CaseVariant tok tok1) :
    wmain_body o s tok1 = wmain_body o s tok := by
  rcases h with rfl | ⟨hflag, hletter, rfl⟩
  · rfl
  · match tok, hflag, hletter with
    | [], hflag, _ => simp [isFlagToken] at hflag
    | [a], hflag, _ => simp [isFlagToken] at hflag
    | a :: b :: r, hflag, hletter =>
      have hflag1 : isFlagToken (a :: b.toUpper :: r) = true := by
        simpa [isFlagToken] using hflag
      have hb : b ∈ recognizedLetters := by simpa [flagLetter] using hletter
      obtain ⟨hl1, hl2⟩ := hlow b hb
      simp only [wmain_body, upcaseLetter, flagTest_of_isFlagToken _ hflag,
        flagTest_of_isFlagToken _ hflag1]
      simp only [recognizedLetters, List.mem_cons, List.mem_singleton, List.not_mem_nil,
        or_false] at hb
      rcases hb with rfl | rfl | rfl | rfl | rfl
      · have hU : o.tolowerW 'U' = 'u' := hl2
        simp [wmain_switch, argvBuf, readAt, hl1, hU]
      · have hU : o.tolowerW 'S' = 's' := hl2
        simp [wmain_switch, argvBuf, readAt, hl1, hU]
      · obtain ⟨x, hx⟩ := wmain_switch_install r
        rw [hx o s _ a _ hl1, hx o s _ a _ hl2]
      · have hU : o.tolowerW 'N' = 'n' := hl2
        simp [wmain_switch, argvBuf, readAt, hl1, hU]
      · have hU : o.tolowerW 'C' = 'c' := hl2
        simp [wmain_switch, argvBuf, readAt, hl1, hU]

theorem wmain_loop_upcase (o : Oracle)
    (hlow : ∀ l ∈ recognizedLetters, o.tolowerW l = l ∧ o.tolowerW l.toUpper = l)
    (args args1 : List WStr) (hrel : List.Forall₂ CaseVariant args args1) :
    ∀ s : State, wmain_loop o s args1 = wmain_loop o s args := by
  induction hrel with
  | nil => intro s; rfl
  | cons hab _ ih =>
    intro s
    simp only [wmain_loop, wmain_body_upcase o hlow s _ _ hab]
    cases wmain_body o s _ with
    | halt s1 e => rfl
    | ok s1 u => exact ih s1

theorem split_after_clean {pre new l1 l2 : List Event} {e : Event} (hpre : Clean pre)
    (h : pre ++ new = l1 ++ e :: l2) (hf : e.fatal = true) :
    ∃ l1', new = l1' ++ e :: l2 := by
  rcases List.append_eq_append_iff.1 h with ⟨a, _, h2⟩ | ⟨c, h1, h2⟩
  · exact ⟨a, h2⟩
  · cases c with
    | nil => exact ⟨[], by simpa using h2.symm⟩
    | cons x c =>
      simp only [List.cons_append, List.cons.injEq] at h2
      obtain ⟨rfl, _⟩ := h2
      have := hpre e (by rw [h1]; simp)
      simp [hf] at this

theorem runOps_trace (o : Oracle) (t : WStr) (cs : List Call) :
    ∀ s : State, ∃ new, (runOps o s t cs).state.calls = s.calls ++ new ∧
      OpsTrace t cs new (runOps o s t cs).halted := by
  induction cs with
  | nil =>
    intro s
    refine ⟨[], by simp [runOps, Outcome.state], ?_⟩
    refine ⟨by simp [resolvedProcs], by simp [invokedCalls], ?_, ?_, ?_⟩
    · intro _; simp [runOps, Outcome.halted, resolvedProcs]
    · intro _ e he; simp at he
    · intro l1 e l2 h; simp at h
  | cons c cs ih =>
    intro s
    unfold runOps
    have hx := doOp_exit o s t c
    generalize doOp o s t c = r at hx
    cases hx with
    | loadFailed =>
      refine ⟨[.LoadLibraryExW t 0, .ExitProcess 1], by simp [Outcome.state], ?_⟩
      refine ⟨by simp [resolvedProcs], by simp [invokedCalls], ?_, ?_, ?_⟩
      · intro hc
        have := hc (.LoadLibraryExW t 0) (by simp)
        simp [Event.fatal] at this
      · intro h; simp [Outcome.halted] at h
      · intro l1 e l2 h hf
        match l1, h with
        | [], h =>
          simp only [List.nil_append, List.cons.injEq] at h
          exact Or.inr h.2.symm
        | [x], h =>
          simp only [List.cons_append, List.nil_append, List.cons.injEq] at h
          obtain ⟨_, rfl, _⟩ := h
          simp [Event.fatal] at hf
        | x :: y :: l, h => simp at h
    | missing h hh =>
      simp only [ne_eq, not_true_eq_false, ↓reduceIte]
      obtain ⟨new, hnew, h1, h2, h3, h4, h5⟩ := ih
        { s with calls := s.calls ++ [.LoadLibraryExW t h,
                    .GetProcAddress h (procOf c) false, .FreeLibrary h],
                 out := s.out ++ say s (.STRING_PROC_NOT_IMPLEMENTED (procOf c) t) }
      have hpre : Clean [Event.LoadLibraryExW t h, .GetProcAddress h (procOf c) false,
          .FreeLibrary h] := by
        intro e he
        simp only [List.mem_cons, List.mem_singleton, List.not_mem_nil, or_false] at he
        rcases he with rfl | rfl | rfl <;> simp [Event.fatal, hh]
      refine ⟨[.LoadLibraryExW t h, .GetProcAddress h (procOf c) false, .FreeLibrary h] ++ new,
        by simp [hnew], ?_⟩
      refine ⟨?_, ?_, ?_, ?_, ?_⟩
      · simpa [resolvedProcs] using h1
      · have : invokedCalls ([.LoadLibraryExW t h, .GetProcAddress h (procOf c) false,
            .FreeLibrary h] ++ new) = invokedCalls new := by simp [invokedCalls]
        rw [this]
        exact List.Sublist.cons _ h2
      · intro hc
        obtain ⟨ha, hb⟩ := h3 (Clean_append.1 hc).2
        exact ⟨ha, by simpa [resolvedProcs] using hb⟩
      · intro hh2
        exact Clean_append.2 ⟨hpre, h4 hh2⟩
      · intro l1 e l2 hsplit hf
        obtain ⟨l1', hl⟩ := split_after_clean hpre hsplit hf
        exact h5 l1' e l2 hl hf
    | callFailed h hh hr hhr =>
      simp only [ne_eq, Int.reduceNeg, neg_eq_zero, one_ne_zero, not_false_eq_true, ↓reduceIte]
      refine ⟨[.LoadLibraryExW t h, .GetProcAddress h (procOf c) true, .Invoke t c hr],
        by simp [Outcome.state], ?_⟩
      refine ⟨by simp [resolvedProcs], by simp [invokedCalls], ?_, ?_, ?_⟩
      · intro hc
        have := hc (.Invoke t c hr) (by simp)
        simp [Event.fatal, FAILED, hhr] at this
      · intro h; simp [Outcome.halted] at h
      · intro l1 e l2 h hf
        match l1, h with
        | [], h =>
          simp only [List.nil_append, List.cons.injEq] at h
          obtain ⟨rfl, _⟩ := h
          simp [Event.fatal, hh] at hf
        | [x], h =>
          simp only [List.cons_append, List.nil_append, List.cons.injEq] at h
          obtain ⟨_, rfl, _⟩ := h
          simp [Event.fatal] at hf
        | [x, y], h =>
          simp only [List.cons_append, List.nil_append, List.cons.injEq] at h
          exact Or.inl h.2.2.2.symm
        | x :: y :: z :: l, h => simp at h
    | succeeded h hh hr hhr =>
      simp only [ne_eq, not_true_eq_false, ↓reduceIte]
      obtain ⟨new, hnew, h1, h2, h3, h4, h5⟩ := ih
        { s with calls := s.calls ++ [.LoadLibraryExW t h,
                    .GetProcAddress h (procOf c) true, .Invoke t c hr, .FreeLibrary h],
                 out := s.out ++ say s (okMsg c t) }
      have hpre : Clean [Event.LoadLibraryExW t h, .GetProcAddress h (procOf c) true,
          .Invoke t c hr, .FreeLibrary h] := by
        intro e he
        simp only [List.mem_cons, List.mem_singleton, List.not_mem_nil, or_false] at he
        rcases he with rfl | rfl | rfl | rfl <;> simp [Event.fatal, hh, FAILED, hhr]
      refine ⟨[.LoadLibraryExW t h, .GetProcAddress h (procOf c) true, .Invoke t c hr,
        .FreeLibrary h] ++ new, by simp [hnew], ?_⟩
      refine ⟨?_, ?_, ?_, ?_, ?_⟩
      · simpa [resolvedProcs] using h1
      · have : invokedCalls ([.LoadLibraryExW t h, .GetProcAddress h (procOf c) true,
            .Invoke t c hr, .FreeLibrary h] ++ new) = (t, c) :: invokedCalls new := by
          simp [invokedCalls]
        rw [this]
        exact List.Sublist.cons₂ _ h2
      · intro hc
        obtain ⟨ha, hb⟩ := h3 (Clean_append.1 hc).2
        exact ⟨ha, by simpa [resolvedProcs] using hb⟩
      · intro hh2
        exact Clean_append.2 ⟨hpre, h4 hh2⟩
      · intro l1 e l2 hsplit hf
        obtain ⟨l1', hl⟩ := split_after_clean hpre hsplit hf
        exact h5 l1' e l2 hl hf

theorem takeWhile_noNul (s r : List Char) (hs : NoNul s) :
    (s ++ NUL :: r).takeWhile (fun c => c != NUL) = s := by
  induction s with
  | nil => simp
  | cons x xs ih =>
    have hx : x ≠ NUL := hs x (by simp)
    have hxs : NoNul xs := fun c hc => hs c (by simp [hc])
    simp [List.takeWhile_cons, hx, ih hxs]

/-- The loop body on a flag token with letter `i`, from what `parse_command_line`
answers. -/
theorem wmain_body_install (o : Oracle) (st : State) (a b : Char) (r buf : List Char)
    (p : Option Nat) (hb : o.tolowerW b = 'i')
    (hflag : isFlagToken (a :: b :: r) = true)
    (hp : parse_command_line (a :: b :: (r ++ [NUL])) 2 = some (buf, p)) :
    wmain_body o st (a :: b :: r) =
      .ok { st with CallInstall := true,
                    wsCommandLine := some (match p with
                      | some q => cstrAt buf q
                      | none => []) } () := by
  have hft := flagTest_of_isFlagToken _ hflag
  have hiu : ¬ ('i' : Char) = 'u' ∧ ¬ ('i' : Char) = 's' := by decide
  simp only [wmain_body, hft]
  cases p <;>
    simp only [wmain_switch, argvBuf, List.cons_append, readAt,
      List.getElem?_cons_succ, List.getElem?_cons_zero, hb, hiu, ↓reduceIte, hp]

theorem install_bare (o : Oracle) (st : State) (a b : Char) (ha : a = '/' ∨ a = '-')
    (hb : o.tolowerW b = 'i') :
    wmain_body o st [a, b] = .ok { st with CallInstall := true, wsCommandLine := some [] } () := by
  have hflag : isFlagToken [a, b] = true := by rcases ha with rfl | rfl <;> rfl
  exact wmain_body_install o st a b [] _ none hb hflag (pcl_not_colon a b NUL [] NUL_ne_colon)

theorem install_colon (o : Oracle) (st : State) (a b : Char) (ha : a = '/' ∨ a = '-')
    (hb : o.tolowerW b = 'i') :
    wmain_body o st [a, b, ':'] =
      .ok { st with CallInstall := true, wsCommandLine := some [] } () := by
  have hflag : isFlagToken [a, b, ':'] = true := by rcases ha with rfl | rfl <;> rfl
  exact wmain_body_install o st a b [':'] _ none hb hflag (pcl_colon_end a b [])

theorem install_plain (o : Oracle) (st : State) (a b : Char) (s : WStr)
    (ha : a = '/' ∨ a = '-') (hb : o.tolowerW b = 'i') (hs : NoNul s) (hne : s ≠ [])
    (hq : s.head? ≠ some '"') :
    wmain_body o st (a :: b :: ':' :: s) =
      .ok { st with CallInstall := true, wsCommandLine := some s } () := by
  match s, hs, hne, hq with
  | x :: xs, hs, _, hq =>
    have hx : x ≠ NUL := hs x (by simp)
    have hxq : x ≠ '"' := by simpa using hq
    have hxs : NoNul xs := fun c hc => hs c (by simp [hc])
    have hflag : isFlagToken (a :: b :: ':' :: x :: xs) = true := by
      rcases ha with rfl | rfl <;> simp [isFlagToken]
    have hp := pcl_plain a b x (xs ++ [NUL]) hx hxq (by simp)
    have := wmain_body_install o st a b (':' :: x :: xs) _ (some 3) hb hflag
      (by simpa using hp)
    rw [this]
    have hc : cstrAt (a :: b :: ':' :: x :: (xs ++ [NUL])) 3 = x :: xs := by
      simp [cstrAt, List.takeWhile_cons, hx, takeWhile_noNul xs [] hxs]
    simp [hc]

theorem install_quoted (o : Oracle) (st : State) (a b : Char) (s : WStr)
    (ha : a = '/' ∨ a = '-') (hb : o.tolowerW b = 'i') (hs : NoNul s) :
    wmain_body o st (a :: b :: ':' :: '"' :: (s ++ ['"'])) =
      .ok { st with CallInstall := true, wsCommandLine := some s } () := by
  have hflag : isFlagToken (a :: b :: ':' :: '"' :: (s ++ ['"'])) = true := by
    rcases ha with rfl | rfl <;> simp [isFlagToken]
  match s, hs with
  | [], _ =>
    have hp := pcl_quote_aux a b '"' [NUL] 0 NUL_ne_quote.symm (by simp) (by simp)
    have := wmain_body_install o st a b [':', '"', '"'] _ none hb hflag (by simpa using hp)
    simpa using this
  | x :: xs, hs =>
    have hx : x ≠ NUL := hs x (by simp)
    have hxs : NoNul xs := fun c hc => hs c (by simp [hc])
    have hxq : NoNul (xs ++ ['"']) := by
      intro c hc
      rcases List.mem_append.1 hc with h | h
      · exact hxs c h
      · simp only [List.mem_singleton] at h
        subst h
        exact NUL_ne_quote.symm
    have htw : ((xs ++ ['"'] ++ [NUL]).takeWhile (fun c => c != NUL)).length = xs.length + 1 := by
      rw [show xs ++ ['"'] ++ [NUL] = (xs ++ ['"']) ++ NUL :: [] by simp,
        takeWhile_noNul _ [] hxq]
      simp
    have hp := pcl_quote_aux a b x (xs ++ ['"'] ++ [NUL]) (xs.length + 1) hx (by simp) htw
    have hset : (x :: (xs ++ ['"'] ++ [NUL])).set (xs.length + 1) NUL
        = x :: (xs ++ [NUL, NUL]) := by
      simp [List.set_append]
    rw [hset] at hp
    have := wmain_body_install o st a b (':' :: '"' :: (x :: xs ++ ['"'])) _ (some 4) hb
      hflag (by simpa using hp)
    rw [this]
    have hc : cstrAt (a :: b :: ':' :: '"' :: x :: (xs ++ [NUL, NUL])) 4 = x :: xs := by
      simp [cstrAt, List.takeWhile_cons, hx, takeWhile_noNul xs [NUL] hxs]
    simp [hc]

theorem flag_unregister (o : Oracle) (st : State) (a b : Char) (ha : a = '/' ∨ a = '-')
    (hb : o.tolowerW b = 'u') :
    wmain_body o st [a, b] = .ok { st with Unregister := true } () := by
  have hflag : isFlagToken [a, b] = true := by rcases ha with rfl | rfl <;> rfl
  simp only [wmain_body, flagTest_of_isFlagToken _ hflag]
  simp [wmain_switch, argvBuf, readAt, hb]

theorem flag_silent (o : Oracle) (st : State) (a b : Char) (ha : a = '/' ∨ a = '-')
    (hb : o.tolowerW b = 's') :
    wmain_body o st [a, b] = .ok { st with Silent := true } () := by
  have hflag : isFlagToken [a, b] = true := by rcases ha with rfl | rfl <;> rfl
  simp only [wmain_body, flagTest_of_isFlagToken _ hflag]
  simp [wmain_switch, argvBuf, readAt, hb]

theorem flag_no_register (o : Oracle) (st : State) (a b : Char) (ha : a = '/' ∨ a = '-')
    (hb : o.tolowerW b = 'n') :
    wmain_body o st [a, b] = .ok { st with CallRegister := false } () := by
  have hflag : isFlagToken [a, b] = true := by rcases ha with rfl | rfl <;> rfl
  simp only [wmain_body, flagTest_of_isFlagToken _ hflag]
  simp [wmain_switch, argvBuf, readAt, hb]

theorem SameFlags_trans {s s1 s2 : State} (h1 : SameFlags s s1) (h2 : SameFlags s1 s2) :
    SameFlags s s2 := by
  simp only [SameFlags] at *
  simp [h1, h2]

theorem runOps_sameFlags (o : Oracle) (t : WStr) (cs : List Call) :
    ∀ s : State, SameFlags s (runOps o s t cs).state := by
  induction cs with
  | nil => intro s; simp [runOps, Outcome.state, SameFlags]
  | cons c cs ih =>
    intro s
    unfold runOps
    cases hd : doOp o s t c with
    | halt s1 e => exact doOp_halt_sameFlags hd
    | ok s1 res =>
      have h1 := doOp_ok_sameFlags hd
      by_cases hres : res = 0
      · simp only [hres, ne_eq, not_true_eq_false, ↓reduceIte]
        exact SameFlags_trans h1 (ih s1)
      · simp only [ne_eq, hres, not_false_eq_true, ↓reduceIte]
        exact h1

theorem wmain_target_DllFound (o : Oracle) (s : State) (t : WStr) :
    (wmain_target o s t).state.DllFound = true := by
  rw [wmain_target_runOps]
  exact (runOps_sameFlags o t _ _).2.2.2.2.1

/-- The log of a run whose last token is a module name. -/
theorem wmain_calls_last_target (o : Oracle) (prog : WStr) (pre : List WStr) (t : WStr)
    (s : State) (hpre : wmain_loop o startState pre = .ok s ())
    (ht : flagTest (argvBuf t) = some false) :
    (wmain o (prog :: (pre ++ [t]))).1.calls =
      (wmain_target o s t).state.calls ++
        (if (wmain_target o s t).halted then [] else [ Event.OleUninitialize]) := by
  have hloop := wmain_at_token o prog pre [] t s hpre
  simp only [wmain_body, ht] at hloop
  have hfound := wmain_target_DllFound o s t
  cases hr : wmain_target o s t with
  | halt s1 e =>
    rw [hr] at hloop
    rw [wmain_of_halt hloop]
    simp [Outcome.state, Outcome.halted]
  | ok s1 u =>
    rw [hr] at hloop hfound
    simp only [wmain_loop] at hloop
    rw [wmain_of_ok_found hloop hfound]
    simp [Outcome.state, Outcome.halted, State.call]

theorem resolvedProcs_append (l m : List Event) :
    resolvedProcs (l ++ m) = resolvedProcs l ++ resolvedProcs m := by
  simp [resolvedProcs]

theorem invokedCalls_append (l m : List Event) :
    invokedCalls (l ++ m) = invokedCalls l ++ invokedCalls m := by
  simp [invokedCalls]

theorem runOps_planLog (o : Oracle) (t : WStr) (cs : List Call) :
    ∀ s : State, (runOps o s t cs).state.calls = s.calls ++ planLog o t s.calls cs := by
  induction cs with
  | nil => intro s; simp [runOps, planLog, Outcome.state]
  | cons c cs ih =>
    intro s
    simp only [runOps, planLog, doOp, runOp]
    by_cases h0 : o.LoadLibraryExW s.calls t = 0
    · simp [h0, Outcome.state]
    · by_cases hf : o.GetProcAddress (s.calls ++ [.LoadLibraryExW t (o.LoadLibraryExW s.calls t)])
          (o.LoadLibraryExW s.calls t) (procOf c) = false
      · simp only [h0, hf, ↓reduceIte, ne_eq, not_true_eq_false]
        rw [ih]
        simp
      · simp only [Bool.not_eq_false] at hf
        by_cases hr : o.invoke (s.calls ++ [.LoadLibraryExW t (o.LoadLibraryExW s.calls t),
            .GetProcAddress (o.LoadLibraryExW s.calls t) (procOf c) true]) t c < 0
        · simp [h0, hf, hr, Outcome.state]
        · simp only [h0, hf, ↓reduceIte, ne_eq, not_true_eq_false, List.append_assoc,
            List.singleton_append, List.cons_append, List.nil_append, hr, Bool.true_eq_false]
          rw [ih]
          simp

theorem wmain_target_planLog (o : Oracle) (s : State) (t : WStr) :
    (wmain_target o s t).state.calls = s.calls ++ planLog o t s.calls (plannedCalls s) := by
  rw [wmain_target_runOps]
  exact runOps_planLog o t (plannedCalls s) { s with DllFound := true }

theorem planLog_found_invoked (o : Oracle) (t : WStr) (cs : List Call) :
    ∀ (hist : List Event) (i : Nat) (h : Nat) (p : Proc),
      (planLog o t hist cs)[i]? = some (.GetProcAddress h p true) →
      ∃ c ∈ cs, procOf c = p ∧
        ∃ hr, (planLog o t hist cs)[i + 1]? = some (.Invoke t c hr) := by
  induction cs with
  | nil => intro hist i h p hi; simp [planLog] at hi
  | cons c cs ih =>
    intro hist i h p
    simp only [planLog]
    by_cases h0 : o.LoadLibraryExW hist t = 0
    · simp only [h0, ↓reduceIte]
      intro hi
      match i, hi with
      | 0, hi => simp at hi
      | 1, hi => simp at hi
      | n + 2, hi => simp at hi
    · by_cases hf : o.GetProcAddress (hist ++ [.LoadLibraryExW t (o.LoadLibraryExW hist t)])
          (o.LoadLibraryExW hist t) (procOf c) = false
      · simp only [h0, hf, ↓reduceIte]
        intro hi
        match i, hi with
        | 0, hi => simp at hi
        | 1, hi => simp at hi
        | 2, hi => simp at hi
        | n + 3, hi =>
          simp only [List.cons_append, List.nil_append, List.getElem?_cons_succ] at hi
          obtain ⟨c1, hc1, hp, hr, hinv⟩ := ih _ n h p hi
          exact ⟨c1, List.mem_cons_of_mem _ hc1, hp, hr,
            by simpa only [List.cons_append, List.nil_append, List.getElem?_cons_succ] using hinv⟩
      · simp only [Bool.not_eq_false] at hf
        by_cases hr : o.invoke (hist ++ [.LoadLibraryExW t (o.LoadLibraryExW hist t),
            .GetProcAddress (o.LoadLibraryExW hist t) (procOf c) true]) t c < 0
        · simp only [h0, hf, hr, ↓reduceIte, Bool.true_eq_false]
          intro hi
          match i, hi with
          | 0, hi => simp at hi
          | 1, hi =>
            simp only [List.getElem?_cons_succ, List.getElem?_cons_zero, Option.some.injEq,
              Event.GetProcAddress.injEq] at hi
            exact ⟨c, List.mem_cons_self _ _, hi.2.1, _, rfl⟩
          | 2, hi => simp at hi
          | n + 3, hi => simp at hi
        · simp only [h0, hf, hr, ↓reduceIte, Bool.true_eq_false]
          intro hi
          match i, hi with
          | 0, hi => simp at hi
          | 1, hi =>
            simp only [List.cons_append, List.getElem?_cons_succ, List.getElem?_cons_zero,
              Option.some.injEq, Event.GetProcAddress.injEq] at hi
            exact ⟨c, List.mem_cons_self _ _, hi.2.1, _, rfl⟩
          | 2, hi => simp at hi
          | 3, hi => simp at hi
          | n + 4, hi =>
            simp only [List.cons_append, List.nil_append, List.getElem?_cons_succ] at hi
            obtain ⟨c1, hc1, hp, hr1, hinv⟩ := ih _ n h p hi
            exact ⟨c1, List.mem_cons_of_mem _ hc1, hp, hr1,
              by simpa only [List.cons_append, List.nil_append, List.getElem?_cons_succ]
                using hinv⟩

theorem last_target_calls (o : Oracle) (prog : WStr) (pre : List WStr) (t : WStr) (s : State)
    (hpre : wmain_loop o startState pre = .ok s ()) (ht : flagTest (argvBuf t) = some false)
    (hs : s.calls = [.OleInitialize]) :
    resolvedProcs (wmain o (prog :: (pre ++ [t]))).1.calls =
        resolvedProcs (planLog o t s.calls (plannedCalls s)) ∧
      invokedCalls (wmain o (prog :: (pre ++ [t]))).1.calls =
        invokedCalls (planLog o t s.calls (plannedCalls s)) := by
  rw [wmain_calls_last_target o prog pre t s hpre ht, wmain_target_planLog, hs]
  cases (wmain_target o s t).halted <;> simp [resolvedProcs, invokedCalls]

/-- C6: per-target sequencing.  For a module name `t` reached with the flags of
`s`, the part `new` of the log added while processing `t` is exactly the log of
the planned calls (first `DllUnregisterServer` if `Unregister` else
`DllRegisterServer`, planned iff `CallInstall` is false or `CallRegister` is
true; then `DllInstall(!Unregister, wsCommandLine)`, planned iff `CallInstall`
is true) taken in order: load, resolve, and when the entry point is found the
call with the planned arguments; every entry point found is called next.  The
procedure names resolved are a prefix of the planned ones, the calls made are
among the planned ones in order; when no load and no call fails all the planned
procedures are resolved and the run goes on; and after a failed load or call
nothing follows but `ExitProcess(1)`, so `DllInstall` is reached only if the
first step was not fatal.  In particular in `/n /i:foo target` nothing but
`DllInstall` is resolved, and when the module loads and exports it, it is
called with `(TRUE, "foo")`; in `/u /i target` with the module loading and
exporting both, `DllUnregisterServer` is called and, when it succeeds, then
`DllInstall(FALSE, "")`, and when it fails nothing else is resolved. -/
theorem per_target_sequencing (o : Oracle) :
    (∀ (s : State) (t : WStr), ∃ new,
      (wmain_target o s t).state.calls = s.calls ++ new ∧
      new = planLog o t s.calls (plannedCalls s) ∧
      (∀ (i h : Nat) (p : Proc), new[i]? = some (.GetProcAddress h p true) →
        ∃ c ∈ plannedCalls s, procOf c = p ∧ ∃ hr, new[i + 1]? = some (.Invoke t c hr)) ∧
      resolvedProcs new <+: (plannedCalls s).map procOf ∧
      (invokedCalls new).Sublist ((plannedCalls s).map fun c => (t, c)) ∧
      (Clean new →
        (wmain_target o s t).halted = false ∧
        resolvedProcs new = (plannedCalls s).map procOf) ∧
      ((wmain_target o s t).halted = false → Clean new) ∧
      (∀ l1 e l2, new = l1 ++ e :: l2 → e.fatal = true →
        l2 = [] ∨ l2 = [.ExitProcess 1])) ∧
    (∀ (prog t : WStr), flagTest (argvBuf t) = some false →
      o.tolowerW 'n' = 'n' → o.tolowerW 'i' = 'i' →
      resolvedProcs (wmain o [prog, ['/', 'n'], ['/', 'i', ':', 'f', 'o', 'o'], t]).1.calls
        <+: [.DllInstall] ∧
      (invokedCalls
        (wmain o [prog, ['/', 'n'], ['/', 'i', ':', 'f', 'o', 'o'], t]).1.calls).Sublist
        [(t, .DllInstall true (some ['f', 'o', 'o']))] ∧
      ((∀ l, o.LoadLibraryExW l t ≠ 0) → (∀ l h, o.GetProcAddress l h .DllInstall = true) →
        resolvedProcs (wmain o [prog, ['/', 'n'], ['/', 'i', ':', 'f', 'o', 'o'], t]).1.calls
          = [.DllInstall] ∧
        invokedCalls (wmain o [prog, ['/', 'n'], ['/', 'i', ':', 'f', 'o', 'o'], t]).1.calls
          = [(t, .DllInstall true (some ['f', 'o', 'o']))])) ∧
    (∀ (prog t : WStr), flagTest (argvBuf t) = some false →
      o.tolowerW 'u' = 'u' → o.tolowerW 'i' = 'i' →
      resolvedProcs (wmain o [prog, ['/', 'u'], ['/', 'i'], t]).1.calls
        <+: [.DllUnregisterServer, .DllInstall] ∧
      (invokedCalls (wmain o [prog, ['/', 'u'], ['/', 'i'], t]).1.calls).Sublist
        [(t, .DllUnregisterServer), (t, .DllInstall false (some []))] ∧
      ((∀ l, o.LoadLibraryExW l t ≠ 0) → (∀ l h p, o.GetProcAddress l h p = true) →
        ((∀ l, ¬ o.invoke l t .DllUnregisterServer < 0) →
          resolvedProcs (wmain o [prog, ['/', 'u'], ['/', 'i'], t]).1.calls
            = [.DllUnregisterServer, .DllInstall] ∧
          invokedCalls (wmain o [prog, ['/', 'u'], ['/', 'i'], t]).1.calls
            = [(t, .DllUnregisterServer), (t, .DllInstall false (some []))]) ∧
        ((∀ l, o.invoke l t .DllUnregisterServer < 0) →
          resolvedProcs (wmain o [prog, ['/', 'u'], ['/', 'i'], t]).1.calls
            = [.DllUnregisterServer] ∧
          invokedCalls (wmain o [prog, ['/', 'u'], ['/', 'i'], t]).1.calls
            = [(t, .DllUnregisterServer)]))) := by
  have hgen : ∀ (s : State) (t : WStr), ∃ new,
      (wmain_target o s t).state.calls = s.calls ++ new ∧
      OpsTrace t (plannedCalls s) new (wmain_target o s t).halted := by
    intro s t
    rw [wmain_target_runOps]
    exact runOps_trace o t (plannedCalls s) { s with DllFound := true }
  have hplan : ∀ (s : State) (t : WStr),
      OpsTrace t (plannedCalls s) (planLog o t s.calls (plannedCalls s))
        (wmain_target o s t).halted := by
    intro s t
    obtain ⟨new, hnew, htr⟩ := hgen s t
    rw [wmain_target_planLog] at hnew
    rw [List.append_cancel_left hnew]
    exact htr
  refine ⟨fun s t => ?_, ?_, ?_⟩
  · exact ⟨_, wmain_target_planLog o s t, rfl,
      fun i h p hi => planLog_found_invoked o t (plannedCalls s) s.calls i h p hi, hplan s t⟩
  · intro prog t ht hn hi
    have hpre : wmain_loop o startState [['/', 'n'], ['/', 'i', ':', 'f', 'o', 'o']] =
        .ok { startState with CallRegister := false, CallInstall := true,
                              wsCommandLine := some ['f', 'o', 'o'] } () := by
      simp only [wmain_loop, flag_no_register o _ '/' 'n' (Or.inl rfl) hn,
        install_plain o _ '/' 'i' ['f', 'o', 'o'] (Or.inl rfl) hi (by decide) (by decide)
          (by decide)]
    obtain ⟨h1, h2⟩ := last_target_calls o prog _ t _ hpre ht rfl
    have e1 : resolvedProcs (wmain o [prog, ['/', 'n'], ['/', 'i', ':', 'f', 'o', 'o'], t]).1.calls
        = resolvedProcs (planLog o t _ _) := h1
    have e2 : invokedCalls (wmain o [prog, ['/', 'n'], ['/', 'i', ':', 'f', 'o', 'o'], t]).1.calls
        = invokedCalls (planLog o t _ _) := h2
    rw [e1, e2]
    have htr := hplan { startState with CallRegister := false, CallInstall := true,
                                        wsCommandLine := some ['f', 'o', 'o'] } t
    refine ⟨htr.1, htr.2.1, ?_⟩
    intro hl hf
    have hp : plannedCalls
        { startState with CallRegister := false, CallInstall := true,
                          wsCommandLine := some ['f', 'o', 'o'] } =
        [.DllInstall true (some ['f', 'o', 'o'])] := by
      decide
    rw [hp]
    simp only [planLog, hl, ↓reduceIte, procOf, hf, Bool.true_eq_false]
    split <;> simp [resolvedProcs, invokedCalls]
  · intro prog t ht hu hi
    have hpre : wmain_loop o startState [['/', 'u'], ['/', 'i']] =
        .ok { startState with Unregister := true, CallInstall := true,
                              wsCommandLine := some [] } () := by
      simp only [wmain_loop, flag_unregister o _ '/' 'u' (Or.inl rfl) hu,
        install_bare o _ '/' 'i' (Or.inl rfl) hi]
    obtain ⟨h1, h2⟩ := last_target_calls o prog _ t _ hpre ht rfl
    have e1 : resolvedProcs (wmain o [prog, ['/', 'u'], ['/', 'i'], t]).1.calls
        = resolvedProcs (planLog o t _ _) := h1
    have e2 : invokedCalls (wmain o [prog, ['/', 'u'], ['/', 'i'], t]).1.calls
        = invokedCalls (planLog o t _ _) := h2
    rw [e1, e2]
    have htr := hplan { startState with Unregister := true, CallInstall := true,
                                        wsCommandLine := some [] } t
    refine ⟨htr.1, htr.2.1, ?_⟩
    intro hl hf
    have hp : plannedCalls
        { startState with Unregister := true, CallInstall := true,
                          wsCommandLine := some [] } =
        [.DllUnregisterServer, .DllInstall false (some [])] := by
      decide
    rw [hp]
    constructor
    · intro hok
      simp only [planLog, hl, ↓reduceIte, procOf, hf, Bool.true_eq_false, hok]
      split <;> simp [resolvedProcs, invokedCalls]
    · intro hbad
      simp [planLog, hl, procOf, hf, hbad, resolvedProcs, invokedCalls]

/-- Witness of C6: with every module loading and every call succeeding,
`/n /i:foo a.dll` resolves `DllInstall` only and calls it with `(TRUE, "foo")`,
and `/u /i a.dll` calls `DllUnregisterServer`, then `DllInstall(FALSE, "")`;
with every call failing, `/u /i a.dll` stops after `DllUnregisterServer`. -/
theorem per_target_sequencing_witness :
    (resolvedProcs (wmain okOracle
        [progName, ['/', 'n'], ['/', 'i', ':', 'f', 'o', 'o'], aDll]).1.calls = [.DllInstall] ∧
      invokedCalls (wmain okOracle
        [progName, ['/', 'n'], ['/', 'i', ':', 'f', 'o', 'o'], aDll]).1.calls
          = [(aDll, .DllInstall true (some ['f', 'o', 'o']))]) ∧
    (resolvedProcs (wmain okOracle [progName, ['/', 'u'], ['/', 'i'], aDll]).1.calls
        = [.DllUnregisterServer, .DllInstall] ∧
      invokedCalls (wmain okOracle [progName, ['/', 'u'], ['/', 'i'], aDll]).1.calls
        = [(aDll, .DllUnregisterServer), (aDll, .DllInstall false (some []))]) ∧
    (resolvedProcs (wmain failOracle [progName, ['/', 'u'], ['/', 'i'], aDll]).1.calls
        = [.DllUnregisterServer] ∧
      invokedCalls (wmain failOracle [progName, ['/', 'u'], ['/', 'i'], aDll]).1.calls
        = [(aDll, .DllUnregisterServer)]) :=
  ⟨((per_target_sequencing okOracle).2.1 progName aDll (by decide) (by decide)
      (by decide)).2.2 (fun _ => Nat.one_ne_zero) (fun _ _ => rfl),
   (((per_target_sequencing okOracle).2.2 progName aDll (by decide) (by decide)
      (by decide)).2.2 (fun _ => Nat.one_ne_zero) (fun _ _ _ => rfl)).1
        (fun _ => show ¬ (0 : Int) < 0 from by decide),
   (((per_target_sequencing failOracle).2.2 progName aDll (by decide) (by decide)
      (by decide)).2.2 (fun _ => Nat.one_ne_zero) (fun _ _ _ => rfl)).2
        (fun _ => show (-2147467259 : Int) < 0 from by decide)⟩

theorem planLog_load_failed (o : Oracle) (t : WStr) (cs : List Call) :
    ∀ hist : List Event, .LoadLibraryExW t 0 ∈ planLog o t hist cs →
      ∃ done c rest, cs = done ++ c :: rest ∧
        resolvedProcs (planLog o t hist cs) = done.map procOf ∧
        (invokedCalls (planLog o t hist cs)).Sublist (done.map fun c => (t, c)) := by
  induction cs with
  | nil => intro hist h; simp [planLog] at h
  | cons c cs ih =>
    intro hist
    simp only [planLog]
    by_cases h0 : o.LoadLibraryExW hist t = 0
    · simp only [h0, ↓reduceIte]
      intro _
      exact ⟨[], c, cs, rfl, by simp [resolvedProcs], by simp [invokedCalls]⟩
    · by_cases hf : o.GetProcAddress (hist ++ [.LoadLibraryExW t (o.LoadLibraryExW hist t)])
          (o.LoadLibraryExW hist t) (procOf c) = false
      · simp only [h0, hf, ↓reduceIte]
        intro hm
        have hm2 : .LoadLibraryExW t 0 ∈ planLog o t
            (hist ++ [.LoadLibraryExW t (o.LoadLibraryExW hist t),
              .GetProcAddress (o.LoadLibraryExW hist t) (procOf c) false,
              .FreeLibrary (o.LoadLibraryExW hist t)]) cs := by
          simp only [List.cons_append, List.nil_append, List.mem_cons, Event.LoadLibraryExW.injEq,
            true_and, reduceCtorEq, false_or] at hm
          rcases hm with hm | hm
          · exact (h0 hm.symm).elim
          · exact hm
        obtain ⟨done, c1, rest, hcs, hres, hinv⟩ := ih _ hm2
        refine ⟨c :: done, c1, rest, by simp [hcs], ?_, ?_⟩
        · rw [resolvedProcs_append, hres]
          simp [resolvedProcs]
        · rw [invokedCalls_append]
          simpa [invokedCalls] using hinv.cons _
      · simp only [Bool.not_eq_false] at hf
        by_cases hr : o.invoke (hist ++ [.LoadLibraryExW t (o.LoadLibraryExW hist t),
            .GetProcAddress (o.LoadLibraryExW hist t) (procOf c) true]) t c < 0
        · simp only [h0, hf, hr, ↓reduceIte, Bool.true_eq_false]
          intro hm
          simp only [List.mem_cons, Event.LoadLibraryExW.injEq, true_and, reduceCtorEq,
            List.mem_singleton, or_false, List.not_mem_nil] at hm
          exact (h0 hm.symm).elim
        · simp only [h0, hf, hr, ↓reduceIte, Bool.true_eq_false]
          intro hm
          have hm2 : .LoadLibraryExW t 0 ∈ planLog o t
              (hist ++ [.LoadLibraryExW t (o.LoadLibraryExW hist t),
                .GetProcAddress (o.LoadLibraryExW hist t) (procOf c) true,
                .Invoke t c (o.invoke (hist ++ [.LoadLibraryExW t (o.LoadLibraryExW hist t),
                  .GetProcAddress (o.LoadLibraryExW hist t) (procOf c) true]) t c),
                .FreeLibrary (o.LoadLibraryExW hist t)]) cs := by
            simp only [List.cons_append, List.nil_append, List.mem_cons,
              Event.LoadLibraryExW.injEq, true_and, reduceCtorEq, false_or] at hm
            rcases hm with hm | hm
            · exact (h0 hm.symm).elim
            · exact hm
          obtain ⟨done, c1, rest, hcs, hres, hinv⟩ := ih _ hm2
          refine ⟨c :: done, c1, rest, by simp [hcs], ?_, ?_⟩
          · rw [resolvedProcs_append, hres]
            simp [resolvedProcs]
          · rw [invokedCalls_append]
            simpa [invokedCalls] using hinv.cons₂ (t, c)

theorem wmain_target_load_failed_before (o : Oracle) (s : State) (t : WStr)
    (new : List Event) (hnew : (wmain_target o s t).state.calls = s.calls ++ new)
    (hm : .LoadLibraryExW t 0 ∈ new) :
    (resolvedProcs new = [] ∧ invokedCalls new = []) ∨
    (s.CallInstall = true ∧ s.CallRegister = true ∧
      resolvedProcs new = [procOf (regCall s)] ∧
      (invokedCalls new).Sublist [(t, regCall s)]) := by
  rw [wmain_target_planLog] at hnew
  have hnew := (List.append_cancel_left hnew).symm
  subst hnew
  obtain ⟨done, c, rest, hcs, hres, hinv⟩ := planLog_load_failed o t _ _ hm
  rw [hres]
  cases hi : s.CallInstall <;> cases hr : s.CallRegister <;>
    simp only [plannedCalls, hi, hr, Bool.not_false, Bool.not_true, Bool.or_false,
      Bool.or_true, Bool.false_or, Bool.true_or, ↓reduceIte, List.append_nil, List.nil_append,
      List.singleton_append, Bool.false_eq_true] at hcs
  all_goals
    match done, hcs, hinv with
    | [], _, hinv => left; exact ⟨rfl, by simpa using hinv⟩
    | [d], hcs, hinv =>
      simp only [List.cons_append, List.nil_append, List.cons.injEq, reduceCtorEq,
        and_false, false_and] at hcs
      try (obtain ⟨hd, _⟩ := hcs; subst hd; right; exact ⟨rfl, rfl, rfl, by simpa using hinv⟩)
    | d :: d2 :: ds, hcs, _ =>
      simp at hcs

/-- C8, counterexample: in `/i a.dll`, in a world where the module loads until an
entry point has been called, `DllRegisterServer` of `a.dll` is resolved and
called, and then the load of `a.dll` that precedes `DllInstall` fails: the
process ends with exit status 1 and the load-failed message, although an entry
point of that module was resolved and invoked. -/
theorem load_failure_after_register :
    (wmain loadOnceOracle [progName, ['/', 'i'], aDll]).2 = .exited 1 ∧
    (wmain loadOnceOracle [progName, ['/', 'i'], aDll]).1.calls =
      [.OleInitialize, .LoadLibraryExW aDll 1, .GetProcAddress 1 .DllRegisterServer true,
        .Invoke aDll .DllRegisterServer 0, .FreeLibrary 1, .LoadLibraryExW aDll 0,
        .ExitProcess 1] ∧
    (wmain loadOnceOracle [progName, ['/', 'i'], aDll]).1.out =
      [.STRING_REGISTER_SUCCESSFUL aDll, .STRING_DLL_LOAD_FAILED aDll] ∧
    resolvedProcs (wmain loadOnceOracle [progName, ['/', 'i'], aDll]).1.calls
      = [.DllRegisterServer] ∧
    invokedCalls (wmain loadOnceOracle [progName, ['/', 'i'], aDll]).1.calls
      = [(aDll, .DllRegisterServer)] := by
  decide

/-- C8, amended: a load failure is fatal.  (a) If the log of a run of `wmain` holds a
failed load of module `t`, the process ends through `ExitProcess(1)`, which is the
only entry of the log after the failed load, so that nothing is resolved, invoked
or loaded after it, and unless `Silent` is set the last message reported is the
load-failed message naming `t`.  (b) If the load fails when the module name `t` is
reached in state `s` (after the tokens `pre`), the run ends with exit status 1 and
the log of `s` extended by the failed load and `ExitProcess(1)` only: no entry
point of `t` is resolved or invoked and no module named by a later token is
loaded.  (c) If the part of the log added for the module name `t` holds a failed
load, then either no entry point of `t` was resolved or invoked, or both the
install step and the register step are in effect and the one entry point
resolved is that of the register or unregister step, the only one that can have
been called: the failed load is then the one that precedes `DllInstall`, which
is neither resolved nor called. -/
theorem load_failure_is_fatal (o : Oracle) :
    (∀ (argv : List WStr) (i : Nat) (t : WStr),
      (wmain o argv).1.calls[i]? = some (.LoadLibraryExW t 0) →
        (wmain o argv).2 = .exited 1 ∧
        (wmain o argv).1.calls.length = i + 2 ∧
        (wmain o argv).1.calls[i + 1]? = some (.ExitProcess 1) ∧
        ((wmain o argv).1.Silent = false →
          (wmain o argv).1.out.getLast? = some (.STRING_DLL_LOAD_FAILED t))) ∧
    (∀ (prog : WStr) (pre post : List WStr) (t : WStr) (s : State),
      wmain_loop o startState pre = .ok s () →
      flagTest (argvBuf t) = some false →
      o.LoadLibraryExW s.calls t = 0 →
        wmain o (prog :: (pre ++ t :: post)) =
          ({ s with DllFound := true,
                    calls := s.calls ++ [.LoadLibraryExW t 0, .ExitProcess 1],
                    out := s.out ++ (if s.Silent then [] else [.STRING_DLL_LOAD_FAILED t]) },
           .exited 1)) ∧
    (∀ (s : State) (t : WStr) (new : List Event),
      (wmain_target o s t).state.calls = s.calls ++ new →
      .LoadLibraryExW t 0 ∈ new →
        (resolvedProcs new = [] ∧ invokedCalls new = []) ∨
        (s.CallInstall = true ∧ s.CallRegister = true ∧
          resolvedProcs new = [procOf (regCall s)] ∧
          (invokedCalls new).Sublist [(t, regCall s)])) := by
  refine ⟨?_, ?_, ?_⟩
  · intro argv i t hev
    obtain ⟨h1, h2, h3, m, h4⟩ := failed_load_exits o argv i t hev
    refine ⟨h1, h2, h3, ?_⟩
    intro hs
    rw [h4]
    simp [say, hs]
  · intro prog pre post t s hpre ht hload
    apply wmain_of_halt
    rw [wmain_at_token o prog pre post t s hpre]
    simp only [wmain_body, ht, wmain_target_load_failed o s t hload, say]
  · intro s t new hnew hm
    exact wmain_target_load_failed_before o s t new hnew hm

/-- Witness of C8: when no module loads, `a.dll b.dll` ends at the failed load of
`a.dll` with exit status 1; and when the load that precedes `DllInstall` fails
for a module reached with the install step in effect, only the register entry
point was resolved before. -/
theorem load_failure_is_fatal_witness :
    (wmain noLoadOracle [progName, aDll, bDll]).2 = .exited 1 ∧
    (wmain noLoadOracle [progName, aDll, bDll]).1.calls.length = 3 ∧
    wmain noLoadOracle [progName, aDll, bDll] =
      ({ startState with
           DllFound := true,
           calls := [.OleInitialize, .LoadLibraryExW aDll 0, .ExitProcess 1],
           out := [.STRING_DLL_LOAD_FAILED aDll] }, .exited 1) ∧
    (resolvedProcs [ Event.LoadLibraryExW aDll 1, .GetProcAddress 1 .DllRegisterServer true,
        .Invoke aDll .DllRegisterServer 0, .FreeLibrary 1, .LoadLibraryExW aDll 0,
        .ExitProcess 1] = [.DllRegisterServer] ∧
      (invokedCalls [ Event.LoadLibraryExW aDll 1, .GetProcAddress 1 .DllRegisterServer true,
        .Invoke aDll .DllRegisterServer 0, .FreeLibrary 1, .LoadLibraryExW aDll 0,
        .ExitProcess 1]).Sublist [(aDll, .DllRegisterServer)]) :=
  have ha := (load_failure_is_fatal noLoadOracle).1 [progName, aDll, bDll] 1 aDll (by decide)
  have hb := (load_failure_is_fatal noLoadOracle).2.1 progName [] [bDll] aDll startState
    rfl (by decide) rfl
  have hc := (load_failure_is_fatal loadOnceOracle).2.2
    { startState with CallInstall := true, wsCommandLine := some [] } aDll
    [.LoadLibraryExW aDll 1, .GetProcAddress 1 .DllRegisterServer true,
      .Invoke aDll .DllRegisterServer 0, .FreeLibrary 1, .LoadLibraryExW aDll 0,
      .ExitProcess 1] (by decide) (by decide)
  ⟨ha.1, ha.2.1, hb, (hc.resolve_left (by decide)).2.2⟩

/-- C4: flags are case-insensitive.  Let `tolowerW` map each of u, s, i, n, c and
its upper-case form to the lower-case letter.  If `args1` comes from `args` by
putting the letter of any of its flag tokens with a letter among u, s, i, n, c
in upper case (the rest of the token, a `:` suffix included, unchanged), then
`wmain` ends in the same state with the same ending on both: same exit status,
same log of loads and calls with their arguments, same messages. -/
theorem flags_case_insensitive (o : Oracle)
    (hlow : ∀ l ∈ recognizedLetters, o.tolowerW l = l ∧ o.tolowerW l.toUpper = l)
    (prog : WStr) (args args1 : List WStr) (hrel : List.Forall₂ CaseVariant args args1) :
    wmain o (prog :: args1) = wmain o (prog :: args) := by
  have h := wmain_loop_upcase o hlow args args1 hrel
  simp only [wmain, List.tail_cons, h]

/-- Witness of C4: `/U /I:x a.dll` runs as `/u /i:x a.dll`. -/
theorem flags_case_insensitive_witness :
    wmain okOracle [progName, ['/', 'U'], ['/', 'I', ':', 'x'], aDll] =
      wmain okOracle [progName, ['/', 'u'], ['/', 'i', ':', 'x'], aDll] :=
  flags_case_insensitive okOracle (by decide) progName
    [['/', 'u'], ['/', 'i', ':', 'x'], aDll] [['/', 'U'], ['/', 'I', ':', 'x'], aDll]
    (List.Forall₂.cons (Or.inr ⟨by decide, by decide, rfl⟩)
      (List.Forall₂.cons (Or.inr ⟨by decide, by decide, rfl⟩)
        (List.Forall₂.cons (Or.inl rfl) List.Forall₂.nil)))

theorem install_call_args (o : Oracle) (s : State) (t : WStr) :
    ∃ new, (wmain_target o s t).state.calls = s.calls ++ new ∧
      ∀ (t1 : WStr) (install : Bool) (cl : Option WStr) (hr : Int),
        Event.Invoke t1 (.DllInstall install cl) hr ∈ new →
          t1 = t ∧ install = (!s.Unregister) ∧ cl = s.wsCommandLine := by
  rw [wmain_target_runOps]
  obtain ⟨new, hnew, _, h2, _⟩ := runOps_trace o t (plannedCalls s) { s with DllFound := true }
  refine ⟨new, hnew, ?_⟩
  intro t1 install cl hr hmem
  have h1 : (t1, Call.DllInstall install cl) ∈ invokedCalls new := by
    simp only [invokedCalls, List.mem_filterMap]
    exact ⟨_, hmem, rfl⟩
  have h3 := h2.subset h1
  simp only [List.mem_map, Prod.mk.injEq] at h3
  obtain ⟨c, hc, rfl, hc2⟩ := h3
  subst hc2
  refine ⟨rfl, ?_⟩
  cases hi : s.CallInstall <;> cases hr : s.CallRegister <;> cases hu : s.Unregister <;>
    simp [plannedCalls, hi, hr, hu, regCall, instCall] at hc <;> simp [hc, hu]

/-- C5: install-parameter parsing.  On a flag token with first character `/` or
`-` and a letter that `tolowerW` maps to `i`: the token `/i:"` ++ s ++ `"` sets
`wsCommandLine` to exactly `s`, for every string `s` (a string holds no NUL), the
empty one included; for a non-empty `s` that does not begin with a double quote
`/i:` ++ s sets it to `s`; `/i` and `/i:` set it to the empty string, not to
`NULL`.  For every module name processed afterwards, each `DllInstall` call in
the log carries `wsCommandLine` as its second argument. -/
theorem install_parameter_parsing (o : Oracle) (st : State) (a b : Char) (s : WStr)
    (ha : a = '/' ∨ a = '-') (hb : o.tolowerW b = 'i') (hs : NoNul s) :
    wmain_body o st (a :: b :: ':' :: '"' :: (s ++ ['"'])) =
      .ok { st with CallInstall := true, wsCommandLine := some s } () ∧
    (s ≠ [] → s.head? ≠ some '"' →
      wmain_body o st (a :: b :: ':' :: s) =
        .ok { st with CallInstall := true, wsCommandLine := some s } ()) ∧
    wmain_body o st [a, b] = .ok { st with CallInstall := true, wsCommandLine := some [] } () ∧
    wmain_body o st [a, b, ':'] =
      .ok { st with CallInstall := true, wsCommandLine := some [] } () ∧
    (∀ (s1 : State) (t : WStr), ∃ new,
      (wmain_target o s1 t).state.calls = s1.calls ++ new ∧
      ∀ (t1 : WStr) (install : Bool) (cl : Option WStr) (hr : Int),
        Event.Invoke t1 (.DllInstall install cl) hr ∈ new →
          t1 = t ∧ install = (!s1.Unregister) ∧ cl = s1.wsCommandLine) :=
  ⟨install_quoted o st a b s ha hb hs,
   fun hne hq => install_plain o st a b s ha hb hs hne hq,
   install_bare o st a b ha hb,
   install_colon o st a b ha hb,
   fun s1 t => install_call_args o s1 t⟩

/-- Witness of C5: `/i:"abc"` gives the parameter `abc`, and `a.dll` after it gets
`DllInstall(TRUE, "abc")`. -/
theorem install_parameter_parsing_witness :
    wmain_body okOracle startState ['/', 'i', ':', '"', 'a', 'b', 'c', '"'] =
      .ok { startState with CallInstall := true, wsCommandLine := some ['a', 'b', 'c'] } () ∧
    invokedCalls
      (wmain okOracle [progName, ['/', 'i', ':', '"', 'a', 'b', 'c', '"'], aDll]).1.calls =
      [(aDll, .DllRegisterServer), (aDll, .DllInstall true (some ['a', 'b', 'c']))] :=
  ⟨(install_parameter_parsing okOracle startState '/' 'i' ['a', 'b', 'c'] (Or.inl rfl)
      (by decide) (by decide)).1, by decide⟩

theorem doOp_missing (o : Oracle) (s : State) (t : WStr) (c : Call) (h : Nat)
    (hload : o.LoadLibraryExW s.calls t = h) (hh : h ≠ 0)
    (hm : o.GetProcAddress (s.calls ++ [.LoadLibraryExW t h]) h (procOf c) = false) :
    doOp o s t c = .ok (afterMissing s t h (procOf c)) 0 := by
  subst hload
  simp [doOp, runOp, hh, hm, afterMissing, say]

theorem runOps_all_missing (o : Oracle) (t : WStr)
    (hload : ∀ l, o.LoadLibraryExW l t ≠ 0) (hmiss : ∀ l h p, o.GetProcAddress l h p = false)
    (cs : List Call) :
    ∀ s : State, ∃ s1, runOps o s t cs = .ok s1 () ∧
      invokedCalls s1.calls = invokedCalls s.calls ∧
      loadedModules s1.calls = loadedModules s.calls ++ List.replicate cs.length t := by
  induction cs with
  | nil => intro s; exact ⟨s, rfl, rfl, by simp⟩
  | cons c cs ih =>
    intro s
    obtain ⟨s1, h1, h2, h3⟩ := ih (afterMissing s t (o.LoadLibraryExW s.calls t) (procOf c))
    refine ⟨s1, ?_, ?_, ?_⟩
    · simp only [runOps, doOp_missing o s t c _ rfl (hload _) (hmiss _ _ _), ne_eq,
        not_true_eq_false, ↓reduceIte, h1]
    · rw [h2]; simp [afterMissing, invokedCalls]
    · rw [h3]; simp [afterMissing, loadedModules, List.replicate_succ]

theorem wmain_body_missing_single (o : Oracle) (s : State) (t : WStr) (h : Nat)
    (ht : flagTest (argvBuf t) = some false) (hi : s.CallInstall = false)
    (hload : o.LoadLibraryExW s.calls t = h) (hh : h ≠ 0)
    (hm : o.GetProcAddress (s.calls ++ [.LoadLibraryExW t h]) h (procOf (regCall s)) = false) :
    wmain_body o s t =
      .ok (afterMissing { s with DllFound := true } t h (procOf (regCall s))) () := by
  have hplan : plannedCalls s = [regCall s] := by simp [plannedCalls, hi]
  simp only [wmain_body, ht, wmain_target_runOps, hplan, runOps]
  rw [doOp_missing o { s with DllFound := true } t (regCall s) h hload hh hm]
  simp

/-- C7: a missing entry point is never fatal.  (a) When the module loads with a
handle `h` and does not export the requested procedure, each of `RegisterDll`,
`UnregisterDll` and `InstallDll` returns 0 with the log extended by the load, the
failed resolution and the release of `h` only (no entry point is invoked) and the
messages extended by the not-implemented diagnostic only (unless `Silent`).
(b) For `/u target` where the module loads and lacks `DllUnregisterServer`,
`wmain` returns 0.  (c) For a module that loads and exports nothing, the loop
goes on with the next token after every planned operation has been attempted
and none invoked. -/
theorem missing_entry_point_not_fatal (o : Oracle) :
    (∀ (s : State) (t : WStr) (h : Nat), o.LoadLibraryExW s.calls t = h → h ≠ 0 →
      (o.GetProcAddress (s.calls ++ [.LoadLibraryExW t h]) h .DllRegisterServer = false →
        RegisterDll o s t = .ok (afterMissing s t h .DllRegisterServer) 0) ∧
      (o.GetProcAddress (s.calls ++ [.LoadLibraryExW t h]) h .DllUnregisterServer = false →
        UnregisterDll o s t = .ok (afterMissing s t h .DllUnregisterServer) 0) ∧
      (o.GetProcAddress (s.calls ++ [.LoadLibraryExW t h]) h .DllInstall = false →
        ∀ (install : Bool) (cl : Option WStr),
          InstallDll o s install t cl = .ok (afterMissing s t h .DllInstall) 0)) ∧
    (∀ (prog t : WStr) (h : Nat), flagTest (argvBuf t) = some false →
      o.tolowerW 'u' = 'u' → o.LoadLibraryExW [.OleInitialize] t = h → h ≠ 0 →
      o.GetProcAddress [.OleInitialize, .LoadLibraryExW t h] h .DllUnregisterServer = false →
        wmain o [prog, ['/', 'u'], t] =
          ({ startState with
               Unregister := true, DllFound := true,
               calls := [.OleInitialize, .LoadLibraryExW t h,
                 .GetProcAddress h .DllUnregisterServer false, .FreeLibrary h,
                 Event.OleUninitialize],
               out := [.STRING_PROC_NOT_IMPLEMENTED .DllUnregisterServer t] },
           .returned 0)) ∧
    (∀ (t : WStr), flagTest (argvBuf t) = some false →
      (∀ l, o.LoadLibraryExW l t ≠ 0) → (∀ l h p, o.GetProcAddress l h p = false) →
      ∀ (s : State) (rest : List WStr), ∃ s1,
        wmain_loop o s (t :: rest) = wmain_loop o s1 rest ∧
        invokedCalls s1.calls = invokedCalls s.calls ∧
        loadedModules s1.calls =
          loadedModules s.calls ++ List.replicate (plannedCalls s).length t) := by
  refine ⟨?_, ?_, ?_⟩
  · intro s t h hload hh
    refine ⟨fun hm => ?_, fun hm => ?_, fun hm install cl => ?_⟩
    · rw [RegisterDll_eq]
      exact doOp_missing o s t .DllRegisterServer h hload hh hm
    · rw [UnregisterDll_eq]
      exact doOp_missing o s t .DllUnregisterServer h hload hh hm
    · rw [InstallDll_eq]
      exact doOp_missing o s t (.DllInstall install cl) h hload hh hm
  · intro prog t h ht hu hload hh hm
    have hpre : wmain_loop o startState [['/', 'u']] =
        .ok { startState with Unregister := true } () := by
      simp only [wmain_loop, flag_unregister o _ '/' 'u' (Or.inl rfl) hu]
    have hbody := wmain_body_missing_single o { startState with Unregister := true } t h ht
      rfl hload hh hm
    have hloop : wmain_loop o startState [prog, ['/', 'u'], t].tail = _ :=
      (wmain_at_token o prog [['/', 'u']] [] t _ hpre).trans (by rw [hbody])
    rw [wmain_of_ok_found hloop rfl]
    rfl
  · intro t ht hload hmiss s rest
    obtain ⟨s1, h1, h2, h3⟩ := runOps_all_missing o t hload hmiss (plannedCalls s)
      { s with DllFound := true }
    refine ⟨s1, ?_, h2, h3⟩
    simp only [wmain_loop, wmain_body, ht, wmain_target_runOps, h1]

/-- Witness of C7: the modules load and export nothing; `/u a.dll` returns 0 and
invokes nothing. -/
theorem missing_entry_point_not_fatal_witness :
    (wmain noExportOracle [progName, ['/', 'u'], aDll]).2 = .returned 0 ∧
    invokedCalls (wmain noExportOracle [progName, ['/', 'u'], aDll]).1.calls = [] ∧
    UnregisterDll noExportOracle startState aDll =
      .ok (afterMissing startState aDll 1 .DllUnregisterServer) 0 :=
  have h := (missing_entry_point_not_fatal noExportOracle).2.1 progName aDll 1
    (by decide) (by decide) rfl (by decide) rfl
  have h1 := ((missing_entry_point_not_fatal noExportOracle).1 startState aDll 1 rfl
    (by decide)).2.1 rfl
  ⟨congrArg Prod.snd h, by rw [h]; decide, h1⟩

theorem Halted_ne_zero {s : State} {e : Ending} (h : Halted s e) : e ≠ .returned 0 := by
  cases h <;> simp

theorem wmain_body_DllFound_mono (o : Oracle) (s s1 : State) (tok : WStr)
    (h : wmain_body o s tok = .ok s1 ()) (hd : s.DllFound = true) : s1.DllFound = true := by
  cases hft : flagTest (argvBuf tok) with
  | none => simp [wmain_body, hft] at h
  | some b =>
    cases b with
    | true =>
      rcases wmain_body_flag o s tok hft with ⟨_, s2, h2, hs⟩ | ⟨_, h2⟩
      · rw [h2] at h
        simp only [Outcome.ok.injEq, and_true] at h
        subst h
        rw [hs.2.2.1]; exact hd
      · rw [h2] at h; cases h
    | false =>
      simp only [wmain_body, hft] at h
      have := wmain_target_DllFound o s tok
      rw [h] at this
      exact this

/-- What a completed loop says about its tokens. -/
theorem wmain_loop_ok_facts (o : Oracle) (toks : List WStr) :
    ∀ s s1 : State, wmain_loop o s toks = .ok s1 () →
      (∀ tok ∈ toks, flagTest (argvBuf tok) = some true → Recognized o tok) ∧
      (∀ tok ∈ toks, flagTest (argvBuf tok) ≠ none) ∧
      (s1.DllFound = true ↔
        (s.DllFound = true ∨ ∃ tok ∈ toks, flagTest (argvBuf tok) = some false)) := by
  induction toks with
  | nil =>
    intro s s1 h
    simp only [wmain_loop, Outcome.ok.injEq, and_true] at h
    subst h
    simp
  | cons tok rest ih =>
    intro s s2 h
    simp only [wmain_loop] at h
    cases hb : wmain_body o s tok with
    | halt s1 e => rw [hb] at h; cases h
    | ok s1 u =>
      rw [hb] at h
      obtain ⟨i1, i2, i3⟩ := ih s1 s2 h
      cases hft : flagTest (argvBuf tok) with
      | none => simp [wmain_body, hft] at hb
      | some b =>
        cases b with
        | true =>
          rcases wmain_body_flag o s tok hft with ⟨hrec, s3, h3, hs⟩ | ⟨_, h3⟩
          · rw [h3] at hb
            simp only [Outcome.ok.injEq, and_true] at hb
            subst hb
            refine ⟨?_, ?_, ?_⟩
            · intro tk htk hf
              rcases List.mem_cons.1 htk with rfl | htk
              · exact hrec
              · exact i1 tk htk hf
            · intro tk htk
              rcases List.mem_cons.1 htk with rfl | htk
              · simp [hft]
              · exact i2 tk htk
            · rw [i3, hs.2.2.1]
              simp [hft]
          · rw [h3] at hb; cases hb
        | false =>
          have hfound : s1.DllFound = true := by
            have := wmain_target_DllFound o s tok
            simp only [wmain_body, hft] at hb
            rw [hb] at this
            exact this
          refine ⟨?_, ?_, ?_⟩
          · intro tk htk hf
            rcases List.mem_cons.1 htk with rfl | htk
            · rw [hft] at hf; cases hf
            · exact i1 tk htk hf
          · intro tk htk
            rcases List.mem_cons.1 htk with rfl | htk
            · simp [hft]
            · exact i2 tk htk
          · rw [i3]
            simp [hfound, hft]

/-- Why a loop can stop. -/
theorem wmain_loop_halt_cause (o : Oracle) (toks : List WStr) :
    ∀ (s s1 : State) (e : Ending), wmain_loop o s toks = .halt s1 e →
      (∃ tok ∈ toks, flagTest (argvBuf tok) = none) ∨
      (∃ tok ∈ toks, flagTest (argvBuf tok) = some true ∧ ¬ Recognized o tok) ∨
      ¬ Clean s1.calls := by
  induction toks with
  | nil => intro s s1 e h; simp [wmain_loop] at h
  | cons tok rest ih =>
    intro s s2 e h
    simp only [wmain_loop] at h
    cases hb : wmain_body o s tok with
    | ok s1 u =>
      rw [hb] at h
      rcases ih s1 s2 e h with ⟨tk, htk, hf⟩ | ⟨tk, htk, hf⟩ | hc
      · exact Or.inl ⟨tk, by simp [htk], hf⟩
      · exact Or.inr (Or.inl ⟨tk, by simp [htk], hf⟩)
      · exact Or.inr (Or.inr hc)
    | halt s1 e1 =>
      rw [hb] at h
      simp only [Outcome.halt.injEq] at h
      obtain ⟨rfl, rfl⟩ := h
      cases hft : flagTest (argvBuf tok) with
      | none => exact Or.inl ⟨tok, by simp, hft⟩
      | some b =>
        cases b with
        | true =>
          rcases wmain_body_flag o s tok hft with ⟨_, s3, h3, _⟩ | ⟨hn, _⟩
          · rw [h3] at hb; cases hb
          · exact Or.inr (Or.inl ⟨tok, by simp, hft, hn⟩)
        | false =>
          right; right
          simp only [wmain_body, hft, wmain_target_runOps] at hb
          obtain ⟨new, hnew, _, _, h3, _, _⟩ :=
            runOps_trace o tok (plannedCalls s) { s with DllFound := true }
          rw [hb] at hnew h3
          simp only [Outcome.state] at hnew
          intro hc
          rw [hnew] at hc
          have := (h3 (Clean_append.1 hc).2).1
          simp [Outcome.halted] at this

/-- The exit status is 0 exactly when every flag token has a recognized letter,
some token is a module name and no load and no call failed, on argument lists
whose tokens the flag test can classify. -/
theorem exit_status_zero_iff (o : Oracle) (prog : WStr) (args : List WStr)
    (hcl : ∀ tok ∈ args, flagTest (argvBuf tok) ≠ none) :
    (wmain o (prog :: args)).2 = .returned 0 ↔
      ((∀ tok ∈ args, flagTest (argvBuf tok) = some true → Recognized o tok) ∧
       (∃ tok ∈ args, flagTest (argvBuf tok) = some false) ∧
       Clean (wmain o (prog :: args)).1.calls) := by
  have hsh := wmain_loop_shaped o args startState Clean_startState
  cases hr : wmain_loop o startState (prog :: args).tail with
  | halt s1 e =>
    have hr1 : wmain_loop o startState args = .halt s1 e := hr
    rw [hr1] at hsh
    rw [wmain_of_halt hr]
    constructor
    · intro h
      exact (Halted_ne_zero hsh h).elim
    · rintro ⟨h1, _, h3⟩
      rcases wmain_loop_halt_cause o args startState s1 e hr1 with
        ⟨tk, htk, hf⟩ | ⟨tk, htk, hf, hn⟩ | hc
      · exact (hcl tk htk hf).elim
      · exact (hn (h1 tk htk hf)).elim
      · exact (hc h3).elim
  | ok s1 u =>
    have hr1 : wmain_loop o startState args = .ok s1 () := hr
    rw [hr1] at hsh
    obtain ⟨f1, _, f3⟩ := wmain_loop_ok_facts o args startState s1 hr1
    have hstart : startState.DllFound = false := rfl
    cases hd : s1.DllFound with
    | true =>
      rw [wmain_of_ok_found hr hd]
      have hex := f3.1 hd
      simp only [hstart, Bool.false_eq_true, false_or] at hex
      refine ⟨fun _ => ⟨f1, hex, ?_⟩, fun _ => rfl⟩
      simp only [State.call, Clean_append]
      exact ⟨hsh, by decide⟩
    | false =>
      rw [wmain_of_ok_notFound hr hd]
      constructor
      · intro h; simp at h
      · rintro ⟨_, h2, _⟩
        have := f3.2 (Or.inr h2)
        rw [hd] at this
        cases this

/-- Apart from the one-character tokens `/` and `-`, the loop body classifies a
token as the specification says. -/
theorem wmain_body_classified (o : Oracle) (s : State) (tok : WStr) (hn : NoNul tok)
    (hl : ¬ LoneSlash tok) :
    wmain_body o s tok =
      if isFlagToken tok then wmain_switch o s tok (argvBuf tok) else wmain_target o s tok := by
  cases h : isFlagToken tok with
  | true => simp [wmain_body, flagTest_of_isFlagToken tok h]
  | false => simp [wmain_body, flagTest_of_not_isFlagToken tok hn hl h]

/-- C9, at the failing input.  In `/ :x` no token is a flag token in the words of
the specification, both tokens are module names, and in the sample world every
module loads and every entry point answers a success status, so the claim gives
exit status 0.  The flag test of `wmain` on the one-character token `/` reads
`argv[i][2]` past the terminator: the run ends in an out-of-bounds read before
any module is loaded, not with exit status 0. -/
theorem exit_status_lone_slash_diverges :
    (∀ tok ∈ [['/'], [':', 'x']], isFlagToken tok = false) ∧
    (∀ (l : List Event) (t : WStr), okOracle.LoadLibraryExW l t ≠ 0) ∧
    (∀ (l : List Event) (t : WStr) (c : Call), FAILED (okOracle.invoke l t c) = false) ∧
    (wmain okOracle [progName, ['/'], [':', 'x']]).2 = .outOfBounds ∧
    (wmain okOracle [progName, ['/'], [':', 'x']]).1.calls = [.OleInitialize] ∧
    (wmain okOracle [progName, ['/'], [':', 'x']]).2 ≠ .returned 0 :=
  ⟨by decide, fun _ _ => Nat.one_ne_zero, fun _ _ _ => rfl, rfl, rfl, by decide⟩

theorem runOps_ok_loads (o : Oracle) (t : WStr) (cs : List Call) :
    ∀ s s1 : State, runOps o s t cs = .ok s1 () →
      loadedModules s1.calls = loadedModules s.calls ++ List.replicate cs.length t := by
  induction cs with
  | nil =>
    intro s s1 h
    simp only [runOps, Outcome.ok.injEq, and_true] at h
    subst h
    simp
  | cons c cs ih =>
    intro s s1 h
    unfold runOps at h
    have hx := doOp_exit o s t c
    generalize doOp o s t c = r at hx h
    cases hx with
    | loadFailed => cases h
    | missing hd hh =>
      simp only [ne_eq, not_true_eq_false, ↓reduceIte] at h
      rw [ih _ s1 h]
      simp [loadedModules, List.replicate_succ]
    | callFailed hd hh hr hhr => simp at h
    | succeeded hd hh hr hhr =>
      simp only [ne_eq, not_true_eq_false, ↓reduceIte] at h
      rw [ih _ s1 h]
      simp [loadedModules, List.replicate_succ]

/-- A completed loop has loaded every module name of its tokens, in order. -/
theorem wmain_loop_ok_loads (o : Oracle) (toks : List WStr) :
    ∀ s s1 : State, wmain_loop o s toks = .ok s1 () →
      ∃ X, loadedModules s1.calls = loadedModules s.calls ++ X ∧
        (toks.filter fun tok => decide (flagTest (argvBuf tok) = some false)).Sublist X := by
  induction toks with
  | nil =>
    intro s s1 h
    simp only [wmain_loop, Outcome.ok.injEq, and_true] at h
    subst h
    exact ⟨[], by simp, by simp⟩
  | cons tok rest ih =>
    intro s s2 h
    simp only [wmain_loop] at h
    cases hb : wmain_body o s tok with
    | halt s1 e => rw [hb] at h; cases h
    | ok s1 u =>
      rw [hb] at h
      obtain ⟨X, hX, hsub⟩ := ih s1 s2 h
      cases hft : flagTest (argvBuf tok) with
      | none => simp [wmain_body, hft] at hb
      | some b =>
        cases b with
        | true =>
          rcases wmain_body_flag o s tok hft with ⟨_, s3, h3, hs⟩ | ⟨_, h3⟩
          · rw [h3] at hb
            simp only [Outcome.ok.injEq, and_true] at hb
            subst hb
            refine ⟨X, by rw [hX, hs.1], ?_⟩
            simpa [List.filter_cons, hft] using hsub
          · rw [h3] at hb; cases hb
        | false =>
          simp only [wmain_body, hft, wmain_target_runOps] at hb
          have hl := runOps_ok_loads o tok (plannedCalls s) _ s1 hb
          have hne := plannedCalls_ne_nil s
          obtain ⟨k, hk⟩ : ∃ k, (plannedCalls s).length = k + 1 := by
            cases hp : plannedCalls s with
            | nil => exact (hne hp).elim
            | cons c cs => exact ⟨cs.length, rfl⟩
          rw [hk, List.replicate_succ] at hl
          refine ⟨tok :: (List.replicate k tok ++ X), ?_, ?_⟩
          · rw [hX, hl]; simp
          · simp only [List.filter_cons, hft, decide_True, ↓reduceIte]
            exact List.Sublist.cons₂ _ (List.sublist_append_of_sublist_right hsub)

/-- The exit status in the words of the specification, on NUL-free argument lists
without a one-character `/` or `-`: it is 0 exactly when every flag token has a
recognized letter, some token is a module name and no load and no call failed;
every module name of the list has then been loaded, in order. -/
theorem exit_status_zero_iff_spec (o : Oracle) (prog : WStr) (args : List WStr)
    (hn : ∀ tok ∈ args, NoNul tok) (hl : ∀ tok ∈ args, ¬ LoneSlash tok) :
    ((wmain o (prog :: args)).2 = .returned 0 ↔
      ((∀ tok ∈ args, isFlagToken tok = true → Recognized o tok) ∧
       (∃ tok ∈ args, isFlagToken tok = false) ∧
       Clean (wmain o (prog :: args)).1.calls)) ∧
    ((wmain o (prog :: args)).2 = .returned 0 →
      (args.filter fun tok => !isFlagToken tok).Sublist
        (loadedModules (wmain o (prog :: args)).1.calls)) := by
  have hcls : ∀ tok ∈ args, flagTest (argvBuf tok) = some (isFlagToken tok) := by
    intro tok htok
    cases h : isFlagToken tok with
    | true => exact flagTest_of_isFlagToken tok h
    | false => exact flagTest_of_not_isFlagToken tok (hn tok htok) (hl tok htok) h
  have hiff := exit_status_zero_iff o prog args (fun tok htok => by simp [hcls tok htok])
  constructor
  · rw [hiff]
    constructor
    · rintro ⟨h1, ⟨tk, htk, h2⟩, h3⟩
      refine ⟨fun tok htok hf => h1 tok htok (by rw [hcls tok htok, hf]), ⟨tk, htk, ?_⟩, h3⟩
      rw [hcls tk htk] at h2
      simpa using h2
    · rintro ⟨h1, ⟨tk, htk, h2⟩, h3⟩
      refine ⟨fun tok htok hf => h1 tok htok ?_, ⟨tk, htk, by rw [hcls tk htk, h2]⟩, h3⟩
      rw [hcls tok htok] at hf
      simpa using hf
  · intro hz
    cases hr : wmain_loop o startState (prog :: args).tail with
    | halt s1 e =>
      have hsh := wmain_loop_shaped o args startState Clean_startState
      have hr1 : wmain_loop o startState args = .halt s1 e := hr
      rw [hr1] at hsh
      rw [wmain_of_halt hr] at hz
      exact (Halted_ne_zero hsh hz).elim
    | ok s1 u =>
      have hr1 : wmain_loop o startState args = .ok s1 () := hr
      cases hd : s1.DllFound with
      | false =>
        rw [wmain_of_ok_notFound hr hd] at hz
        simp at hz
      | true =>
        rw [wmain_of_ok_found hr hd]
        obtain ⟨X, hX, hsub⟩ := wmain_loop_ok_loads o args startState s1 hr1
        have hfil : (args.filter fun tok => !isFlagToken tok) =
            (args.filter fun tok => decide (flagTest (argvBuf tok) = some false)) := by
          apply List.filter_congr
          intro tok htok
          rw [hcls tok htok]
          cases isFlagToken tok <;> simp
        rw [hfil]
        have : loadedModules (s1.call Event.OleUninitialize).calls = X := by
          simp only [State.call, loadedModules, List.filterMap_append] at hX ⊢
          rw [hX]
          simp [startState, initState, State.call]
        rw [this]
        exact hsub

theorem RunLog_append {a b : List Event} (ha : RunLog a) (hb : RunLog b) : RunLog (a ++ b) := by
  induction ha with
  | nil => simpa using hb
  | op t seg l hseg _ ih =>
    rw [List.append_assoc]
    exact RunLog.op t seg _ hseg ih

theorem runOps_log (o : Oracle) (t : WStr) (cs : List Call) :
    ∀ s : State, LogFrom s (runOps o s t cs) := by
  induction cs with
  | nil => intro s; exact ⟨[], by simp, RunLog.nil⟩
  | cons c cs ih =>
    intro s
    unfold runOps
    have hx := doOp_exit o s t c
    generalize doOp o s t c = r at hx
    cases hx with
    | loadFailed =>
      exact ⟨[], RunLog.nil, Or.inr ⟨t, _, by simp, FatalLog.loadFailed⟩⟩
    | callFailed h hh hr hhr =>
      simp only [ne_eq, Int.reduceNeg, neg_eq_zero, one_ne_zero, not_false_eq_true, ↓reduceIte]
      exact ⟨[], RunLog.nil, Or.inr ⟨t, _, by simp, FatalLog.callFailed h c hr hh hhr⟩⟩
    | missing h hh =>
      simp only [ne_eq, not_true_eq_false, ↓reduceIte]
      have hseg := @OpLog.missing t h (procOf c) hh
      have := ih
        { s with calls := s.calls ++ [.LoadLibraryExW t h,
                    .GetProcAddress h (procOf c) false, .FreeLibrary h],
                 out := s.out ++ say s (.STRING_PROC_NOT_IMPLEMENTED (procOf c) t) }
      revert this
      cases runOps o _ t cs with
      | ok s1 u =>
        rintro ⟨new, hnew, hl⟩
        exact ⟨_ ++ new, by simp [hnew], RunLog.op t _ new hseg hl⟩
      | halt s1 e =>
        rintro ⟨new, hl, h1 | ⟨t1, tl, h1, h2⟩⟩
        · exact ⟨_ ++ new, RunLog.op t _ new hseg hl, Or.inl ⟨by simp [h1.1], h1.2⟩⟩
        · exact ⟨_ ++ new, RunLog.op t _ new hseg hl, Or.inr ⟨t1, tl, by simp [h1], h2⟩⟩
    | succeeded h hh hr hhr =>
      simp only [ne_eq, not_true_eq_false, ↓reduceIte]
      have hseg := @OpLog.succeeded t h c hr hh hhr
      have := ih
        { s with calls := s.calls ++ [.LoadLibraryExW t h,
                    .GetProcAddress h (procOf c) true, .Invoke t c hr, .FreeLibrary h],
                 out := s.out ++ say s (okMsg c t) }
      revert this
      cases runOps o _ t cs with
      | ok s1 u =>
        rintro ⟨new, hnew, hl⟩
        exact ⟨_ ++ new, by simp [hnew], RunLog.op t _ new hseg hl⟩
      | halt s1 e =>
        rintro ⟨new, hl, h1 | ⟨t1, tl, h1, h2⟩⟩
        · exact ⟨_ ++ new, RunLog.op t _ new hseg hl, Or.inl ⟨by simp [h1.1], h1.2⟩⟩
        · exact ⟨_ ++ new, RunLog.op t _ new hseg hl, Or.inr ⟨t1, tl, by simp [h1], h2⟩⟩

theorem LogFrom_congr {s s0 : State} {r : Outcome Unit} (hc : s.calls = s0.calls)
    (h : LogFrom s r) : LogFrom s0 r := by
  cases r with
  | ok s1 u => simpa [LogFrom, hc] using h
  | halt s1 e => simpa [LogFrom, hc] using h

theorem LogFrom_trans {s s1 : State} {u : Unit} {r : Outcome Unit}
    (h1 : LogFrom s (.ok s1 u)) (h2 : LogFrom s1 r) : LogFrom s r := by
  obtain ⟨n1, hn1, hl1⟩ := h1
  cases r with
  | ok s2 u2 =>
    obtain ⟨n2, hn2, hl2⟩ := h2
    exact ⟨n1 ++ n2, by rw [hn2, hn1, List.append_assoc], RunLog_append hl1 hl2⟩
  | halt s2 e =>
    obtain ⟨n2, hl2, h | ⟨t, tl, h, hf⟩⟩ := h2
    · exact ⟨n1 ++ n2, RunLog_append hl1 hl2,
        Or.inl ⟨by rw [h.1, hn1, List.append_assoc], h.2⟩⟩
    · exact ⟨n1 ++ n2, RunLog_append hl1 hl2,
        Or.inr ⟨t, tl, by rw [h, hn1]; simp, hf⟩⟩

theorem wmain_body_log (o : Oracle) (s : State) (tok : WStr) :
    LogFrom s (wmain_body o s tok) := by
  cases hft : flagTest (argvBuf tok) with
  | none =>
    simp only [wmain_body, hft]
    exact ⟨[], RunLog.nil, Or.inl ⟨by simp, Or.inr rfl⟩⟩
  | some b =>
    cases b with
    | true =>
      rcases wmain_body_flag o s tok hft with ⟨_, s1, h1, hs⟩ | ⟨_, h1⟩
      · rw [h1]
        exact ⟨[], by simp [hs.1], RunLog.nil⟩
      · rw [h1]
        exact ⟨[], RunLog.nil, Or.inl ⟨by simp [output_write_calls], Or.inl rfl⟩⟩
    | false =>
      simp only [wmain_body, hft, wmain_target_runOps]
      exact LogFrom_congr rfl (runOps_log o tok (plannedCalls s) { s with DllFound := true })

theorem wmain_loop_log (o : Oracle) (toks : List WStr) :
    ∀ s : State, LogFrom s (wmain_loop o s toks) := by
  induction toks with
  | nil => intro s; exact ⟨[], by simp, RunLog.nil⟩
  | cons tok rest ih =>
    intro s
    have hb := wmain_body_log o s tok
    unfold wmain_loop
    cases hr : wmain_body o s tok with
    | halt s1 e => rw [hr] at hb; exact hb
    | ok s1 u => rw [hr] at hb; exact LogFrom_trans hb (ih s1)

theorem wmain_log (o : Oracle) (argv : List WStr) :
    WmainLog (wmain o argv).1.calls (wmain o argv).2 := by
  have hl := wmain_loop_log o argv.tail startState
  have hstart : startState.calls = [.OleInitialize] := rfl
  cases hr : wmain_loop o startState argv.tail with
  | halt s1 e =>
    rw [hr] at hl
    rw [wmain_of_halt hr]
    obtain ⟨new, hrun, h | ⟨t, tl, h, hf⟩⟩ := hl
    · rw [hstart] at h
      show WmainLog s1.calls e
      rw [h.1]
      exact WmainLog.early new e hrun h.2
    · rw [hstart] at h
      show WmainLog s1.calls e
      rw [h]
      exact WmainLog.fatal new t tl e hrun hf
  | ok s1 u =>
    rw [hr] at hl
    obtain ⟨new, hnew, hrun⟩ := hl
    rw [hstart] at hnew
    cases hd : s1.DllFound with
    | true =>
      rw [wmain_of_ok_found hr hd]
      show WmainLog (s1.calls ++ [ Event.OleUninitialize]) _
      rw [hnew]
      exact WmainLog.completed new hrun
    | false =>
      rw [wmain_of_ok_notFound hr hd]
      show WmainLog (output_write (output_write s1 _) _).calls _
      rw [output_write_calls, output_write_calls, hnew]
      exact WmainLog.early new _ hrun (Or.inl rfl)

theorem loadsAndCalls_append (l m : List Event) :
    loadsAndCalls (l ++ m) = loadsAndCalls l ++ loadsAndCalls m := by
  simp [loadsAndCalls]

theorem LogFrom_calls {s : State} {r : Outcome Unit} (h : LogFrom s r) :
    ∃ X, r.state.calls = s.calls ++ X := by
  cases r with
  | ok s1 u =>
    obtain ⟨new, hnew, _⟩ := h
    exact ⟨new, hnew⟩
  | halt s1 e =>
    obtain ⟨new, _, h1 | ⟨t, tl, h1, _⟩⟩ := h
    · exact ⟨new, h1.1⟩
    · exact ⟨new ++ tl, by show s1.calls = _; rw [h1, List.append_assoc]⟩

/-- The log of `wmain` is the log of its loop, followed by `OleUninitialize` on
normal completion. -/
theorem wmain_calls_of_loop (o : Oracle) (argv : List WStr) :
    ∃ tl, (wmain o argv).1.calls = (wmain_loop o startState argv.tail).state.calls ++ tl ∧
      (tl = [] ∨ tl = [ Event.OleUninitialize]) := by
  cases hr : wmain_loop o startState argv.tail with
  | halt s1 e =>
    rw [wmain_of_halt hr]
    exact ⟨[], by simp [Outcome.state], Or.inl rfl⟩
  | ok s1 u =>
    cases hd : s1.DllFound with
    | true =>
      rw [wmain_of_ok_found hr hd]
      exact ⟨[ Event.OleUninitialize], by simp [Outcome.state, State.call], Or.inr rfl⟩
    | false =>
      rw [wmain_of_ok_notFound hr hd]
      exact ⟨[], by simp [Outcome.state, output_write_calls], Or.inl rfl⟩

theorem loads_prefix (o : Oracle) (prog : WStr) (pre post : List WStr) :
    loadsAndCalls (wmain o (prog :: pre)).1.calls <+:
      loadsAndCalls (wmain o (prog :: (pre ++ post))).1.calls := by
  obtain ⟨tl1, h1, ht1⟩ := wmain_calls_of_loop o (prog :: pre)
  obtain ⟨tl2, h2, ht2⟩ := wmain_calls_of_loop o (prog :: (pre ++ post))
  have e1 : loadsAndCalls tl1 = [] := by rcases ht1 with rfl | rfl <;> rfl
  rw [h1, h2, loadsAndCalls_append, loadsAndCalls_append, e1, List.append_nil]
  simp only [List.tail_cons, wmain_loop_append]
  cases hr : wmain_loop o startState pre with
  | halt s1 e => exact List.prefix_append _ _
  | ok s1 u =>
    obtain ⟨X, hX⟩ := LogFrom_calls (wmain_loop_log o post s1)
    simp only [Outcome.state] at hX ⊢
    rw [hX, loadsAndCalls_append, List.append_assoc]
    exact List.prefix_append _ _

theorem wmain_target_trace (o : Oracle) (s : State) (t : WStr) :
    ∃ new, (wmain_target o s t).state.calls = s.calls ++ new ∧
      OpsTrace t (plannedCalls s) new (wmain_target o s t).halted := by
  rw [wmain_target_runOps]
  exact runOps_trace o t (plannedCalls s) { s with DllFound := true }

theorem wmain_target_sameFlags (o : Oracle) (s : State) (t : WStr) :
    SameFlags { s with DllFound := true } (wmain_target o s t).state := by
  rw [wmain_target_runOps]
  exact runOps_sameFlags o t (plannedCalls s) { s with DllFound := true }

/-- In `A /u B` the calls are among the register call of `A`, then the unregister
call of `B`. -/
theorem register_then_unregister (o : Oracle) (prog A B : WStr)
    (hA : flagTest (argvBuf A) = some false) (hB : flagTest (argvBuf B) = some false)
    (hu : o.tolowerW 'u' = 'u') :
    (invokedCalls (wmain o [prog, A, ['/', 'u'], B]).1.calls).Sublist
      [(A, .DllRegisterServer), (B, .DllUnregisterServer)] := by
  obtain ⟨new1, hnew1, _, hinv1, _⟩ := wmain_target_trace o startState A
  have hflags := wmain_target_sameFlags o startState A
  have hplan1 : plannedCalls startState = [.DllRegisterServer] := rfl
  rw [hplan1] at hinv1
  have hbodyA : wmain_body o startState A = wmain_target o startState A := by
    simp only [wmain_body, hA]
  have hole : invokedCalls [Event.OleInitialize] = [] := rfl
  have hstart : startState.calls = [.OleInitialize] := rfl
  cases hr : wmain_target o startState A with
  | halt s1 e =>
    rw [hr] at hnew1
    have hloop : wmain_loop o startState [prog, A, ['/', 'u'], B].tail = .halt s1 e := by
      simp only [List.tail_cons, wmain_loop, hbodyA, hr]
    rw [wmain_of_halt hloop]
    have hc : s1.calls = [Event.OleInitialize] ++ new1 := hnew1
    rw [hc, invokedCalls_append, hole, List.nil_append]
    exact hinv1.trans (List.sublist_append_left _ _)
  | ok s1 u =>
    rw [hr] at hnew1 hflags
    have hc : s1.calls = [Event.OleInitialize] ++ new1 := hnew1
    simp only [SameFlags, Outcome.state] at hflags
    obtain ⟨s2, hs2⟩ : ∃ s2 : State, s2 = { s1 with Unregister := true } := ⟨_, rfl⟩
    have hs2c : s2.calls = s1.calls := by rw [hs2]
    have hs2i : s2.CallInstall = false := by rw [hs2]; exact hflags.2.2.1
    have hs2u : s2.Unregister = true := by rw [hs2]
    have hpre : wmain_loop o startState [A, ['/', 'u']] = .ok s2 () := by
      simp only [wmain_loop, hbodyA, hr, flag_unregister o s1 '/' 'u' (Or.inl rfl) hu, hs2]
    have hlast := wmain_calls_last_target o prog [A, ['/', 'u']] B s2 hpre hB
    obtain ⟨new2, hnew2, _, hinv2, _⟩ := wmain_target_trace o s2 B
    have hplan2 : plannedCalls s2 = [.DllUnregisterServer] := by
      simp [plannedCalls, regCall, hs2i, hs2u]
    rw [hplan2] at hinv2
    have hw : (wmain o [prog, A, ['/', 'u'], B]).1.calls = _ := hlast
    rw [hw, hnew2, hs2c, hc, invokedCalls_append, invokedCalls_append, invokedCalls_append,
      hole, List.nil_append]
    have h0 : invokedCalls (if (wmain_target o s2 B).halted = true
        then [] else [ Event.OleUninitialize]) = [] := by
      split <;> rfl
    rw [h0, List.append_nil]
    exact List.Sublist.append hinv1 hinv2

theorem loadedHandles_append (l m : List Event) :
    loadedHandles (l ++ m) = loadedHandles l ++ loadedHandles m := by
  simp [loadedHandles]

theorem freedHandles_append (l m : List Event) :
    freedHandles (l ++ m) = freedHandles l ++ freedHandles m := by
  simp [freedHandles]

theorem RunLog_handles {l : List Event} (h : RunLog l) : freedHandles l = loadedHandles l := by
  induction h with
  | nil => rfl
  | op t seg l hseg _ ih =>
    rw [freedHandles_append, loadedHandles_append, ih]
    cases hseg with
    | missing h p hh => simp [freedHandles, loadedHandles, hh]
    | succeeded h c hr hh hhr => simp [freedHandles, loadedHandles, hh]

/-- Every handle is released once, in the order of the loads, except that the
handle of a module whose entry point answered a failure status is not released. -/
theorem handles_released (o : Oracle) (argv : List WStr) :
    ((wmain o argv).2 ≠ .returned (-1) →
      freedHandles (wmain o argv).1.calls = loadedHandles (wmain o argv).1.calls) ∧
    ((wmain o argv).2 = .returned (-1) →
      ∃ h, h ≠ 0 ∧
        loadedHandles (wmain o argv).1.calls = freedHandles (wmain o argv).1.calls ++ [h]) := by
  have hlog := wmain_log o argv
  generalize (wmain o argv).1.calls = l at hlog
  generalize (wmain o argv).2 = e at hlog
  cases hlog with
  | completed new h =>
    refine ⟨fun _ => ?_, fun he => by simp at he⟩
    have := RunLog_handles h
    simpa [freedHandles, loadedHandles] using this
  | early new e h he =>
    have := RunLog_handles h
    refine ⟨fun _ => by simpa [freedHandles, loadedHandles] using this, fun h1 => ?_⟩
    rcases he with rfl | rfl <;> simp at h1
  | fatal new t tl e h hf =>
    have := RunLog_handles h
    have e1 : freedHandles (Event.OleInitialize :: (new ++ tl)) = freedHandles new ++ freedHandles tl := by
      simp [freedHandles]
    have e2 : loadedHandles (Event.OleInitialize :: (new ++ tl))
        = loadedHandles new ++ loadedHandles tl := by
      simp [loadedHandles]
    rw [e1, e2, this]
    cases hf with
    | loadFailed =>
      refine ⟨fun _ => by simp [freedHandles, loadedHandles], fun h1 => by simp at h1⟩
    | callFailed h c hr hh hhr =>
      refine ⟨fun h1 => (h1 rfl).elim, fun _ => ⟨h, hh, ?_⟩⟩
      simp [freedHandles, loadedHandles, hh]

/-- C12, at the failing input.  When `DllRegisterServer` of `a.dll` answers a
failure status, `RegisterDll` returns -1 straight after the failure message: the
module was loaded with handle 1 and the log of the run holds no `FreeLibrary`.
The success path and the missing-entry-point path of the same function do
release the handle. -/
theorem failed_call_leaves_handle_loaded :
    (wmain failOracle [progName, aDll]).1.calls =
      [.OleInitialize, .LoadLibraryExW aDll 1, .GetProcAddress 1 .DllRegisterServer true,
       .Invoke aDll .DllRegisterServer (-2147467259)] ∧
    (wmain failOracle [progName, aDll]).2 = .returned (-1) ∧
    loadedHandles (wmain failOracle [progName, aDll]).1.calls = [1] ∧
    freedHandles (wmain failOracle [progName, aDll]).1.calls = [] ∧
    freedHandles (wmain okOracle [progName, aDll]).1.calls = [1] ∧
    freedHandles (wmain noExportOracle [progName, aDll]).1.calls = [1] := by
  decide

theorem RunLog_not_ole {l : List Event} (h : RunLog l) :
    Event.OleInitialize ∉ l ∧ Event.OleUninitialize ∉ l := by
  induction h with
  | nil => simp
  | op t seg l hseg _ ih =>
    cases hseg with
    | missing h p hh => simpa using ih
    | succeeded h c hr hh hhr => simpa using ih

theorem FatalLog_not_ole {t : WStr} {l : List Event} {e : Ending} (h : FatalLog t l e) :
    Event.OleInitialize ∉ l ∧ Event.OleUninitialize ∉ l ∧ e ≠ .returned 0 := by
  cases h <;> simp

/-- The runtime context in the log: `OleInitialize` is the first entry and occurs
once; `OleUninitialize` occurs, once and as the last entry, exactly when `wmain`
returns 0. -/
theorem ole_bracketing (o : Oracle) (argv : List WStr) :
    (wmain o argv).1.calls.head? = some .OleInitialize ∧
    (wmain o argv).1.calls.count .OleInitialize = 1 ∧
    ((wmain o argv).2 = .returned 0 →
      (wmain o argv).1.calls.getLast? = some Event.OleUninitialize ∧
      (wmain o argv).1.calls.count Event.OleUninitialize = 1) ∧
    ((wmain o argv).2 ≠ .returned 0 →
      (wmain o argv).1.calls.count Event.OleUninitialize = 0) := by
  have hlog := wmain_log o argv
  generalize (wmain o argv).1.calls = l at hlog
  generalize (wmain o argv).2 = e at hlog
  cases hlog with
  | completed new h =>
    obtain ⟨h1, h2⟩ := RunLog_not_ole h
    refine ⟨rfl, ?_, fun _ => ⟨?_, ?_⟩, fun he => (he rfl).elim⟩
    · simp [List.count_cons, List.count_append, List.count_eq_zero_of_not_mem h1]
    · rw [← List.cons_append, List.getLast?_concat]
    · simp [List.count_cons, List.count_append, List.count_eq_zero_of_not_mem h2]
  | early new e h he =>
    obtain ⟨h1, h2⟩ := RunLog_not_ole h
    refine ⟨rfl, ?_, fun h0 => ?_, fun _ => ?_⟩
    · simp [List.count_cons, List.count_eq_zero_of_not_mem h1]
    · rcases he with rfl | rfl <;> simp at h0
    · simp [List.count_cons, List.count_eq_zero_of_not_mem h2]
  | fatal new t tl e h hf =>
    obtain ⟨h1, h2⟩ := RunLog_not_ole h
    obtain ⟨h3, h4, h5⟩ := FatalLog_not_ole hf
    refine ⟨rfl, ?_, fun h0 => (h5 h0).elim, fun _ => ?_⟩
    · simp [List.count_cons, List.count_append, List.count_eq_zero_of_not_mem h1,
        List.count_eq_zero_of_not_mem h3]
    · simp [List.count_cons, List.count_append, List.count_eq_zero_of_not_mem h2,
        List.count_eq_zero_of_not_mem h4]

/-- C13, at the failing inputs.  `OleUninitialize` is called on normal completion
only.  With no argument `wmain` returns 1 after the header and usage messages;
on an unrecognized switch it returns 1; after a failed call it returns -1; after
a failed load `LoadProc` ends the process through `ExitProcess(1)`: on each of
these four exit paths the log holds `OleInitialize` and no `OleUninitialize`. -/
theorem early_exits_skip_ole_release :
    (wmain okOracle [progName] = ({ startState with out := [.STRING_HEADER, .STRING_USAGE] },
      .returned 1)) ∧
    (wmain okOracle [progName]).1.calls = [.OleInitialize] ∧
    ((wmain okOracle [progName, ['/', 'x']]).2 = .returned 1 ∧
      (wmain okOracle [progName, ['/', 'x']]).1.calls = [.OleInitialize]) ∧
    ((wmain failOracle [progName, aDll]).2 = .returned (-1) ∧
      Event.OleUninitialize ∉ (wmain failOracle [progName, aDll]).1.calls) ∧
    ((wmain noLoadOracle [progName, aDll]).2 = .exited 1 ∧
      Event.OleUninitialize ∉ (wmain noLoadOracle [progName, aDll]).1.calls) ∧
    ((wmain okOracle [progName, aDll]).2 = .returned 0 ∧
      (wmain okOracle [progName, aDll]).1.calls.getLast? = some Event.OleUninitialize) := by
  decide

theorem wmain_eq_end (o : Oracle) (argv : List WStr) :
    wmain o argv = wmain_end (wmain_loop o startState argv.tail) := by
  cases hr : wmain_loop o startState argv.tail with
  | halt s e => rw [wmain_of_halt hr]; rfl
  | ok s u =>
    cases hd : s.DllFound with
    | true => rw [wmain_of_ok_found hr hd]; simp [wmain_end, hd]
    | false => rw [wmain_of_ok_notFound hr hd]; simp [wmain_end, hd]

theorem output_write_silenced (s : State) (m : List Msg) (msg : Msg) :
    output_write (s.silenced m) msg = s.silenced m := by
  simp [output_write, State.silenced]

theorem silenced_output_write (s : State) (m : List Msg) (msg : Msg) :
    (output_write s msg).silenced m = s.silenced m := by
  unfold output_write
  split <;> rfl

theorem doOp_silenced (o : Oracle) (s : State) (m : List Msg) (t : WStr) (c : Call) :
    doOp o (s.silenced m) t c = (doOp o s t c).mapState (fun x => x.silenced m) := by
  simp only [doOp, runOp, State.silenced, say]
  split
  · simp [Outcome.mapState]
  · split
    · simp [Outcome.mapState]
    · split <;> simp [Outcome.mapState]

theorem runOps_silenced (o : Oracle) (m : List Msg) (t : WStr) (cs : List Call) :
    ∀ s : State, runOps o (s.silenced m) t cs =
      (runOps o s t cs).mapState (fun x => x.silenced m) := by
  induction cs with
  | nil => intro s; rfl
  | cons c cs ih =>
    intro s
    simp only [runOps, doOp_silenced]
    cases doOp o s t c with
    | halt s1 e => rfl
    | ok s1 res =>
      simp only [Outcome.mapState]
      split
      · rfl
      · exact ih s1

theorem wmain_target_silenced (o : Oracle) (s : State) (m : List Msg) (t : WStr) :
    wmain_target o (s.silenced m) t =
      (wmain_target o s t).mapState (fun x => x.silenced m) := by
  rw [wmain_target_runOps, wmain_target_runOps]
  exact runOps_silenced o m t (plannedCalls s) { s with DllFound := true }

theorem wmain_switch_silenced (o : Oracle) (s : State) (m : List Msg) (tok : WStr)
    (buf : List Char) :
    wmain_switch o (s.silenced m) tok buf =
      (wmain_switch o s tok buf).mapState (fun x => x.silenced m) := by
  unfold wmain_switch
  cases readAt buf 1 with
  | none => rfl
  | some a1 =>
    simp only
    split
    · rfl
    split
    · rfl
    split
    · cases parse_command_line buf 2 with
      | none => rfl
      | some r =>
        obtain ⟨b, p⟩ := r
        cases p <;> rfl
    split
    · rfl
    split
    · rfl
    · simp only [output_write_silenced, Outcome.mapState, silenced_output_write]

theorem wmain_body_silenced (o : Oracle) (s : State) (m : List Msg) (tok : WStr) :
    wmain_body o (s.silenced m) tok =
      (wmain_body o s tok).mapState (fun x => x.silenced m) := by
  unfold wmain_body
  cases flagTest (argvBuf tok) with
  | none => rfl
  | some b =>
    cases b with
    | true => exact wmain_switch_silenced o s m tok _
    | false => exact wmain_target_silenced o s m tok

theorem wmain_loop_silenced (o : Oracle) (m : List Msg) (toks : List WStr) :
    ∀ s : State, wmain_loop o (s.silenced m) toks =
      (wmain_loop o s toks).mapState (fun x => x.silenced m) := by
  induction toks with
  | nil => intro s; rfl
  | cons tok rest ih =>
    intro s
    simp only [wmain_loop, wmain_body_silenced]
    cases wmain_body o s tok with
    | halt s1 e => rfl
    | ok s1 u => exact ih s1

theorem wmain_end_silenced (r : Outcome Unit) (m : List Msg) :
    wmain_end (r.mapState (fun x => x.silenced m)) =
      ((wmain_end r).1.silenced m, (wmain_end r).2) := by
  cases r with
  | halt s e => rfl
  | ok s u =>
    cases hd : s.DllFound with
    | true =>
      have : (s.silenced m).DllFound = true := hd
      simp [wmain_end, Outcome.mapState, hd, this]
      rfl
    | false =>
      have : (s.silenced m).DllFound = false := hd
      simp [wmain_end, Outcome.mapState, hd, this, output_write_silenced,
        silenced_output_write]

theorem wmain_insert_silent (o : Oracle) (a b : Char) (ha : a = '/' ∨ a = '-')
    (hb : o.tolowerW b = 's') (prog : WStr) (pre post : List WStr) (s : State)
    (hpre : wmain_loop o startState pre = .ok s ()) :
    wmain o (prog :: (pre ++ [a, b] :: post)) =
      ((wmain o (prog :: (pre ++ post))).1.silenced s.out,
       (wmain o (prog :: (pre ++ post))).2) := by
  have hs : ({ s with Silent := true } : State) = s.silenced s.out := rfl
  rw [wmain_eq_end, wmain_eq_end]
  simp only [List.tail_cons, wmain_loop_append, hpre, wmain_loop,
    flag_silent o s a b ha hb, hs, wmain_loop_silenced, wmain_end_silenced]

theorem wmain_insert_after_halt (o : Oracle) (tok : WStr) (prog : WStr)
    (pre post : List WStr) (s : State) (e : Ending)
    (hpre : wmain_loop o startState pre = .halt s e) :
    wmain o (prog :: (pre ++ tok :: post)) = wmain o (prog :: (pre ++ post)) := by
  rw [wmain_eq_end, wmain_eq_end]
  simp only [List.tail_cons, wmain_loop_append, hpre]

/-- After an opening quote the last character of the sub-argument is overwritten
whatever it is: the token `/i:"` ++ s ++ [y] gives the parameter `s`. -/
theorem install_strips_last (o : Oracle) (st : State) (a b y : Char) (s : WStr)
    (ha : a = '/' ∨ a = '-') (hb : o.tolowerW b = 'i') (hs : NoNul s) (hy : y ≠ NUL) :
    wmain_body o st (a :: b :: ':' :: '"' :: (s ++ [y])) =
      .ok { st with CallInstall := true, wsCommandLine := some s } () := by
  have hflag : isFlagToken (a :: b :: ':' :: '"' :: (s ++ [y])) = true := by
    rcases ha with rfl | rfl <;> simp [isFlagToken]
  match s, hs with
  | [], _ =>
    have hp := pcl_quote_aux a b y [NUL] 0 hy (by simp) (by simp)
    have := wmain_body_install o st a b [':', '"', y] _ none hb hflag (by simpa using hp)
    simpa using this
  | x :: xs, hs =>
    have hx : x ≠ NUL := hs x (by simp)
    have hxs : NoNul xs := fun c hc => hs c (by simp [hc])
    have hxq : NoNul (xs ++ [y]) := by
      intro c hc
      rcases List.mem_append.1 hc with h | h
      · exact hxs c h
      · simp only [List.mem_singleton] at h
        subst h
        exact hy
    have htw : ((xs ++ [y] ++ [NUL]).takeWhile (fun c => c != NUL)).length = xs.length + 1 := by
      rw [show xs ++ [y] ++ [NUL] = (xs ++ [y]) ++ NUL :: [] by simp,
        takeWhile_noNul _ [] hxq]
      simp
    have hp := pcl_quote_aux a b x (xs ++ [y] ++ [NUL]) (xs.length + 1) hx (by simp) htw
    have hset : (x :: (xs ++ [y] ++ [NUL])).set (xs.length + 1) NUL
        = x :: (xs ++ [NUL, NUL]) := by
      simp [List.set_append]
    rw [hset] at hp
    have := wmain_body_install o st a b (':' :: '"' :: (x :: xs ++ [y])) _ (some 4) hb
      hflag (by simpa using hp)
    rw [this]
    have hc : cstrAt (a :: b :: ':' :: '"' :: x :: (xs ++ [NUL, NUL])) 4 = x :: xs := by
      simp [cstrAt, List.takeWhile_cons, hx, takeWhile_noNul xs [NUL] hxs]
    simp [hc]

/-- An opening quote without a closing one: the parameter is the sub-argument
without its last character. -/
theorem install_open_quote (o : Oracle) (st : State) (a b : Char) (s : WStr)
    (ha : a = '/' ∨ a = '-') (hb : o.tolowerW b = 'i') (hs : NoNul s) (hne : s ≠ []) :
    wmain_body o st (a :: b :: ':' :: '"' :: s) =
      .ok { st with CallInstall := true, wsCommandLine := some s.dropLast } () := by
  obtain ⟨s1, y, rfl⟩ : ∃ s1 y, s = s1 ++ [y] :=
    ⟨s.dropLast, s.getLast hne, (List.dropLast_append_getLast hne).symm⟩
  have hy : y ≠ NUL := hs y (by simp)
  have hs1 : NoNul s1 := fun c hc => hs c (by simp [hc])
  rw [List.dropLast_concat]
  exact install_strips_last o st a b y s1 ha hb hs1 hy

/-- C15, at the failing input.  The sub-argument of `/i:"abc` opens with a quote
and does not end with one.  After the comment `remove double quotes`,
`parse_command_line` skips the opening quote and overwrites the last character
without testing that it is a quote: the install parameter is `ab`, and
`DllInstall` of a module named afterwards gets `(TRUE, "ab")`.  With both quotes
(`/i:"abc"`) the parameter is `abc`. -/
theorem open_quote_loses_last_character :
    List.getLast? ['a', 'b', 'c'] ≠ some '"' ∧
    wmain_body okOracle startState ['/', 'i', ':', '"', 'a', 'b', 'c'] =
      .ok { startState with CallInstall := true, wsCommandLine := some ['a', 'b'] } () ∧
    invokedCalls
      (wmain okOracle [progName, ['/', 'i', ':', '"', 'a', 'b', 'c'], aDll]).1.calls =
      [(aDll, .DllRegisterServer), (aDll, .DllInstall true (some ['a', 'b']))] ∧
    wmain_body okOracle startState ['/', 'i', ':', '"', 'a', 'b', 'c', '"'] =
      .ok { startState with CallInstall := true, wsCommandLine := some ['a', 'b', 'c'] } () :=
  ⟨by decide,
   install_open_quote okOracle startState '/' 'i' ['a', 'b', 'c'] (Or.inl rfl) (by decide)
     (by decide) (by decide),
   by decide,
   install_quoted okOracle startState '/' 'i' ['a', 'b', 'c'] (Or.inl rfl) (by decide)
     (by decide)⟩

theorem doOp_withReg (o : Oracle) (s : State) (b : Bool) (t : WStr) (c : Call) :
    doOp o (s.withReg b) t c = (doOp o s t c).mapState (fun x => x.withReg b) := by
  simp only [doOp, runOp, State.withReg, say]
  split
  · simp [Outcome.mapState]
  · split
    · simp [Outcome.mapState]
    · split <;> simp [Outcome.mapState]

theorem runOps_withReg (o : Oracle) (b : Bool) (t : WStr) (cs : List Call) :
    ∀ s : State, runOps o (s.withReg b) t cs =
      (runOps o s t cs).mapState (fun x => x.withReg b) := by
  induction cs with
  | nil => intro s; rfl
  | cons c cs ih =>
    intro s
    simp only [runOps, doOp_withReg]
    cases doOp o s t c with
    | halt s1 e => rfl
    | ok s1 res =>
      simp only [Outcome.mapState]
      split
      · rfl
      · exact ih s1

theorem mapState_mapState {α : Type} (f g : State → State) (r : Outcome α) :
    (r.mapState f).mapState g = r.mapState (fun x => g (f x)) := by
  cases r <;> rfl

/-- Without `/i` in effect the value of `CallRegister` does not change what is
done for a module name. -/
theorem wmain_target_withReg (o : Oracle) (s : State) (b : Bool) (t : WStr)
    (hi : s.CallInstall = false) :
    wmain_target o (s.withReg b) t = (wmain_target o s t).mapState (fun x => x.withReg b) := by
  rw [wmain_target_runOps, wmain_target_runOps]
  have hp : plannedCalls (s.withReg b) = plannedCalls s := by
    simp [plannedCalls, State.withReg, hi, regCall]
  rw [hp]
  exact runOps_withReg o b t (plannedCalls s) { s with DllFound := true }

theorem output_write_withReg (s : State) (b : Bool) (m : Msg) :
    output_write (s.withReg b) m = (output_write s m).withReg b := by
  unfold output_write
  simp only [State.withReg]
  split <;> rfl

theorem wmain_switch_withReg (o : Oracle) (s : State) (b : Bool) (tok : WStr)
    (buf : List Char) :
    (wmain_switch o (s.withReg b) tok buf).mapState (fun x => x.withReg true) =
      (wmain_switch o s tok buf).mapState (fun x => x.withReg true) := by
  unfold wmain_switch
  cases readAt buf 1 with
  | none => rfl
  | some a1 =>
    simp only
    split
    · rfl
    split
    · rfl
    split
    · cases parse_command_line buf 2 with
      | none => rfl
      | some r =>
        obtain ⟨b1, p⟩ := r
        cases p <;> rfl
    split
    · rfl
    split
    · rfl
    · simp only [output_write_withReg, Outcome.mapState]
      rfl

theorem wmain_body_withReg (o : Oracle) (s : State) (b : Bool) (tok : WStr)
    (hi : s.CallInstall = false) :
    (wmain_body o (s.withReg b) tok).mapState (fun x => x.withReg true) =
      (wmain_body o s tok).mapState (fun x => x.withReg true) := by
  unfold wmain_body
  cases flagTest (argvBuf tok) with
  | none => rfl
  | some f =>
    cases f with
    | true => exact wmain_switch_withReg o s b tok _
    | false =>
      simp only [wmain_target_withReg o s b tok hi, mapState_mapState]
      rfl

/-- A token other than an `i` flag leaves `CallInstall` unset. -/
theorem wmain_body_keeps_CallInstall (o : Oracle) (s s1 : State) (tok : WStr)
    (hi : s.CallInstall = false)
    (hno : flagTest (argvBuf tok) = some true → o.tolowerW (flagLetter tok) ≠ 'i')
    (h : wmain_body o s tok = .ok s1 ()) : s1.CallInstall = false := by
  cases hft : flagTest (argvBuf tok) with
  | none => simp [wmain_body, hft] at h
  | some f =>
    cases f with
    | false =>
      simp only [wmain_body, hft] at h
      have := wmain_target_sameFlags o s tok
      rw [h] at this
      exact this.2.2.1.trans hi
    | true =>
      have hl := hno hft
      rcases wmain_body_flag o s tok hft with ⟨_, s2, h2, _⟩ | ⟨_, h2⟩
      · simp only [wmain_body, hft, wmain_switch, readAt_one_of_flag tok hft, hl,
          ↓reduceIte] at h
        by_cases h1 : o.tolowerW (flagLetter tok) = 'u'
        · simp [h1] at h
          subst h; exact hi
        by_cases h3 : o.tolowerW (flagLetter tok) = 's'
        · simp [h1, h3] at h
          subst h; exact hi
        by_cases h4 : o.tolowerW (flagLetter tok) = 'n'
        · simp [h1, h3, h4] at h
          subst h; exact hi
        by_cases h5 : o.tolowerW (flagLetter tok) = 'c'
        · simp [h1, h3, h4, h5] at h
          subst h; exact hi
        simp [h1, h3, h4, h5] at h
      · rw [h2] at h; cases h

theorem withReg_of_eq {s1 s2 : State} (h : s1.withReg true = s2.withReg true) :
    s1 = s2.withReg s1.CallRegister := by
  obtain ⟨a1, b1, c1, d1, e1, f1, g1, h1⟩ := s1
  obtain ⟨a2, b2, c2, d2, e2, f2, g2, h2⟩ := s2
  simp only [State.withReg, State.mk.injEq, true_and] at h ⊢
  simp [h]

theorem isNoRegisterToken_cases {tok : WStr} (h : isNoRegisterToken tok = true) :
    ∃ a, (a = '/' ∨ a = '-') ∧ tok = [a, 'n'] := by
  simp only [isNoRegisterToken, Bool.or_eq_true, beq_iff_eq] at h
  rcases h with rfl | rfl
  · exact ⟨'/', Or.inl rfl, rfl⟩
  · exact ⟨'-', Or.inr rfl, rfl⟩

theorem wmain_loop_delete_n (o : Oracle) (hn : o.tolowerW 'n' = 'n') (toks : List WStr) :
    ∀ (s : State) (b : Bool), s.CallInstall = false →
      (∀ tok ∈ toks, flagTest (argvBuf tok) = some true →
        o.tolowerW (flagLetter tok) ≠ 'i') →
      (wmain_loop o (s.withReg b) (toks.filter fun tok => !isNoRegisterToken tok)).mapState
          (fun x => x.withReg true) =
        (wmain_loop o s toks).mapState (fun x => x.withReg true) := by
  induction toks with
  | nil => intro s b _ _; rfl
  | cons tok rest ih =>
    intro s b hi hno
    have hrest : ∀ tk ∈ rest, flagTest (argvBuf tk) = some true →
        o.tolowerW (flagLetter tk) ≠ 'i' := fun tk htk => hno tk (by simp [htk])
    cases hdel : isNoRegisterToken tok with
    | true =>
      obtain ⟨a, ha, rfl⟩ := isNoRegisterToken_cases hdel
      simp only [List.filter_cons, hdel, Bool.not_true, Bool.false_eq_true, ↓reduceIte,
        wmain_loop, flag_no_register o s a 'n' ha hn]
      exact ih (s.withReg false) b hi hrest
    | false =>
      simp only [List.filter_cons, hdel, Bool.not_false, ↓reduceIte, wmain_loop]
      have hbody := wmain_body_withReg o s b tok hi
      cases hb1 : wmain_body o (s.withReg b) tok with
      | halt s1 e1 =>
        cases hb2 : wmain_body o s tok with
        | halt s2 e2 =>
          rw [hb1, hb2] at hbody
          exact hbody
        | ok s2 u2 =>
          rw [hb1, hb2] at hbody
          simp [Outcome.mapState] at hbody
      | ok s1 u1 =>
        cases hb2 : wmain_body o s tok with
        | halt s2 e2 =>
          rw [hb1, hb2] at hbody
          simp [Outcome.mapState] at hbody
        | ok s2 u2 =>
          rw [hb1, hb2] at hbody
          simp only [Outcome.mapState, Outcome.ok.injEq, and_true] at hbody
          have hi2 := wmain_body_keeps_CallInstall o s s2 tok hi (hno tok (by simp)) hb2
          rw [withReg_of_eq hbody]
          exact ih s2 s1.CallRegister hi2 hrest

theorem wmain_end_withReg (r : Outcome Unit) (b : Bool) :
    wmain_end (r.mapState (fun x => x.withReg b)) =
      ((wmain_end r).1.withReg b, (wmain_end r).2) := by
  cases r with
  | halt s e => rfl
  | ok s u =>
    cases hd : s.DllFound with
    | true =>
      have : (s.withReg b).DllFound = true := hd
      simp [wmain_end, Outcome.mapState, hd, this]
      rfl
    | false =>
      have : (s.withReg b).DllFound = false := hd
      simp [wmain_end, Outcome.mapState, hd, this, output_write_withReg]

theorem flagTest_none_iff (tok : WStr) : flagTest (argvBuf tok) = none ↔ LoneSlash tok := by
  constructor
  · intro h
    match tok, h with
    | [], h => simp [flagTest, argvBuf, readAt, NUL_ne_slash, NUL_ne_dash] at h
    | [a], h =>
      by_cases ha : a = '/' ∨ a = '-'
      · rcases ha with rfl | rfl
        · exact Or.inl rfl
        · exact Or.inr rfl
      · simp [flagTest, argvBuf, readAt, ha] at h
    | a :: b :: r, h =>
      by_cases ha : a = '/' ∨ a = '-' <;> simp [flagTest, argvBuf, readAt, ha] at h
  · exact flagTest_loneSlash tok

theorem runOps_halt_ending (o : Oracle) (t : WStr) (cs : List Call) :
    ∀ (s s1 : State) (e : Ending), runOps o s t cs = .halt s1 e →
      e = .exited 1 ∨ e = .returned (-1) := by
  induction cs with
  | nil => intro s s1 e h; simp [runOps] at h
  | cons c cs ih =>
    intro s s1 e h
    unfold runOps at h
    have hx := doOp_exit o s t c
    generalize doOp o s t c = r at hx h
    cases hx with
    | loadFailed =>
      simp only [Outcome.halt.injEq] at h
      exact Or.inl h.2.symm
    | callFailed hd hh hr hhr =>
      simp only [ne_eq, Int.reduceNeg, neg_eq_zero, one_ne_zero, not_false_eq_true, ↓reduceIte,
        Outcome.halt.injEq] at h
      exact Or.inr h.2.symm
    | missing hd hh =>
      simp only [ne_eq, not_true_eq_false, ↓reduceIte] at h
      exact ih _ s1 e h
    | succeeded hd hh hr hhr =>
      simp only [ne_eq, not_true_eq_false, ↓reduceIte] at h
      exact ih _ s1 e h

/-- The loop body reads outside a token only through the flag test on a
one-character `/` or `-`. -/
theorem wmain_body_outOfBounds (o : Oracle) (s s1 : State) (tok : WStr)
    (h : wmain_body o s tok = .halt s1 .outOfBounds) : LoneSlash tok := by
  cases hft : flagTest (argvBuf tok) with
  | none => exact (flagTest_none_iff tok).1 hft
  | some f =>
    cases f with
    | true =>
      rcases wmain_body_flag o s tok hft with ⟨_, s2, h2, _⟩ | ⟨_, h2⟩
      · rw [h2] at h; cases h
      · rw [h2] at h; simp at h
    | false =>
      simp only [wmain_body, hft, wmain_target_runOps] at h
      rcases runOps_halt_ending o tok _ _ s1 _ h with h1 | h1 <;> cases h1

theorem wmain_loop_outOfBounds (o : Oracle) (toks : List WStr) :
    ∀ (s s1 : State), wmain_loop o s toks = .halt s1 .outOfBounds →
      ∃ tok ∈ toks, LoneSlash tok := by
  induction toks with
  | nil => intro s s1 h; simp [wmain_loop] at h
  | cons tok rest ih =>
    intro s s1 h
    simp only [wmain_loop] at h
    cases hb : wmain_body o s tok with
    | halt s2 e =>
      rw [hb] at h
      simp only [Outcome.halt.injEq] at h
      obtain ⟨rfl, rfl⟩ := h
      exact ⟨tok, by simp, wmain_body_outOfBounds o s _ tok hb⟩
    | ok s2 u =>
      rw [hb] at h
      obtain ⟨tk, htk, hl⟩ := ih s2 s1 h
      exact ⟨tk, by simp [htk], hl⟩

/-- Apart from the flag test on a one-character `/` or `-`, every read and write
of `wmain` and `parse_command_line` stays within the token and its terminator:
a run on an argument list without such a token never reads or writes outside
an object, and on a flag token `parse_command_line` never does. -/
theorem accesses_in_bounds (o : Oracle) (prog : WStr) (args : List WStr) :
    ((∀ tok ∈ args, ¬ LoneSlash tok) → (wmain o (prog :: args)).2 ≠ .outOfBounds) ∧
    (∀ tok, flagTest (argvBuf tok) = some true →
      ∃ r, parse_command_line (argvBuf tok) 2 = some r) := by
  refine ⟨fun hno hoob => ?_, fun tok h => parse_command_line_total tok h⟩
  rw [wmain_eq_end] at hoob
  cases hr : wmain_loop o startState (prog :: args).tail with
  | halt s1 e =>
    rw [hr] at hoob
    have he : e = .outOfBounds := hoob
    subst he
    obtain ⟨tk, htk, hl⟩ := wmain_loop_outOfBounds o args startState s1 hr
    exact hno tk htk hl
  | ok s1 u =>
    rw [hr] at hoob
    simp only [wmain_end] at hoob
    split at hoob <;> simp at hoob

/-- C17, at the failing input.  The object behind the one-character token `/` (or
`-`) has two positions, the character and the terminator.  The flag test of
`wmain` finds the first character to be `/` and goes on to evaluate
`argv[i][2]`, which is outside the object: the test of the third character is
evaluated on a token of length 1, for every oracle and whatever the other
tokens are. -/
theorem third_character_read_past_terminator :
    (argvBuf ['/']).length = 2 ∧
    readAt (argvBuf ['/']) 2 = none ∧ readAt (argvBuf ['-']) 2 = none ∧
    flagTest (argvBuf ['/']) = none ∧ flagTest (argvBuf ['-']) = none ∧
    (∀ (o : Oracle) (prog : WStr) (post : List WStr),
      (wmain o (prog :: ['/'] :: post)).2 = .outOfBounds ∧
      (wmain o (prog :: ['-'] :: post)).2 = .outOfBounds) :=
  ⟨rfl, rfl, rfl, rfl, rfl, fun _ _ _ => ⟨rfl, rfl⟩⟩

/-- Later tokens and earlier targets on argument lists without a one-character
`/` or `-`: neither run reads outside a token, and the module loads and
entry-point calls (with their arguments and results) of the run on `pre` are a
prefix of those of the run on `pre ++ post`. -/
theorem loads_prefix_in_bounds (o : Oracle) (prog : WStr) (pre post : List WStr)
    (hno : ∀ tok ∈ pre ++ post, ¬ LoneSlash tok) :
    (wmain o (prog :: pre)).2 ≠ .outOfBounds ∧
    (wmain o (prog :: (pre ++ post))).2 ≠ .outOfBounds ∧
    loadsAndCalls (wmain o (prog :: pre)).1.calls <+:
      loadsAndCalls (wmain o (prog :: (pre ++ post))).1.calls :=
  ⟨(accesses_in_bounds o prog pre).1 (fun tok h => hno tok (List.mem_append_left _ h)),
   (accesses_in_bounds o prog (pre ++ post)).1 hno,
   loads_prefix o prog pre post⟩

/-- With every call succeeding, `a.dll /u b.dll` registers `a.dll` and unregisters
`b.dll`, and the loads and calls of `a.dll` alone are a prefix. -/
theorem loads_prefix_in_bounds_example :
    invokedCalls (wmain okOracle [progName, aDll, ['/', 'u'], bDll]).1.calls =
      [(aDll, .DllRegisterServer), (bDll, .DllUnregisterServer)] ∧
    (loadsAndCalls (wmain okOracle [progName, aDll]).1.calls <+:
      loadsAndCalls (wmain okOracle [progName, aDll, ['/', 'u'], bDll]).1.calls) ∧
    (invokedCalls (wmain okOracle [progName, aDll, ['/', 'u'], bDll]).1.calls).Sublist
      [(aDll, .DllRegisterServer), (bDll, .DllUnregisterServer)] :=
  ⟨by decide,
   (loads_prefix_in_bounds okOracle progName [aDll] [['/', 'u'], bDll] (by decide)).2.2,
   register_then_unregister okOracle progName aDll bDll (by decide) (by decide) (by decide)⟩

/-- Silent mode on argument lists without a one-character `/` or `-`.  Let `/s`
(or `-s`, or the letter in upper case) be inserted between the tokens `pre` and
`post`.  Neither run reads outside a token.  If the run of `pre` is stopped, the
inserted token is never reached and the run is unchanged.  Otherwise, with `s`
the state after `pre`, the run with the token ends in the final state of the run
without it except that `Silent` is set and the messages are those of `s`: no
message is reported after the token (failure, usage and not-implemented
messages included).  In both cases the ending (exit status) and the log of loads
and calls are unchanged. -/
theorem silent_insert_in_bounds (o : Oracle) (a b : Char) (ha : a = '/' ∨ a = '-')
    (hb : o.tolowerW b = 's') (prog : WStr) (pre post : List WStr)
    (hno : ∀ tok ∈ pre ++ post, ¬ LoneSlash tok) :
    (wmain o (prog :: (pre ++ post))).2 ≠ .outOfBounds ∧
    (wmain o (prog :: (pre ++ [a, b] :: post))).2 = (wmain o (prog :: (pre ++ post))).2 ∧
    (wmain o (prog :: (pre ++ [a, b] :: post))).1.calls =
      (wmain o (prog :: (pre ++ post))).1.calls ∧
    (∀ s, wmain_loop o startState pre = .ok s () →
      (wmain o (prog :: (pre ++ [a, b] :: post))).1.out = s.out ∧
      wmain o (prog :: (pre ++ [a, b] :: post)) =
        ((wmain o (prog :: (pre ++ post))).1.silenced s.out,
         (wmain o (prog :: (pre ++ post))).2)) ∧
    (∀ s e, wmain_loop o startState pre = .halt s e →
      wmain o (prog :: (pre ++ [a, b] :: post)) = wmain o (prog :: (pre ++ post))) := by
  have hok : ∀ s, wmain_loop o startState pre = .ok s () →
      wmain o (prog :: (pre ++ [a, b] :: post)) =
        ((wmain o (prog :: (pre ++ post))).1.silenced s.out,
         (wmain o (prog :: (pre ++ post))).2) :=
    fun s hpre => wmain_insert_silent o a b ha hb prog pre post s hpre
  have hhalt : ∀ s e, wmain_loop o startState pre = .halt s e →
      wmain o (prog :: (pre ++ [a, b] :: post)) = wmain o (prog :: (pre ++ post)) :=
    fun s e hpre => wmain_insert_after_halt o [a, b] prog pre post s e hpre
  refine ⟨(accesses_in_bounds o prog (pre ++ post)).1 hno, ?_, ?_,
    fun s hpre => ⟨by rw [hok s hpre]; rfl, hok s hpre⟩, hhalt⟩
  · cases hr : wmain_loop o startState pre with
    | halt s e => rw [hhalt s e hr]
    | ok s u => rw [hok s hr]
  · cases hr : wmain_loop o startState pre with
    | halt s e => rw [hhalt s e hr]
    | ok s u => rw [hok s hr]; rfl

/-- Every entry point fails; `a.dll` alone reports the failure, `/s a.dll` returns
the same -1 after the same loads and calls and reports nothing. -/
theorem silent_insert_in_bounds_example :
    (wmain failOracle [progName, ['/', 's'], aDll]).2 = .returned (-1) ∧
    (wmain failOracle [progName, ['/', 's'], aDll]).1.calls =
      (wmain failOracle [progName, aDll]).1.calls ∧
    (wmain failOracle [progName, ['/', 's'], aDll]).1.out = [] ∧
    (wmain failOracle [progName, aDll]).1.out = [.STRING_REGISTER_FAILED aDll] :=
  have h := silent_insert_in_bounds failOracle '/' 's' (Or.inl rfl) (by decide)
    progName [] [aDll] (by decide)
  ⟨h.2.1.trans (by decide), h.2.2.1, (h.2.2.2.1 startState rfl).1, by decide⟩

/-- The flag `/n` without `/i`, on argument lists without a one-character `/` or
`-`.  For every such list in which no token accepted by the flag test has a
letter that `tolowerW` maps to `i`, no run reads outside a token, and deleting
all `/n` and `-n` tokens leaves the ending (exit status), the log of loads and
calls and the messages of `wmain` unchanged; so `/n target` makes the same calls
as `target` alone, the register call. -/
theorem delete_n_in_bounds (o : Oracle) (hn : o.tolowerW 'n' = 'n') (prog : WStr)
    (args : List WStr)
    (hno : ∀ tok ∈ args, flagTest (argvBuf tok) = some true →
      o.tolowerW (flagLetter tok) ≠ 'i')
    (hls : ∀ tok ∈ args, ¬ LoneSlash tok) :
    (wmain o (prog :: args)).2 ≠ .outOfBounds ∧
    (wmain o (prog :: args.filter fun tok => !isNoRegisterToken tok)).2 =
      (wmain o (prog :: args)).2 ∧
    (wmain o (prog :: args.filter fun tok => !isNoRegisterToken tok)).1.calls =
      (wmain o (prog :: args)).1.calls ∧
    (wmain o (prog :: args.filter fun tok => !isNoRegisterToken tok)).1.out =
      (wmain o (prog :: args)).1.out := by
  have h := wmain_loop_delete_n o hn args startState true rfl hno
  have h2 := congrArg wmain_end h
  rw [wmain_end_withReg, wmain_end_withReg] at h2
  have hs : startState.withReg true = startState := rfl
  rw [hs] at h2
  refine ⟨(accesses_in_bounds o prog args).1 hls, ?_⟩
  rw [wmain_eq_end, wmain_eq_end]
  simp only [List.tail_cons]
  have h3 := (Prod.mk.injEq _ _ _ _).mp h2
  refine ⟨h3.2, ?_, ?_⟩
  · have := congrArg (fun x : State => x.calls) h3.1
    exact this
  · have := congrArg (fun x : State => x.out) h3.1
    exact this

/-- The list `/n a.dll` runs as `a.dll`: `DllRegisterServer` is called. -/
theorem delete_n_in_bounds_example :
    (wmain okOracle [progName, aDll]).1.calls =
      (wmain okOracle [progName, ['/', 'n'], aDll]).1.calls ∧
    (wmain okOracle [progName, aDll]).1.out =
      (wmain okOracle [progName, ['/', 'n'], aDll]).1.out ∧
    invokedCalls (wmain okOracle [progName, ['/', 'n'], aDll]).1.calls =
      [(aDll, .DllRegisterServer)] :=
  have h := delete_n_in_bounds okOracle (by decide) progName [['/', 'n'], aDll]
    (by decide) (by decide)
  ⟨h.2.2.1, h.2.2.2, by decide⟩

/-- C14, at the failing input: `/s` inserted between `/` and `:x`.  In both runs
the flag test on the one-character token `/` reads `argv[1][2]`, outside the
token.  With the argument strings back to back that position holds the first
character of the next token.  In `/ :x` it is `:`, so `/` is taken as a flag
whose letter is the terminator: the switch reports an unrecognized switch and
`wmain` returns 1 with nothing loaded.  In `/ /s :x` it is `/`, so `/` is taken
as a module name and loaded, then `/s` is processed and `:x` is loaded, and
`wmain` returns 0: the inserted `/s` changes the exit status and the loads. -/
theorem silent_insert_after_lone_slash :
    readAt (argvBuf ['/']) 2 = none ∧
    (wmain okOracle [progName, ['/'], [':', 'x']]).2 = .outOfBounds ∧
    (wmain okOracle [progName, ['/'], ['/', 's'], [':', 'x']]).2 = .outOfBounds ∧
    readAt (laidOut [['/'], [':', 'x']]) 2 = some ':' ∧
    readAt (laidOut [['/'], ['/', 's'], [':', 'x']]) 2 = some '/' ∧
    flagTest (laidOut [['/'], [':', 'x']]) = some true ∧
    wmain_end (wmain_switch okOracle startState ['/'] (laidOut [['/'], [':', 'x']])) =
      ({ startState with out := [.STRING_UNRECOGNIZED_SWITCH ['/'], .STRING_USAGE] },
       .returned 1) ∧
    flagTest (laidOut [['/'], ['/', 's'], [':', 'x']]) = some false ∧
    (wmain_target okOracle startState ['/']).halted = false ∧
    (wmain_end (wmain_loop okOracle (wmain_target okOracle startState ['/']).state
      [['/', 's'], [':', 'x']])).2 = .returned 0 ∧
    loadedModules (wmain_end (wmain_loop okOracle
      (wmain_target okOracle startState ['/']).state [['/', 's'], [':', 'x']])).1.calls =
      [['/'], [':', 'x']] := by
  decide

/-- C16, at the failing input: `/n` deleted from `/ /n :x`, a list without an `i`
flag token.  In both runs the flag test on the one-character token `/` reads
`argv[1][2]`, outside the token.  With the argument strings back to back that
position holds the first character of the next token.  In `/ /n :x` it is `/`,
so `/` is taken as a module name and loaded, then `/n` is processed and `:x` is
loaded, and `wmain` returns 0.  In `/ :x`, the list without `/n`, it is `:`, so
`/` is taken as a flag whose letter is the terminator: the switch reports an
unrecognized switch and `wmain` returns 1 with nothing loaded.  Deleting `/n`
changes the exit status, the loads and the messages. -/
theorem delete_n_after_lone_slash :
    [['/'], ['/', 'n'], [':', 'x']].filter (fun tok => !isNoRegisterToken tok) =
      [['/'], [':', 'x']] ∧
    (∀ tok ∈ [['/'], ['/', 'n'], [':', 'x']], okOracle.tolowerW (flagLetter tok) ≠ 'i') ∧
    readAt (argvBuf ['/']) 2 = none ∧
    (wmain okOracle [progName, ['/'], ['/', 'n'], [':', 'x']]).2 = .outOfBounds ∧
    (wmain okOracle [progName, ['/'], [':', 'x']]).2 = .outOfBounds ∧
    readAt (laidOut [['/'], ['/', 'n'], [':', 'x']]) 2 = some '/' ∧
    readAt (laidOut [['/'], [':', 'x']]) 2 = some ':' ∧
    flagTest (laidOut [['/'], ['/', 'n'], [':', 'x']]) = some false ∧
    (wmain_target okOracle startState ['/']).halted = false ∧
    (wmain_end (wmain_loop okOracle (wmain_target okOracle startState ['/']).state
      [['/', 'n'], [':', 'x']])).2 = .returned 0 ∧
    loadedModules (wmain_end (wmain_loop okOracle
      (wmain_target okOracle startState ['/']).state [['/', 'n'], [':', 'x']])).1.calls =
      [['/'], [':', 'x']] ∧
    flagTest (laidOut [['/'], [':', 'x']]) = some true ∧
    wmain_end (wmain_switch okOracle startState ['/'] (laidOut [['/'], [':', 'x']])) =
      ({ startState with out := [.STRING_UNRECOGNIZED_SWITCH ['/'], .STRING_USAGE] },
       .returned 1) := by
  decide

/-- C11, at the failing input: `pre` is `/` and `post` is `:x`.  The flag test on
the one-character token `/` reads `argv[1][2]`, outside the token.  In the run on
`pre` alone that position lies after the last argument string; let it hold a
character other than the terminator and `:`, here `A`.  Then `/` is taken as a
module name: it is loaded and `DllRegisterServer` is called.  In the run on
`pre ++ post`, with the argument strings back to back, the position holds the
`:` of `:x`, so `/` is taken as a flag whose letter is the terminator: the
switch reports an unrecognized switch and `wmain` returns 1 with nothing loaded.
The loads and calls of the run on `pre` are not a prefix of those of the run on
`pre ++ post`. -/
theorem prefix_fails_after_lone_slash :
    readAt (argvBuf ['/']) 2 = none ∧
    (wmain okOracle [progName, ['/']]).2 = .outOfBounds ∧
    (wmain okOracle [progName, ['/'], [':', 'x']]).2 = .outOfBounds ∧
    readAt (laidOut [['/']] ++ ['A']) 2 = some 'A' ∧
    flagTest (laidOut [['/']] ++ ['A']) = some false ∧
    loadsAndCalls (wmain_end (wmain_target okOracle startState ['/'])).1.calls =
      [.LoadLibraryExW ['/'] 1, .Invoke ['/'] .DllRegisterServer 0] ∧
    readAt (laidOut [['/'], [':', 'x']] ++ ['A']) 2 = some ':' ∧
    flagTest (laidOut [['/'], [':', 'x']] ++ ['A']) = some true ∧
    loadsAndCalls (wmain_end (wmain_switch okOracle startState ['/']
      (laidOut [['/'], [':', 'x']] ++ ['A']))).1.calls = [] ∧
    (wmain_end (wmain_switch okOracle startState ['/']
      (laidOut [['/'], [':', 'x']] ++ ['A']))).2 = .returned 1 ∧
    ¬ (loadsAndCalls (wmain_end (wmain_target okOracle startState ['/'])).1.calls <+:
      loadsAndCalls (wmain_end (wmain_switch okOracle startState ['/']
        (laidOut [['/'], [':', 'x']] ++ ['A']))).1.calls) := by
  decide

end Regsvr32
